import Mathlib

/-!
# Chat room coordinator (`src/pages/api/socket.js`)

A shallow embedding of the Socket.IO handler of the repository: the five
module-level maps, the per-connection `socketState`, the two kinds of
`setTimeout` callbacks, and every event handler, written as pure functions
that pass the state explicitly and return the list of emitted events.

Modelling conventions
* A JavaScript `Map` with string keys is an insertion-ordered association
  list (`JsMap`).
* `Date.now()` is an input of each handler (`now`, milliseconds): a handler
  runs to completion synchronously and reads one clock value.
* `Math.random()` and `toLocaleTimeString` are inputs of `sendMessage`.
* `console.log` is not modelled. The transport groups of `socket.join` and
  `socket.leave` are not modelled either: an emission records whether it was
  sent with `socket.emit` or with `io.to(roomCode).emit`.
* Payload fields are strings; a field that may be missing is an `Option`, and
  truthiness follows JavaScript (`""`, `0`, `null`, `undefined` are falsy).
* The room object captured by the typing timer closure is identified by an
  object id (`Room.oid`); a room removed from `rooms` is kept in `detached`
  because the closure still refers to it.
* A connection that has disconnected delivers no further event; its pending
  timers still run.
* `step` processes one event at a given clock value, `Reachable` closes the
  initial state under `step` for any events, clock values and timer firings,
  and `run` is the timed execution in which each timer fires at its due time.
-/

namespace ChatServer

/-! ## JavaScript `Map` -/

/-- Insertion-ordered association list standing for a JavaScript `Map`
with string keys. -/
abbrev JsMap (α : Type) := List (String × α)

namespace JsMap

variable {α : Type}

/-- The method `Map.prototype.get`; `none` stands for `undefined`. -/
def get? : JsMap α → String → Option α
  | [], _ => none
  | (k1, v) :: rest, k => if k1 = k then some v else get? rest k

/-- The method `Map.prototype.has`. -/
def has (m : JsMap α) (k : String) : Bool := (get? m k).isSome

/-- The method `Map.prototype.set`: an existing key keeps its position, a
new key is appended. -/
def set : JsMap α → String → α → JsMap α
  | [], k, v => [(k, v)]
  | (k1, v1) :: rest, k, v =>
    if k1 = k then (k1, v) :: rest else (k1, v1) :: set rest k v

/-- The method `Map.prototype.delete`. -/
def delete (m : JsMap α) (k : String) : JsMap α :=
  m.filter (fun p => decide (p.1 ≠ k))

/-- In-place mutation of the object stored under `k` (as in
`m.get(k).field = value`); nothing happens when the key is absent. -/
def update (m : JsMap α) (k : String) (f : α → α) : JsMap α :=
  m.map (fun p => if p.1 = k then (p.1, f p.2) else p)

/-- The keys in insertion order. -/
def keys (m : JsMap α) : List String := m.map Prod.fst

end JsMap

/-! ## Data model -/

/-- Value stored in `room.users` (a live member). -/
structure UserInfo where
  socketId : String
  status : String
  typing : Bool
  connected : Bool
  lastActivity : Nat
deriving DecidableEq, Repr

/-- Value stored in `roomParticipants.get(roomCode)` (a ghost participant). -/
structure Participant where
  name : String
  status : String
  connected : Bool
  lastSeen : Nat
  joinedAt : Nat
  socketId : String
deriving DecidableEq, Repr

/-- Value stored in `rooms`. `oid` is the identity of the JavaScript object. -/
structure Room where
  oid : Nat
  users : JsMap UserInfo
  userCount : Int
deriving DecidableEq, Repr

/-- Element of a `roomMessages` array. -/
inductive HistoryEntry where
  | notification (timestamp : Nat) (content : String)
  | chat (id sender : String) (timestamp : Nat)
      (content formattedContent status : String)
deriving DecidableEq, Repr

/-- The field `timestamp` of a history entry. -/
def HistoryEntry.timestamp : HistoryEntry → Nat
  | .notification t _ => t
  | .chat _ _ t _ _ _ => t

/-- The per-connection closure state: `socketState` and `socket.displayName`.
`live` is false once the connection has disconnected. -/
structure SocketState where
  currentRoom : Option String
  currentUser : Option String
  typingTimeout : Option Nat
  displayName : Option String
  live : Bool
deriving DecidableEq, Repr

/-- The state of a connection right after `io.on('connection')`. -/
def SocketState.fresh : SocketState :=
  { currentRoom := none, currentUser := none, typingTimeout := none,
    displayName := none, live := true }

/-- The callback of a pending `setTimeout`. -/
inductive TimerAction where
  | typingClear (sid roomCode : String) (roomOid : Nat) (displayName : String)
  | expireDisconnection (reconnectionKey : String)
deriving DecidableEq, Repr

/-- A pending timer: its handle, its due time and its callback. -/
structure Timer where
  id : Nat
  fireAt : Nat
  action : TimerAction
deriving DecidableEq, Repr

/-- Inbound payload (`roomCode`, `userName`, `displayName?`, `message`,
`status?`). -/
structure Message where
  roomCode : String
  userName : String
  displayName : Option String := none
  message : String := ""
  status : Option String := none
deriving DecidableEq, Repr

/-- Element of the `users` array of a `userList` event. -/
structure PresenceEntry where
  name : String
  status : String
  typing : Bool
  connected : Bool
  lastActivity : Nat
deriving DecidableEq, Repr

/-- Outbound payloads. `messageNotice` and `messageChat` are both sent under
the event name `message`. -/
inductive Payload where
  | error (message : String)
  | messageNotice (roomCode message : String) (timestamp : Nat)
  | messageChat (id roomCode sender : String) (timestamp : Nat)
      (status message : String)
  | messageHistory (roomCode : String) (messages : List HistoryEntry)
  | userList (roomCode : String) (count : Int) (activeCount : Nat)
      (users : List PresenceEntry)
  | typingStatus (roomCode userName : String) (isTyping : Bool)
deriving DecidableEq, Repr

/-- An emission: `socket.emit` or `io.to(roomCode).emit`. -/
inductive Emission where
  | toSocket (sid : String) (p : Payload)
  | toRoom (roomCode : String) (p : Payload)
deriving DecidableEq, Repr

/-- The module-level maps, the connections, and the pending timers. -/
structure State where
  rooms : JsMap Room
  recentDisconnections : JsMap Nat
  roomMessages : JsMap (List HistoryEntry)
  roomParticipants : JsMap (JsMap Participant)
  userJoinTimestamps : JsMap Nat
  sockets : JsMap SocketState
  timers : List Timer
  nextTimer : Nat
  nextOid : Nat
  detached : List Room
deriving DecidableEq, Repr

/-- The state of a freshly loaded module: every map is empty. -/
def State.init : State :=
  { rooms := [], recentDisconnections := [], roomMessages := [],
    roomParticipants := [], userJoinTimestamps := [], sockets := [],
    timers := [], nextTimer := 0, nextOid := 0, detached := [] }

/-- The constant `RECONNECTION_WINDOW`. -/
def RECONNECTION_WINDOW : Nat := 10000

/-- The constant `MESSAGE_STATUS.DELIVERED`. -/
def MESSAGE_STATUS_DELIVERED : String := "delivered"

/-- The delay of the typing auto-clear timer. -/
def TYPING_TIMEOUT : Nat := 3000

/-- JavaScript truthiness of a value that is `null`/`undefined` or a string. -/
def truthyStr : Option String → Bool
  | none => false
  | some x => decide (x ≠ "")

/-- The template literals that build `userRoomKey` and `reconnectionKey`. -/
def userRoomKey (displayName roomCode : String) : String :=
  displayName ++ "_" ++ roomCode

/-- The connection state of `sid` (a fresh one when the id is unknown). -/
def sockOf (s : State) (sid : String) : SocketState :=
  (s.sockets.get? sid).getD SocketState.fresh

/-! ## Module-level functions -/

/-- The function `createRoom` (lines 25-34): the new state and the room object
it returns. A room object it replaces stays reachable from closures, so it is
moved to `detached`. -/
def createRoom (s : State) (roomCode : String) : State × Room :=
  ({ s with
     rooms := s.rooms.set roomCode { oid := s.nextOid, users := [], userCount := 0 }
     roomMessages := s.roomMessages.set roomCode []
     roomParticipants := s.roomParticipants.set roomCode []
     nextOid := s.nextOid + 1
     detached := (s.rooms.get? roomCode).toList ++ s.detached },
   { oid := s.nextOid, users := [], userCount := 0 })

/-- The function `addNotificationToHistory` (lines 130-141); the result is
`none` for `undefined`. -/
def addNotificationToHistory (s : State) (roomCode content : String) (now : Nat) :
    State × Option Nat :=
  if !s.roomMessages.has roomCode then (s, none)
  else
    ({ s with roomMessages :=
        s.roomMessages.update roomCode (fun l => l ++ [.notification now content]) },
     some now)

/-- The function `removeUserFromRoom` (lines 37-67). -/
def removeUserFromRoom (s : State) (roomCode displayName : String)
    (isVoluntary : Bool) (now : Nat) : State × Bool :=
  match s.rooms.get? roomCode with
  | none => (s, false)
  | some room =>
    if !room.users.has displayName then (s, false)
    else
      let s1 := { s with rooms := s.rooms.update roomCode (fun r =>
        { r with users := r.users.delete displayName, userCount := r.userCount - 1 }) }
      if isVoluntary then
        let s2 := { s1 with roomParticipants :=
          s1.roomParticipants.update roomCode (fun ps => ps.delete displayName) }
        let key := userRoomKey displayName roomCode
        let s3 := { s2 with userJoinTimestamps := s2.userJoinTimestamps.delete key }
        ((addNotificationToHistory s3 roomCode
            (displayName ++ " ha abandonado la sala.") now).1, true)
      else
        ({ s1 with roomParticipants :=
            s1.roomParticipants.update roomCode (fun ps =>
              ps.update displayName (fun p =>
                { p with connected := false, status := "desconectado", lastSeen := now })) },
         true)

/-- The function `cleanupEmptyRoom` (lines 70-86). -/
def cleanupEmptyRoom (s : State) (roomCode : String) : State :=
  match s.rooms.get? roomCode with
  | none => s
  | some room =>
    if room.userCount > 0 then s
    else
      let hasMessages :=
        match s.roomMessages.get? roomCode with
        | none => false
        | some l => decide (l.length > 0)
      if !hasMessages then
        { s with
          rooms := s.rooms.delete roomCode
          roomMessages := s.roomMessages.delete roomCode
          roomParticipants := s.roomParticipants.delete roomCode
          detached := room :: s.detached }
      else s

/-- The expression `userName.split('_')[0]`: the characters before the first
underscore. -/
def splitFirst (userName : String) : String :=
  String.mk (userName.data.takeWhile (fun c => decide (c ≠ '_')))

/-- The function `getUserDisplayName` (lines 89-91):
`displayName || userName.split('_')[0]`. -/
def getUserDisplayName (m : Message) : String :=
  if truthyStr m.displayName then m.displayName.getD ""
  else splitFirst m.userName

/-- The object returned by `trackUserConnection`. -/
structure TrackResult where
  isFirstTimeJoining : Bool
  hadLeftVoluntarily : Bool
  joinTimestamp : Option Nat
deriving DecidableEq, Repr

/-- The function `trackUserConnection` (lines 94-109). -/
def trackUserConnection (s : State) (roomCode displayName : String) (now : Nat) :
    State × TrackResult :=
  let key := userRoomKey displayName roomCode
  let isFirstTimeJoining := !s.userJoinTimestamps.has key
  let hadLeftVoluntarily :=
    (match s.roomParticipants.get? roomCode with
     | none => false
     | some ps => ps.has displayName) && !s.userJoinTimestamps.has key
  if isFirstTimeJoining || hadLeftVoluntarily then
    ({ s with userJoinTimestamps := s.userJoinTimestamps.set key now },
     { isFirstTimeJoining, hadLeftVoluntarily, joinTimestamp := some now })
  else
    (s, { isFirstTimeJoining, hadLeftVoluntarily,
          joinTimestamp := s.userJoinTimestamps.get? key })

/-- The function `updateUserStatus` (lines 112-127). -/
def updateUserStatus (s : State) (roomCode displayName status : String)
    (lastActivity : Nat) : State :=
  if !s.rooms.has roomCode then s
  else
    { s with
      rooms := s.rooms.update roomCode (fun r =>
        { r with users := r.users.update displayName (fun u =>
            { u with status := status, lastActivity := lastActivity }) })
      roomParticipants := s.roomParticipants.update roomCode (fun ps =>
        ps.update displayName (fun p =>
          { p with status := status, lastSeen := lastActivity })) }

/-- The object returned by `createChatMessage`. -/
structure ChatResult where
  messageId : String
  timestamp : Nat
  formattedMessage : String
deriving DecidableEq, Repr

/-- The function `createChatMessage` (lines 144-164). `time` is the result of
`toLocaleTimeString` and `rnd` the random suffix. -/
def createChatMessage (s : State) (roomCode sender content : String)
    (now : Nat) (time rnd : String) : State × ChatResult :=
  let timestamp := now
  let messageId := "msg_" ++ toString timestamp ++ "_" ++ rnd
  let formattedMessage := sender ++ " [" ++ time ++ "]: " ++ content
  ({ s with roomMessages := s.roomMessages.update roomCode (fun l =>
      l ++ [.chat messageId sender timestamp content formattedMessage
              MESSAGE_STATUS_DELIVERED]) },
   { messageId, timestamp, formattedMessage })

/-- The function `sendRecentMessageHistory` (lines 167-193). -/
def sendRecentMessageHistory (s : State) (sid roomCode displayName : String) :
    List Emission :=
  if !s.roomMessages.has roomCode || decide (displayName = "") then []
  else
    let messages := (s.roomMessages.get? roomCode).getD []
    if messages.length = 0 then []
    else
      match s.userJoinTimestamps.get? (userRoomKey displayName roomCode) with
      | none => []
      | some userJoinTime =>
        if userJoinTime = 0 then []
        else
          let relevantMessages :=
            messages.filter (fun msg => decide (msg.timestamp ≥ userJoinTime))
          if relevantMessages.length > 0 then
            [.toSocket sid (.messageHistory roomCode relevantMessages)]
          else []

/-- The first `forEach` of `updateUserList`: one entry per live member. -/
def liveEntry (p : String × UserInfo) : PresenceEntry :=
  { name := p.1
    status := if !p.2.connected then "desconectado" else p.2.status
    typing := p.2.typing
    connected := p.2.connected
    lastActivity := p.2.lastActivity }

/-- The second `forEach` of `updateUserList`: the entry of a ghost
(`lastSeen || Date.now()`). -/
def ghostEntry (now : Nat) (p : String × Participant) : PresenceEntry :=
  { name := p.1
    status := "desconectado"
    typing := false
    connected := false
    lastActivity := if p.2.lastSeen = 0 then now else p.2.lastSeen }

/-- The array `userList` built by `updateUserList`. -/
def presenceList (s : State) (room : Room) (roomCode : String) (now : Nat) :
    List PresenceEntry :=
  room.users.map liveEntry ++
    (((s.roomParticipants.get? roomCode).getD []).filter
      (fun p => !room.users.has p.1)).map (ghostEntry now)

/-- The counter `connectedCount` of `updateUserList`. -/
def connectedCount (room : Room) : Nat :=
  room.users.countP (fun p => p.2.connected)

/-- The function `updateUserList` (lines 196-243). -/
def updateUserList (s : State) (roomCode : String) (now : Nat) : List Emission :=
  match s.rooms.get? roomCode with
  | none => []
  | some room =>
    [.toRoom roomCode (.userList roomCode room.userCount (connectedCount room)
      (presenceList s room roomCode now))]

/-! ## Event handlers -/

/-- Apply `f` to the connection state of `sid`. -/
def updSock (s : State) (sid : String) (f : SocketState → SocketState) : State :=
  { s with sockets := s.sockets.update sid f }

/-- The call `clearTimeout(handle)`. -/
def clearTimeout (s : State) (handle : Nat) : State :=
  { s with timers := s.timers.filter (fun t => decide (t.id ≠ handle)) }

/-- The call `setTimeout(callback, delay)`; the handle is `s.nextTimer`. -/
def setTimeout (s : State) (now delay : Nat) (action : TimerAction) : State :=
  { s with
    timers := s.timers ++ [{ id := s.nextTimer, fireAt := now + delay, action := action }]
    nextTimer := s.nextTimer + 1 }

/-- The reconnection check of `joinRoom` (lines 296-303):
`lastDisconnection && (Date.now() - lastDisconnection < RECONNECTION_WINDOW)`,
and the deletion of the record when the check succeeds. -/
def reconnectionCheck (s : State) (reconnectionKey : String) (now : Nat) :
    State × Bool :=
  let isReconnection :=
    match s.recentDisconnections.get? reconnectionKey with
    | none => false
    | some lastDisconnection =>
      decide (lastDisconnection ≠ 0) &&
        decide ((now : Int) - (lastDisconnection : Int) < (RECONNECTION_WINDOW : Int))
  if isReconnection then
    ({ s with recentDisconnections := s.recentDisconnections.delete reconnectionKey }, true)
  else (s, false)

/-- The block that marks a live member and its ghost as disconnected
(lines 313-322 of `joinRoom`, lines 582-591 of `disconnect`). -/
def markDisconnected (s : State) (roomCode displayName : String) (now : Nat) : State :=
  { s with
    rooms := s.rooms.update roomCode (fun r =>
      { r with users := r.users.update displayName (fun u =>
          { u with connected := false, lastActivity := now }) })
    roomParticipants := s.roomParticipants.update roomCode (fun ps =>
      ps.update displayName (fun p =>
        { p with connected := false, status := "desconectado", lastSeen := now })) }

/-- Leaving the previous room inside `joinRoom` (lines 305-327). -/
def leavePreviousRoom (s : State) (sid displayName roomCode : String) (now : Nat) :
    State × List Emission :=
  let sock := sockOf s sid
  if truthyStr sock.currentRoom && decide (sock.currentRoom ≠ some roomCode) then
    let cur := sock.currentRoom.getD ""
    match s.rooms.get? cur with
    | none => (s, [])
    | some room =>
      if room.users.has displayName then
        let s1 := markDisconnected s cur displayName now
        (s1, updateUserList s1 cur now)
      else (s, [])
  else (s, [])

/-- Upsert of the ghost participant in `joinRoom` (lines 350-365). -/
def upsertParticipant (s : State) (sid roomCode displayName : String) (now : Nat) :
    State :=
  let ps := (s.roomParticipants.get? roomCode).getD []
  if !ps.has displayName then
    let ts := (s.userJoinTimestamps.get? (userRoomKey displayName roomCode)).getD 0
    { s with roomParticipants := s.roomParticipants.update roomCode (fun ps =>
        ps.set displayName
          { name := displayName, status := "activo", connected := true, lastSeen := now,
            joinedAt := if ts = 0 then now else ts, socketId := sid }) }
  else
    { s with roomParticipants := s.roomParticipants.update roomCode (fun ps =>
        ps.update displayName (fun p =>
          { p with connected := true, status := "activo", lastSeen := now,
                   socketId := sid })) }

/-- Upsert of the live member in `joinRoom` (lines 367-386); the boolean is
`isNewUser`. -/
def upsertLiveMember (s : State) (sid roomCode displayName : String) (now : Nat) :
    State × Bool :=
  match s.rooms.get? roomCode with
  | none => (s, false)
  | some room =>
    if !room.users.has displayName then
      ({ s with rooms := s.rooms.update roomCode (fun r =>
          { r with
            users := r.users.set displayName
              { socketId := sid, status := "activo", typing := false, connected := true,
                lastActivity := now }
            userCount := r.userCount + 1 }) }, true)
    else
      ({ s with rooms := s.rooms.update roomCode (fun r =>
          { r with users := r.users.update displayName (fun u =>
              { u with connected := true, status := "activo", lastActivity := now,
                       socketId := sid }) }) }, false)

/-- The join notification of `joinRoom` (lines 390-402). -/
def joinNotification (s : State) (roomCode displayName : String) (now : Nat) :
    State × List Emission :=
  let text := displayName ++ " ha ingresado a la sala."
  let r := addNotificationToHistory s roomCode text now
  (r.1, [.toRoom roomCode (.messageNotice roomCode text
    (match r.2 with
     | none => now
     | some ts => if ts = 0 then now else ts))])

/-- The local facts computed by one run of the `joinRoom` handler. -/
structure JoinInfo where
  rejected : Bool
  isReconnection : Bool
  isNewUser : Bool
  isFirstTimeJoining : Bool
  hadLeftVoluntarily : Bool
deriving DecidableEq, Repr

/-- The first half of an accepted `joinRoom` (lines 296-346): the reconnection
check, leaving the previous room, the update of the connection state, and the
creation of a missing room, log or ghost directory. The result is the state,
the emissions and `isReconnection`. -/
def joinPrepare (s : State) (sid : String) (m : Message) (now : Nat) :
    State × List Emission × Bool :=
  let roomCode := m.roomCode
  let userName := m.userName
  let displayName := getUserDisplayName m
  let rc := reconnectionCheck s (userRoomKey displayName roomCode) now
  let lp := leavePreviousRoom rc.1 sid displayName roomCode now
  let s3 := updSock lp.1 sid (fun k =>
    { k with currentRoom := some roomCode, currentUser := some userName,
             displayName := some displayName })
  let s4 := if !s3.rooms.has roomCode then (createRoom s3 roomCode).1 else s3
  let s5 := if !s4.roomMessages.has roomCode then
    { s4 with roomMessages := s4.roomMessages.set roomCode [] } else s4
  let s6 := if !s5.roomParticipants.has roomCode then
    { s5 with roomParticipants := s5.roomParticipants.set roomCode [] } else s5
  (s6, lp.2, rc.2)

/-- The `joinRoom` handler (lines 274-406), with its local facts. -/
def joinRoomCore (s : State) (sid : String) (m : Message) (now : Nat) :
    State × List Emission × JoinInfo :=
  let roomCode := m.roomCode
  let displayName := getUserDisplayName m
  if !s.rooms.has roomCode && s.roomParticipants.has roomCode then
    (s, [.toSocket sid (.error ("La sala " ++ roomCode ++ " ya no existe o ha sido cerrada."))],
     { rejected := true, isReconnection := false, isNewUser := false,
       isFirstTimeJoining := false, hadLeftVoluntarily := false })
  else
    let pr := joinPrepare s sid m now
    let tr := trackUserConnection pr.1 roomCode displayName now
    let s8 := upsertParticipant tr.1 sid roomCode displayName now
    let lm := upsertLiveMember s8 sid roomCode displayName now
    let jn :=
      if (lm.2 && !pr.2.2) || tr.2.hadLeftVoluntarily then
        joinNotification lm.1 roomCode displayName now
      else (lm.1, [])
    (jn.1,
     pr.2.1 ++ jn.2 ++ updateUserList jn.1 roomCode now ++
       sendRecentMessageHistory jn.1 sid roomCode displayName,
     { rejected := false, isReconnection := pr.2.2, isNewUser := lm.2,
       isFirstTimeJoining := tr.2.isFirstTimeJoining,
       hadLeftVoluntarily := tr.2.hadLeftVoluntarily })

/-- The `joinRoom` handler: new state and emissions. -/
def joinRoom (s : State) (sid : String) (m : Message) (now : Nat) :
    State × List Emission :=
  let r := joinRoomCore s sid m now
  (r.1, r.2.1)

/-- The `sendMessage` handler (lines 409-448). -/
def sendMessage (s : State) (sid : String) (m : Message) (now : Nat)
    (time rnd : String) : State × List Emission :=
  let sock := sockOf s sid
  if !truthyStr sock.currentRoom || !truthyStr sock.currentUser then (s, [])
  else if some m.roomCode = sock.currentRoom then
    let cur := m.roomCode
    let senderDisplayName := getUserDisplayName m
    let s1 := updateUserStatus s cur senderDisplayName "activo" now
    let s2 :=
      match sock.typingTimeout with
      | none => s1
      | some h => updSock (clearTimeout s1 h) sid (fun k => { k with typingTimeout := none })
    let ty : State × List Emission :=
      match s2.rooms.get? cur with
      | none => (s2, [])
      | some room =>
        if room.users.has senderDisplayName then
          ({ s2 with rooms := s2.rooms.update cur (fun r =>
              { r with users := r.users.update senderDisplayName (fun u =>
                  { u with typing := false }) }) },
           [.toRoom cur (.typingStatus cur senderDisplayName false)])
        else (s2, [])
    let cm := createChatMessage ty.1 cur senderDisplayName m.message now time rnd
    (cm.1,
     ty.2 ++ [.toRoom cur (.messageChat cm.2.messageId cur senderDisplayName
       cm.2.timestamp MESSAGE_STATUS_DELIVERED cm.2.formattedMessage)])
  else (s, [])

/-- The `leaveRoom` handler (lines 451-482). -/
def leaveRoom (s : State) (sid : String) (m : Message) (now : Nat) :
    State × List Emission :=
  if m.roomCode = "" then (s, [])
  else
    let roomCode := m.roomCode
    let displayName := getUserDisplayName m
    let lv : State × List Emission :=
      match s.rooms.get? roomCode with
      | none => (s, [])
      | some room =>
        if room.users.has displayName then
          let s1 := (removeUserFromRoom s roomCode displayName true now).1
          (cleanupEmptyRoom s1 roomCode,
           [.toRoom roomCode (.messageNotice roomCode
              (displayName ++ " ha abandonado la sala.") now)] ++
             updateUserList s1 roomCode now)
        else (s, [])
    let s2 :=
      if (sockOf lv.1 sid).currentRoom = some roomCode then
        updSock lv.1 sid (fun k => { k with currentRoom := none, currentUser := none })
      else lv.1
    (s2, lv.2)

/-- The `typing` handler (lines 485-521). -/
def typing (s : State) (sid : String) (m : Message) (now : Nat) :
    State × List Emission :=
  let sock := sockOf s sid
  if !truthyStr sock.currentRoom || !truthyStr sock.currentUser then (s, [])
  else
    let roomCode := m.roomCode
    let displayName := getUserDisplayName m
    match s.rooms.get? roomCode with
    | none => (s, [])
    | some room =>
      if room.users.has displayName then
        let s1 := { s with rooms := s.rooms.update roomCode (fun r =>
          { r with users := r.users.update displayName (fun u =>
              { u with typing := true, lastActivity := now }) }) }
        let s2 :=
          match sock.typingTimeout with
          | none => s1
          | some h => clearTimeout s1 h
        let handle := s2.nextTimer
        let s3 := setTimeout s2 now TYPING_TIMEOUT
          (.typingClear sid roomCode room.oid displayName)
        let s4 := updSock s3 sid (fun k => { k with typingTimeout := some handle })
        (s4, [.toRoom roomCode (.typingStatus roomCode displayName true)])
      else (s, [])

/-- The `stopTyping` handler (lines 523-548). -/
def stopTyping (s : State) (sid : String) (m : Message) (now : Nat) :
    State × List Emission :=
  let sock := sockOf s sid
  if !truthyStr sock.currentRoom || !truthyStr sock.currentUser then (s, [])
  else
    let roomCode := m.roomCode
    let displayName := getUserDisplayName m
    match s.rooms.get? roomCode with
    | none => (s, [])
    | some room =>
      if room.users.has displayName then
        let s1 := { s with rooms := s.rooms.update roomCode (fun r =>
          { r with users := r.users.update displayName (fun u =>
              { u with typing := false, lastActivity := now }) }) }
        let s2 :=
          match sock.typingTimeout with
          | none => s1
          | some h => updSock (clearTimeout s1 h) sid (fun k => { k with typingTimeout := none })
        (s2, [.toRoom roomCode (.typingStatus roomCode displayName false)])
      else (s, [])

/-- The `updateStatus` handler (lines 551-560). -/
def updateStatus (s : State) (sid : String) (m : Message) (now : Nat) :
    State × List Emission :=
  let sock := sockOf s sid
  if !truthyStr sock.currentRoom || !truthyStr sock.currentUser then (s, [])
  else
    let roomCode := m.roomCode
    let displayName := getUserDisplayName m
    let status := if truthyStr m.status then m.status.getD "" else "activo"
    let s1 := updateUserStatus s roomCode displayName status now
    (s1, updateUserList s1 roomCode now)

/-- The name used by `disconnect` (line 567):
`socket.displayName || socketState.currentUser.split('_')[0]`. -/
def disconnectName (sock : SocketState) : String :=
  if truthyStr sock.displayName then sock.displayName.getD ""
  else splitFirst (sock.currentUser.getD "")

/-- The `disconnect` handler (lines 563-598). -/
def disconnect (s : State) (sid : String) (now : Nat) : State × List Emission :=
  let sock := sockOf s sid
  if truthyStr sock.currentRoom && truthyStr sock.currentUser then
    let cur := sock.currentRoom.getD ""
    let displayName := disconnectName sock
    let reconnectionKey := userRoomKey displayName cur
    let s1 := { s with recentDisconnections := s.recentDisconnections.set reconnectionKey now }
    let s2 := setTimeout s1 now (RECONNECTION_WINDOW + 1000) (.expireDisconnection reconnectionKey)
    match s2.rooms.get? cur with
    | none => (s2, [])
    | some room =>
      if room.users.has displayName then
        let s3 := markDisconnected s2 cur displayName now
        (cleanupEmptyRoom s3 cur, updateUserList s3 cur now)
      else (s2, [])
  else (s, [])

/-- The callback of a timer that has just come due (the timer itself is
already off the pending list). The typing callback (lines 502-512) works on
the room object it captured; the expiry callback is lines 572-576. -/
def fireTimer (s : State) (t : Timer) : State × List Emission :=
  match t.action with
  | .expireDisconnection key =>
    ({ s with recentDisconnections := s.recentDisconnections.delete key }, [])
  | .typingClear sid roomCode oid displayName =>
    let r : State × List Emission :=
      match s.rooms.get? roomCode with
      | none => (s, [])
      | some room =>
        if room.oid = oid then
          if room.users.has displayName then
            ({ s with rooms := s.rooms.update roomCode (fun r =>
                { r with users := r.users.update displayName (fun u =>
                    { u with typing := false }) }) },
             [.toRoom roomCode (.typingStatus roomCode displayName false)])
          else (s, [])
        else
          match s.detached.find? (fun d => decide (d.oid = oid)) with
          | none => (s, [])
          | some d =>
            if d.users.has displayName then
              ({ s with detached := s.detached.map (fun d =>
                  if d.oid = oid then
                    { d with users := d.users.update displayName (fun u =>
                        { u with typing := false }) }
                  else d) },
               [.toRoom roomCode (.typingStatus roomCode displayName false)])
            else (s, [])
    (updSock r.1 sid (fun k => { k with typingTimeout := none }), r.2)

/-! ## Transition system -/

/-- Inbound events: the connection of a client, the seven events of a
connection, and a timer coming due. -/
inductive Event where
  | connection (sid : String)
  | joinRoom (sid : String) (m : Message)
  | sendMessage (sid : String) (m : Message) (time rnd : String)
  | leaveRoom (sid : String) (m : Message)
  | typing (sid : String) (m : Message)
  | stopTyping (sid : String) (m : Message)
  | updateStatus (sid : String) (m : Message)
  | disconnect (sid : String)
  | timeout (handle : Nat)
deriving DecidableEq, Repr

/-- Whether `sid` is a connected client: only those deliver events. -/
def isLive (s : State) (sid : String) : Bool :=
  match s.sockets.get? sid with
  | none => false
  | some k => k.live

/-- One event processed to completion at clock value `now`. -/
def step (s : State) (now : Nat) : Event → State × List Emission
  | .connection sid =>
    if s.sockets.has sid then (s, [])
    else ({ s with sockets := s.sockets.set sid SocketState.fresh }, [])
  | .joinRoom sid m => if isLive s sid then joinRoom s sid m now else (s, [])
  | .sendMessage sid m time rnd =>
    if isLive s sid then sendMessage s sid m now time rnd else (s, [])
  | .leaveRoom sid m => if isLive s sid then leaveRoom s sid m now else (s, [])
  | .typing sid m => if isLive s sid then typing s sid m now else (s, [])
  | .stopTyping sid m => if isLive s sid then stopTyping s sid m now else (s, [])
  | .updateStatus sid m => if isLive s sid then updateStatus s sid m now else (s, [])
  | .disconnect sid =>
    if isLive s sid then
      let r := disconnect s sid now
      (updSock r.1 sid (fun k => { k with live := false }), r.2)
    else (s, [])
  | .timeout handle =>
    match s.timers.find? (fun t => decide (t.id = handle)) with
    | none => (s, [])
    | some t => fireTimer (clearTimeout s handle) t

/-- States reachable from the initial state by any sequence of events at
any clock values (timers may fire at any moment and in any order). -/
inductive Reachable : State → Prop where
  | init : Reachable State.init
  | step (s : State) (now : Nat) (e : Event) : Reachable s → Reachable (step s now e).1

/-! ## Timed executions -/

/-- The pending timer with the least due time (the first such in creation
order). -/
def earliest : List Timer → Option Timer
  | [] => none
  | x :: rest =>
    match earliest rest with
    | none => some x
    | some y => if x.fireAt ≤ y.fireAt then some x else some y

/-- The next timer to run when the clock reaches `t`. -/
def nextDue (ts : List Timer) (t : Nat) : Option Timer :=
  earliest (ts.filter (fun x => decide (x.fireAt ≤ t)))

/-- Run the timers due up to time `t`, each at its due time; every emission
is stamped with the time of the callback that produced it. -/
def advance : Nat → State → Nat → State × List (Nat × Emission)
  | 0, s, _ => (s, [])
  | n + 1, s, t =>
    match nextDue s.timers t with
    | none => (s, [])
    | some tm =>
      let r := step s tm.fireAt (.timeout tm.id)
      let r2 := advance n r.1 t
      (r2.1, r.2.map (fun e => (tm.fireAt, e)) ++ r2.2)

/-- Let the clock reach `t`: a callback removes its timer and schedules none,
so `s.timers.length` rounds run every due timer. -/
def advanceTo (s : State) (t : Nat) : State × List (Nat × Emission) :=
  advance s.timers.length s t

/-- Deliver an event at time `t`, after the timers that were due before. -/
def deliver (s : State) (t : Nat) (e : Event) : State × List (Nat × Emission) :=
  let a := advanceTo s t
  let r := step a.1 t e
  (r.1, a.2 ++ r.2.map (fun x => (t, x)))

/-- A timed execution: the events of the list in order, each at its time. -/
def run (s : State) : List (Nat × Event) → State × List (Nat × Emission)
  | [] => (s, [])
  | (t, e) :: rest =>
    let r := deliver s t e
    let r2 := run r.1 rest
    (r2.1, r.2 ++ r2.2)

/-! ## Stated properties and sample executions -/

/-- A room whose counter agrees with its map of live members. -/
def RoomOk (r : Room) : Prop :=
  r.users.keys.Nodup ∧ r.userCount = (r.users.length : Int)

/-- Every room is `RoomOk` and no room code occurs twice. -/
def RoomsInv (rooms : JsMap Room) : Prop :=
  rooms.keys.Nodup ∧ ∀ p ∈ rooms, RoomOk p.2

/-- The number of live members of a room whose record has `connected = false`. -/
def disconnectedCount (room : Room) : Nat :=
  room.users.countP (fun p => !p.2.connected)

/-- Sample payload: alice in room `ABC`. -/
def msgAlice : Message := { roomCode := "ABC", userName := "alice_1" }

/-- Sample payload: bob in room `ABC`. -/
def msgBob : Message := { roomCode := "ABC", userName := "bob_1" }

/-- Sample execution: alice and bob join room `ABC`, then bob's connection
drops. -/
def traceJoinDisconnect : List (Nat × Event) :=
  [(100, .connection "s1"), (1000, .joinRoom "s1" msgAlice),
   (1100, .connection "s2"), (1200, .joinRoom "s2" msgBob),
   (2000, .disconnect "s2")]

/-- The room `ABC` at the end of `traceJoinDisconnect`. -/
def roomAfterDisconnect : Room :=
  { oid := 0
    users :=
      [("alice", { socketId := "s1", status := "activo", typing := false,
                   connected := true, lastActivity := 1000 }),
       ("bob", { socketId := "s2", status := "activo", typing := false,
                 connected := false, lastActivity := 2000 })]
    userCount := 2 }

/-- Sample execution: alice creates room `ABC`, then a second client connects. -/
def traceBeforeBobJoins : List (Nat × Event) :=
  [(100, .connection "s1"), (1000, .joinRoom "s1" msgAlice), (1100, .connection "s2")]

/-- Sample payload whose user name starts with the separator, so that the
derived display name is the empty string. -/
def msgNoName : Message := { roomCode := "ABC", userName := "_x" }

/-- Sample execution: a client whose display name is empty creates room `ABC`. -/
def traceEmptyName : List (Nat × Event) :=
  [(100, .connection "s1"), (1000, .joinRoom "s1" msgNoName)]

/-- Sample execution: alice joins, chats, drops and a second client connects. -/
def traceAliceDropped : List (Nat × Event) :=
  [(100, .connection "s1"), (1000, .joinRoom "s1" msgAlice),
   (1500, .sendMessage "s1" { msgAlice with message := "hi" } "10:00" "abc123"),
   (2000, .disconnect "s1"), (2400, .connection "s2")]

/-- Sample execution: alice joins and drops at 2000; a second client connects
at 12400, more than 10000 ms later but before the expiry timer (13000). -/
def traceStaleRecord : List (Nat × Event) :=
  [(100, .connection "s1"), (1000, .joinRoom "s1" msgAlice), (2000, .disconnect "s1"),
   (12400, .connection "s2")]

/-- Sample execution: alice joins, drops at 1000, reconnects at 2000 and drops
again at 11500. -/
def traceTwoDrops : List (Nat × Event) :=
  [(100, .connection "s1"), (500, .joinRoom "s1" msgAlice), (1000, .disconnect "s1"),
   (1500, .connection "s2"), (2000, .joinRoom "s2" msgAlice), (11500, .disconnect "s2")]

/-- The execution `traceTwoDrops` followed by a third client connecting at
12500, after the expiry timer of the first drop (due at 12000) has run. -/
def traceTwoDropsThenConnect : List (Nat × Event) :=
  traceTwoDrops ++ [(12500, .connection "s3")]

/-- Sample execution: alice creates room `ABC` and leaves it voluntarily. -/
def traceJoinLeave : List (Nat × Event) :=
  [(100, .connection "s1"), (1000, .joinRoom "s1" msgAlice), (3000, .leaveRoom "s1" msgAlice)]

/-- The display name `name` is a live member of room `code` in `rooms`. -/
def MemberOf (rooms : JsMap Room) (code name : String) : Prop :=
  ∃ r, rooms.get? code = some r ∧ r.users.has name = true

/-- Whether an event is a voluntary leave. -/
def Event.isLeave : Event → Bool
  | .leaveRoom _ _ => true
  | _ => false

/-- Untimed execution: the events of the list in order, each processed at
its clock value (the timers run only where the list says so). -/
def steps (s : State) : List (Nat × Event) → State
  | [] => s
  | (t, e) :: rest => steps (step s t e).1 rest

/-- Whether an emission is a `message` event (a notification or a chat
message). -/
def isMessageEvent : Emission → Bool
  | .toRoom _ (.messageNotice _ _ _) => true
  | .toRoom _ (.messageChat _ _ _ _ _ _) => true
  | .toSocket _ (.messageNotice _ _ _) => true
  | .toSocket _ (.messageChat _ _ _ _ _ _) => true
  | _ => false

/-- The history log of a room (empty when the room has none). -/
def historyOf (s : State) (roomCode : String) : List HistoryEntry :=
  (s.roomMessages.get? roomCode).getD []

/-- Whether an emission is a `userList` broadcast. -/
def isUserList : Emission → Bool
  | .toRoom _ (.userList _ _ _ _) => true
  | _ => false

/-- The display name `name` is not a live member of room `code` in `rooms`
(the room may be absent). -/
def NotMemberOf (rooms : JsMap Room) (code name : String) : Prop :=
  ∀ r, rooms.get? code = some r → r.users.has name = false

/-- The state in which a first client has connected. -/
def stateOneClient : State := (step State.init 100 (.connection "s1")).1

/-- Sample execution: bob is in room `ABC` from two connections (two tabs);
the first one drops at 100. -/
def traceTwoTabs : List (Nat × Event) :=
  [(1, .connection "s1"), (2, .connection "s2"), (10, .joinRoom "s1" msgBob),
   (50, .joinRoom "s2" msgBob), (100, .disconnect "s1")]

/-- The connection whose `socketState` a timer callback writes to: the typing
callback belongs to the connection that scheduled it. -/
def TimerAction.owner : TimerAction → Option String
  | .typingClear sid _ _ _ => some sid
  | .expireDisconnection _ => none

/-- The pending typing auto-clear timers of a connection. -/
def typingTimersOf (s : State) (sid : String) : List Timer :=
  s.timers.filter (fun t => decide (t.action.owner = some sid))

/-- Whether a stamped emission is a `typingStatus` with `isTyping = false`. -/
def isTypingStop : Nat × Emission → Bool
  | (_, .toRoom _ (.typingStatus _ _ false)) => true
  | (_, .toSocket _ (.typingStatus _ _ false)) => true
  | _ => false

/-- Timer bookkeeping: handles are fresh and distinct, and every pending
typing timer is the one its connection holds in `typingTimeout`. -/
def TimerInv (s : State) : Prop :=
  (∀ t ∈ s.timers, t.id < s.nextTimer) ∧
  (s.timers.map (fun t => t.id)).Nodup ∧
  (∀ t ∈ s.timers, ∀ sid, t.action.owner = some sid →
    ∃ k, s.sockets.get? sid = some k ∧ k.typingTimeout = some t.id)

/-- Sample execution: alice creates room `ABC` at time 0. -/
def traceAliceAtZero : List (Nat × Event) :=
  [(0, .connection "s1"), (0, .joinRoom "s1" msgAlice)]

/-- Sample execution: alice creates room `ABC` at time 0 and drops at once, so
that her disconnect record holds the timestamp 0; a second client connects. -/
def traceDropAtZero : List (Nat × Event) :=
  traceAliceAtZero ++ [(0, .disconnect "s1"), (100, .connection "s2")]

/-- Sample state: alice and bob are live members of room `ABC` (bob's
connection has dropped), as at the end of `traceJoinDisconnect`. -/
def stateAliceBob : State := (run State.init traceJoinDisconnect).1

/-- Sample payload: the explicit display name `a_b` in room `c`. -/
def msgUnderscore : Message := { roomCode := "c", userName := "x_1", displayName := some "a_b" }

/-- Sample payload: the display name `a` (derived) in room `b_c`. -/
def msgShort : Message := { roomCode := "b_c", userName := "a_1" }

/-- Sample execution: `a_b` joins room `c` at 1000 and a second client
connects. -/
def traceUnderscoreJoined : List (Nat × Event) :=
  [(100, .connection "s1"), (1000, .joinRoom "s1" msgUnderscore), (1500, .connection "s2")]

/-- Sample execution: `a_b` joins room `c` at 1000, then `a` joins room `b_c`
at 2000. -/
def traceCollision : List (Nat × Event) :=
  traceUnderscoreJoined ++ [(2000, .joinRoom "s2" msgShort)]

/-- The log stored under `c` in `m1` is the one stored in `m` followed by new
entries (an absent log counts as empty), and it is present if it was. -/
def LogGrows (m m1 : JsMap (List HistoryEntry)) (c : String) : Prop :=
  (∃ added, (m1.get? c).getD [] = (m.get? c).getD [] ++ added) ∧
  (m.has c = true → m1.has c = true)

/-- Sample state for `updateUserList`: room `ABC` with the live members alice
and bob (bob disconnected), and a ghost directory that also holds carol. -/
def stateWithGhost : State :=
  { stateAliceBob with
    roomParticipants := stateAliceBob.roomParticipants.update "ABC" (fun g =>
      g.set "carol" { name := "carol", status := "activo", connected := true, lastSeen := 900,
                      joinedAt := 800, socketId := "s0" }) }

/-- Sample state: one connected client, no room, and a ghost directory left
under the code `ABC`. -/
def stateOrphanGhosts : State :=
  { stateOneClient with roomParticipants := [("ABC", [])] }

/-- The text of the `error` event of a rejected `joinRoom`. -/
def roomClosedMessage (roomCode : String) : String :=
  "La sala " ++ roomCode ++ " ya no existe o ha sido cerrada."

/-- Every room has a history log. -/
def LogInv (s : State) : Prop :=
  ∀ c, s.rooms.has c = true → s.roomMessages.has c = true

/-- The identity of the room object stored under a code, if any. -/
def oidOf (rooms : JsMap Room) (c : String) : Option Nat :=
  (rooms.get? c).map (fun r => r.oid)

/-- Sample payload: bob in room `ABC` with an explicit, empty display name. -/
def msgEmptyDisplay : Message :=
  { roomCode := "ABC", userName := "bob_1", displayName := some "" }

/-- The room codes of `rooms` with, for each, the display names of its live
members. -/
def roomNames (rooms : JsMap Room) : JsMap (List String) :=
  rooms.map (fun p => (p.1, p.2.users.keys))

/-- The room codes of the ghost directories with, for each, the display names
it holds. -/
def ghostNames (gs : JsMap (JsMap Participant)) : JsMap (List String) :=
  gs.map (fun p => (p.1, p.2.keys))

/-- What a state says about which codes and which display names exist: the
codes and names of `rooms`, the codes of `roomMessages`, and the codes and
names of `roomParticipants`. -/
def shape (s : State) : JsMap (List String) × List String × JsMap (List String) :=
  (roomNames s.rooms, s.roomMessages.keys, ghostNames s.roomParticipants)

/-- Whether `name` is a key of the live-member map of the room stored under
`c`. -/
def liveHas (rooms : JsMap Room) (c name : String) : Bool :=
  ((rooms.get? c).map (fun r => r.users.has name)).getD false

/-- Whether `name` is a key of the ghost directory stored under `c`. -/
def ghostHas (gs : JsMap (JsMap Participant)) (c name : String) : Bool :=
  ((gs.get? c).map (fun g => g.has name)).getD false

/-- The three module maps `rooms`, `roomMessages` and `roomParticipants` hold
the same room codes. -/
def CodesInv (s : State) : Prop :=
  ∀ c, s.roomMessages.has c = s.rooms.has c ∧ s.roomParticipants.has c = s.rooms.has c

/-- Under every code, the ghost directory and the live-member map hold the same
display names. -/
def GhostInv (s : State) : Prop :=
  ∀ c name, ghostHas s.roomParticipants c name = liveHas s.rooms c name

/-- The two invariants on codes and names together. -/
def NamesInv (s : State) : Prop := CodesInv s ∧ GhostInv s

/-- Whether an emission is an `error` event. -/
def isErrorEvent : Emission → Bool
  | .toSocket _ (.error _) => true
  | .toRoom _ (.error _) => true
  | _ => false

/-- Whether an emission, when it is a `userList`, has as many `users` entries
as its `count` says. -/
def userListFull : Emission → Bool
  | .toRoom _ (.userList _ count _ users) => decide (count = (users.length : Int))
  | _ => true

/-- Sample execution: `a_b` joins room `c` at 1000; `a` joins room `b_c` at
2000 and leaves it at 3000; the connection of `a_b` drops at 3500 and a third
client connects. -/
def traceForeignLeave : List (Nat × Event) :=
  traceCollision ++
    [(3000, .leaveRoom "s2" msgShort), (3500, .disconnect "s1"), (3900, .connection "s3")]

/-- The key under which a `disconnect` of connection `sid` in state `s` stores
a disconnect record (lines 566-570), if it stores one. -/
def disconnectKey (s : State) (sid : String) : Option String :=
  if isLive s sid && (truthyStr (sockOf s sid).currentRoom &&
      truthyStr (sockOf s sid).currentUser) then
    some (userRoomKey (disconnectName (sockOf s sid)) ((sockOf s sid).currentRoom.getD ""))
  else none

/-- Whether the event, received in state `s`, stores a disconnect record under
`key`. -/
def storesRecord (key : String) (s : State) : Event → Bool
  | .disconnect sid => decide (disconnectKey s sid = some key)
  | _ => false

/-- No event of the list, run from `s`, stores a disconnect record under
`key`. -/
def noRecordStored (key : String) : State → List (Nat × Event) → Bool
  | _, [] => true
  | s, (t, e) :: rest => !storesRecord key s e && noRecordStored key (step s t e).1 rest

end ChatServer

/-! # Lemmas and theorems -/

namespace ChatServer

/-! ## Lemmas on `JsMap` -/

namespace JsMap

variable {α : Type}

theorem keys_update (m : JsMap α) (k : String) (f : α → α) :
    (m.update k f).keys = m.keys := by
  induction m with
  | nil => rfl
  | cons p rest ih =>
    simp only [update, keys, List.map_cons] at ih ⊢
    rw [ih]
    by_cases h : p.1 = k <;> simp [h]

theorem length_update (m : JsMap α) (k : String) (f : α → α) :
    (m.update k f).length = m.length := by
  simp [update]

theorem has_iff_mem_keys (m : JsMap α) (k : String) :
    m.has k = true ↔ k ∈ m.keys := by
  induction m with
  | nil => simp [has, get?, keys]
  | cons p rest ih =>
    obtain ⟨k1, v⟩ := p
    by_cases h : k1 = k
    · simp [has, get?, keys, h]
    · have h2 : ¬ k = k1 := fun e => h e.symm
      simp only [has, get?, keys, h, if_false, List.map_cons, List.mem_cons, h2, false_or] at ih ⊢
      exact ih

theorem get?_isSome_iff (m : JsMap α) (k : String) :
    (m.get? k).isSome = true ↔ k ∈ m.keys := has_iff_mem_keys m k

theorem has_of_get? {m : JsMap α} {k : String} {v : α} (h : m.get? k = some v) :
    m.has k = true := by
  simp [has, h]

theorem get?_mem {m : JsMap α} {k : String} {v : α} (h : m.get? k = some v) :
    (k, v) ∈ m := by
  induction m with
  | nil => simp [get?] at h
  | cons p rest ih =>
    obtain ⟨k1, v1⟩ := p
    by_cases hk : k1 = k
    · simp [get?, hk] at h
      simp [hk, h]
    · simp only [get?, hk, if_false] at h
      exact List.mem_cons_of_mem _ (ih h)

theorem get?_of_mem {m : JsMap α} {k : String} {v : α} (hn : m.keys.Nodup)
    (h : (k, v) ∈ m) : m.get? k = some v := by
  induction m with
  | nil => simp at h
  | cons p rest ih =>
    obtain ⟨k1, v1⟩ := p
    simp only [keys, List.map_cons, List.nodup_cons] at hn
    rcases List.mem_cons.mp h with h1 | h1
    · cases h1
      simp [get?]
    · have hk : k1 ≠ k := by
        intro e
        apply hn.1
        rw [e]
        exact List.mem_map.mpr ⟨(k, v), h1, rfl⟩
      simp only [get?, hk, if_false]
      exact ih hn.2 h1

theorem keys_set (m : JsMap α) (k : String) (v : α) :
    (m.set k v).keys = if m.has k then m.keys else m.keys ++ [k] := by
  induction m with
  | nil => simp [set, keys, has, get?]
  | cons p rest ih =>
    obtain ⟨k1, v1⟩ := p
    by_cases h : k1 = k
    · simp [set, keys, has, get?, h]
    · simp only [set, keys, has, get?, h, if_false, List.map_cons] at ih ⊢
      rw [ih]
      split <;> simp

theorem nodup_keys_set {m : JsMap α} (k : String) (v : α) (hn : m.keys.Nodup) :
    (m.set k v).keys.Nodup := by
  rw [keys_set]
  split
  · exact hn
  · rename_i h
    have h2 : k ∉ m.keys := fun hm => h ((has_iff_mem_keys m k).mpr hm)
    exact List.Nodup.append hn (List.nodup_singleton k) (by
      intro a ha hb
      simp at hb
      exact h2 (hb ▸ ha))

theorem length_set_of_not_has {m : JsMap α} {k : String} (v : α) (h : m.has k = false) :
    (m.set k v).length = m.length + 1 := by
  have := congrArg List.length (keys_set m k v)
  simpa [keys, h] using this

theorem mem_set {m : JsMap α} {k : String} {v : α} {p : String × α}
    (h : p ∈ m.set k v) : p ∈ m ∨ p = (k, v) := by
  induction m with
  | nil => simpa [set] using h
  | cons q rest ih =>
    obtain ⟨k1, v1⟩ := q
    by_cases hk : k1 = k
    · simp only [set, hk, if_true, List.mem_cons] at h ⊢
      rcases h with h | h
      · exact Or.inr h
      · exact Or.inl (Or.inr h)
    · simp only [set, hk, if_false, List.mem_cons] at h ⊢
      rcases h with h | h
      · exact Or.inl (Or.inl h)
      · rcases ih h with h | h
        · exact Or.inl (Or.inr h)
        · exact Or.inr h

theorem nodup_keys_delete {m : JsMap α} (k : String) (hn : m.keys.Nodup) :
    (m.delete k).keys.Nodup := by
  unfold delete keys
  exact List.Nodup.sublist (List.Sublist.map _ (List.filter_sublist m)) hn

theorem mem_delete {m : JsMap α} {k : String} {p : String × α}
    (h : p ∈ m.delete k) : p ∈ m :=
  (List.mem_filter.mp h).1

theorem length_delete_of_has {m : JsMap α} {k : String} (hn : m.keys.Nodup)
    (h : m.has k = true) : ((m.delete k).length : Int) = (m.length : Int) - 1 := by
  induction m with
  | nil => simp [has, get?] at h
  | cons p rest ih =>
    obtain ⟨k1, v1⟩ := p
    simp only [keys, List.map_cons, List.nodup_cons] at hn
    by_cases hk : k1 = k
    · subst hk
      have hrest : rest.filter (fun p => decide (p.1 ≠ k1)) = rest := by
        apply List.filter_eq_self.mpr
        intro q hq
        have : q.1 ≠ k1 := by
          intro e
          apply hn.1
          rw [← e]
          exact List.mem_map.mpr ⟨q, hq, rfl⟩
        simpa using this
      show ((List.filter (fun p => decide (p.1 ≠ k1)) ((k1, v1) :: rest)).length : Int) = _
      rw [List.filter_cons]
      simp only [ne_eq, not_true_eq_false, decide_False, Bool.false_eq_true, if_false]
      rw [hrest]
      simp
    · have hh : JsMap.has rest k = true := by
        simpa [has, get?, hk] using h
      have := ih hn.2 hh
      show ((List.filter (fun p => decide (p.1 ≠ k)) ((k1, v1) :: rest)).length : Int) = _
      rw [List.filter_cons]
      have hd : decide ((k1, v1).1 ≠ k) = true := by simpa using hk
      rw [if_pos hd]
      simp only [delete] at this
      simp only [List.length_cons, Nat.cast_add, Nat.cast_one]
      omega

theorem mem_update {m : JsMap α} {k : String} {f : α → α} {p : String × α}
    (h : p ∈ m.update k f) : p ∈ m ∨ ∃ q ∈ m, q.1 = k ∧ p = (k, f q.2) := by
  simp only [update, List.mem_map] at h
  obtain ⟨q, hq, e⟩ := h
  by_cases hk : q.1 = k
  · right
    refine ⟨q, hq, hk, ?_⟩
    simp [hk] at e
    exact e.symm
  · left
    simp [hk] at e
    exact e ▸ hq

end JsMap

theorem RoomsInv_update {m : JsMap Room} (k : String) (f : Room → Room)
    (hf : ∀ r, RoomOk r → RoomOk (f r)) (h : RoomsInv m) : RoomsInv (m.update k f) := by
  refine ⟨by rw [JsMap.keys_update]; exact h.1, ?_⟩
  intro p hp
  rcases JsMap.mem_update hp with hp | ⟨q, hq, _, e⟩
  · exact h.2 p hp
  · rw [e]
    exact hf _ (h.2 q hq)

theorem RoomsInv_update_at {m : JsMap Room} {k : String} {r : Room} (f : Room → Room)
    (hg : m.get? k = some r) (hf : RoomOk r → RoomOk (f r)) (h : RoomsInv m) :
    RoomsInv (m.update k f) := by
  refine ⟨by rw [JsMap.keys_update]; exact h.1, ?_⟩
  intro p hp
  rcases JsMap.mem_update hp with hp | ⟨q, hq, hk, e⟩
  · exact h.2 p hp
  · rw [e]
    have hq2 : m.get? k = some q.2 := JsMap.get?_of_mem h.1 (by rw [← hk]; exact hq)
    rw [hg] at hq2
    cases hq2
    exact hf (h.2 q hq)

theorem RoomOk_update_users (r : Room) (name : String) (g : UserInfo → UserInfo)
    (h : RoomOk r) : RoomOk { r with users := r.users.update name g } := by
  refine ⟨?_, ?_⟩
  · show (r.users.update name g).keys.Nodup
    rw [JsMap.keys_update]; exact h.1
  · show r.userCount = ((r.users.update name g).length : Int)
    rw [JsMap.length_update]; exact h.2

theorem RoomsInv_set {m : JsMap Room} (k : String) (r : Room) (hr : RoomOk r)
    (h : RoomsInv m) : RoomsInv (m.set k r) := by
  refine ⟨JsMap.nodup_keys_set k r h.1, ?_⟩
  intro p hp
  rcases JsMap.mem_set hp with hp | hp
  · exact h.2 p hp
  · rw [hp]; exact hr

theorem RoomsInv_delete {m : JsMap Room} (k : String) (h : RoomsInv m) :
    RoomsInv (m.delete k) :=
  ⟨JsMap.nodup_keys_delete k h.1, fun p hp => h.2 p (JsMap.mem_delete hp)⟩

/-! ### Preservation of `RoomsInv` by every helper and handler -/

theorem rooms_addNotificationToHistory (s : State) (c t : String) (n : Nat) :
    (addNotificationToHistory s c t n).1.rooms = s.rooms := by
  unfold addNotificationToHistory
  split <;> rfl

theorem RoomOk_new (oid : Nat) : RoomOk { oid := oid, users := [], userCount := 0 } :=
  ⟨List.nodup_nil, rfl⟩

theorem inv_createRoom (s : State) (c : String) (h : RoomsInv s.rooms) :
    RoomsInv (createRoom s c).1.rooms :=
  RoomsInv_set c _ (RoomOk_new _) h

theorem RoomOk_remove {r : Room} {name : String} (hr : RoomOk r)
    (hh : r.users.has name = true) :
    RoomOk { r with users := r.users.delete name, userCount := r.userCount - 1 } := by
  refine ⟨JsMap.nodup_keys_delete name hr.1, ?_⟩
  show r.userCount - 1 = ((r.users.delete name).length : Int)
  rw [JsMap.length_delete_of_has hr.1 hh, hr.2]

theorem RoomOk_add {r : Room} {name : String} (u : UserInfo) (hr : RoomOk r)
    (hh : r.users.has name = false) :
    RoomOk { r with users := r.users.set name u, userCount := r.userCount + 1 } := by
  refine ⟨JsMap.nodup_keys_set name u hr.1, ?_⟩
  show r.userCount + 1 = ((r.users.set name u).length : Int)
  rw [JsMap.length_set_of_not_has u hh, hr.2]
  simp

theorem inv_removeUserFromRoom (s : State) (c name : String) (v : Bool) (n : Nat)
    (h : RoomsInv s.rooms) : RoomsInv (removeUserFromRoom s c name v n).1.rooms := by
  unfold removeUserFromRoom
  split
  · exact h
  · rename_i room hg
    split
    · exact h
    · rename_i hh
      have hh2 : room.users.has name = true := by simpa using hh
      have key : RoomsInv (s.rooms.update c (fun r =>
          { r with users := r.users.delete name, userCount := r.userCount - 1 })) :=
        RoomsInv_update_at _ hg (fun hr => RoomOk_remove hr hh2) h
      split
      · simp only [rooms_addNotificationToHistory]
        exact key
      · exact key

theorem inv_cleanupEmptyRoom (s : State) (c : String) (h : RoomsInv s.rooms) :
    RoomsInv (cleanupEmptyRoom s c).rooms := by
  unfold cleanupEmptyRoom
  split
  · exact h
  · split
    · exact h
    · simp only []
      split
      · exact RoomsInv_delete c h
      · exact h

theorem rooms_trackUserConnection (s : State) (c name : String) (n : Nat) :
    (trackUserConnection s c name n).1.rooms = s.rooms := by
  unfold trackUserConnection
  simp only []
  split <;> rfl

theorem inv_updateUserStatus (s : State) (c name st : String) (n : Nat)
    (h : RoomsInv s.rooms) : RoomsInv (updateUserStatus s c name st n).rooms := by
  unfold updateUserStatus
  split
  · exact h
  · exact RoomsInv_update c _ (fun r hr => RoomOk_update_users r name _ hr) h

theorem rooms_createChatMessage (s : State) (c a b : String) (n : Nat) (t r : String) :
    (createChatMessage s c a b n t r).1.rooms = s.rooms := rfl

theorem rooms_reconnectionCheck (s : State) (k : String) (n : Nat) :
    (reconnectionCheck s k n).1.rooms = s.rooms := by
  unfold reconnectionCheck
  simp only []
  split <;> rfl

theorem inv_markDisconnected (s : State) (c name : String) (n : Nat)
    (h : RoomsInv s.rooms) : RoomsInv (markDisconnected s c name n).rooms :=
  RoomsInv_update c _ (fun r hr => RoomOk_update_users r name _ hr) h

theorem inv_leavePreviousRoom (s : State) (sid name c : String) (n : Nat)
    (h : RoomsInv s.rooms) : RoomsInv (leavePreviousRoom s sid name c n).1.rooms := by
  unfold leavePreviousRoom
  simp only []
  split
  · split
    · exact h
    · split
      · exact inv_markDisconnected _ _ _ _ h
      · exact h
  · exact h

theorem rooms_upsertParticipant (s : State) (sid c name : String) (n : Nat) :
    (upsertParticipant s sid c name n).rooms = s.rooms := by
  unfold upsertParticipant
  simp only []
  split <;> rfl

theorem inv_upsertLiveMember (s : State) (sid c name : String) (n : Nat)
    (h : RoomsInv s.rooms) : RoomsInv (upsertLiveMember s sid c name n).1.rooms := by
  unfold upsertLiveMember
  split
  · exact h
  · rename_i room hg
    split
    · rename_i hh
      have hh2 : room.users.has name = false := by simpa using hh
      exact RoomsInv_update_at (fun r =>
          { r with
            users := r.users.set name
              { socketId := sid, status := "activo", typing := false, connected := true,
                lastActivity := n }
            userCount := r.userCount + 1 }) hg (fun hr => RoomOk_add _ hr hh2) h
    · exact RoomsInv_update c _ (fun r hr => RoomOk_update_users r name _ hr) h

theorem rooms_joinNotification (s : State) (c name : String) (n : Nat) :
    (joinNotification s c name n).1.rooms = s.rooms := by
  unfold joinNotification
  exact rooms_addNotificationToHistory _ _ _ _

theorem inv_joinPrepare (s : State) (sid : String) (m : Message) (n : Nat)
    (h : RoomsInv s.rooms) : RoomsInv (joinPrepare s sid m n).1.rooms := by
  unfold joinPrepare
  simp only []
  have h1 := inv_leavePreviousRoom
    (reconnectionCheck s (userRoomKey (getUserDisplayName m) m.roomCode) n).1 sid
    (getUserDisplayName m) m.roomCode n (by rw [rooms_reconnectionCheck]; exact h)
  generalize (leavePreviousRoom
    (reconnectionCheck s (userRoomKey (getUserDisplayName m) m.roomCode) n).1 sid
    (getUserDisplayName m) m.roomCode n) = lp at h1 ⊢
  have h3 : RoomsInv (updSock lp.1 sid (fun k =>
    { k with currentRoom := some m.roomCode, currentUser := some m.userName,
             displayName := some (getUserDisplayName m) })).rooms := h1
  generalize (updSock lp.1 sid (fun k =>
    { k with currentRoom := some m.roomCode, currentUser := some m.userName,
             displayName := some (getUserDisplayName m) })) = s3 at h3 ⊢
  have h4 : RoomsInv (if !s3.rooms.has m.roomCode then (createRoom s3 m.roomCode).1 else s3).rooms := by
    split
    · exact inv_createRoom _ _ h3
    · exact h3
  generalize (if !s3.rooms.has m.roomCode then (createRoom s3 m.roomCode).1 else s3) = s4 at h4 ⊢
  have h5 : RoomsInv (if !s4.roomMessages.has m.roomCode then
    { s4 with roomMessages := s4.roomMessages.set m.roomCode [] } else s4).rooms := by
    split <;> exact h4
  generalize (if !s4.roomMessages.has m.roomCode then
    { s4 with roomMessages := s4.roomMessages.set m.roomCode [] } else s4) = s5 at h5 ⊢
  split <;> exact h5

theorem inv_joinRoomCore (s : State) (sid : String) (m : Message) (n : Nat)
    (h : RoomsInv s.rooms) : RoomsInv (joinRoomCore s sid m n).1.rooms := by
  unfold joinRoomCore
  simp only []
  split
  · exact h
  · have h6 := inv_joinPrepare s sid m n h
    generalize joinPrepare s sid m n = pr at h6 ⊢
    have h7 : RoomsInv (trackUserConnection pr.1 m.roomCode (getUserDisplayName m) n).1.rooms := by
      rw [rooms_trackUserConnection]; exact h6
    generalize (trackUserConnection pr.1 m.roomCode (getUserDisplayName m) n) = tr at h7 ⊢
    have h8 := inv_upsertLiveMember (upsertParticipant tr.1 sid m.roomCode (getUserDisplayName m) n)
      sid m.roomCode (getUserDisplayName m) n (by rw [rooms_upsertParticipant]; exact h7)
    generalize (upsertLiveMember (upsertParticipant tr.1 sid m.roomCode (getUserDisplayName m) n)
      sid m.roomCode (getUserDisplayName m) n) = lm at h8 ⊢
    split
    · rw [rooms_joinNotification]; exact h8
    · exact h8

theorem inv_sendMessage (s : State) (sid : String) (m : Message) (n : Nat) (t r : String)
    (h : RoomsInv s.rooms) : RoomsInv (sendMessage s sid m n t r).1.rooms := by
  unfold sendMessage
  simp only []
  split
  · exact h
  · split
    · rw [rooms_createChatMessage]
      have h1 := inv_updateUserStatus s m.roomCode (getUserDisplayName m) "activo" n h
      generalize updateUserStatus s m.roomCode (getUserDisplayName m) "activo" n = s1 at h1 ⊢
      have h2 : RoomsInv (match (sockOf s sid).typingTimeout with
          | none => s1
          | some hd => updSock (clearTimeout s1 hd) sid
              (fun k => { k with typingTimeout := none })).rooms := by
        split <;> exact h1
      generalize (match (sockOf s sid).typingTimeout with
          | none => s1
          | some hd => updSock (clearTimeout s1 hd) sid
              (fun k => { k with typingTimeout := none })) = s2 at h2 ⊢
      split
      · exact h2
      · split
        · exact RoomsInv_update _ _ (fun r hr => RoomOk_update_users r _ _ hr) h2
        · exact h2
    · exact h

theorem inv_leaveRoom (s : State) (sid : String) (m : Message) (n : Nat)
    (h : RoomsInv s.rooms) : RoomsInv (leaveRoom s sid m n).1.rooms := by
  unfold leaveRoom
  split
  · exact h
  · simp only []
    have h1 : RoomsInv (match s.rooms.get? m.roomCode with
        | none => (s, ([] : List Emission))
        | some room =>
          if room.users.has (getUserDisplayName m) then
            (cleanupEmptyRoom (removeUserFromRoom s m.roomCode (getUserDisplayName m) true n).1
                m.roomCode,
             [Emission.toRoom m.roomCode (.messageNotice m.roomCode
                (getUserDisplayName m ++ " ha abandonado la sala.") n)] ++
               updateUserList (removeUserFromRoom s m.roomCode (getUserDisplayName m) true n).1
                 m.roomCode n)
          else (s, [])).1.rooms := by
      split
      · exact h
      · split
        · exact inv_cleanupEmptyRoom _ _ (inv_removeUserFromRoom _ _ _ _ _ h)
        · exact h
    generalize (match s.rooms.get? m.roomCode with
        | none => (s, ([] : List Emission))
        | some room =>
          if room.users.has (getUserDisplayName m) then
            (cleanupEmptyRoom (removeUserFromRoom s m.roomCode (getUserDisplayName m) true n).1
                m.roomCode,
             [Emission.toRoom m.roomCode (.messageNotice m.roomCode
                (getUserDisplayName m ++ " ha abandonado la sala.") n)] ++
               updateUserList (removeUserFromRoom s m.roomCode (getUserDisplayName m) true n).1
                 m.roomCode n)
          else (s, [])) = lv at h1 ⊢
    split <;> exact h1

theorem inv_typing (s : State) (sid : String) (m : Message) (n : Nat)
    (h : RoomsInv s.rooms) : RoomsInv (typing s sid m n).1.rooms := by
  unfold typing
  simp only []
  split
  · exact h
  · split
    · exact h
    · split
      · have key : RoomsInv (s.rooms.update m.roomCode (fun r =>
            { r with users := r.users.update (getUserDisplayName m) (fun u =>
                { u with typing := true, lastActivity := n }) })) :=
          RoomsInv_update _ _ (fun r hr => RoomOk_update_users r _ _ hr) h
        split <;> exact key
      · exact h

theorem inv_stopTyping (s : State) (sid : String) (m : Message) (n : Nat)
    (h : RoomsInv s.rooms) : RoomsInv (stopTyping s sid m n).1.rooms := by
  unfold stopTyping
  simp only []
  split
  · exact h
  · split
    · exact h
    · split
      · have key : RoomsInv (s.rooms.update m.roomCode (fun r =>
            { r with users := r.users.update (getUserDisplayName m) (fun u =>
                { u with typing := false, lastActivity := n }) })) :=
          RoomsInv_update _ _ (fun r hr => RoomOk_update_users r _ _ hr) h
        split <;> exact key
      · exact h

theorem inv_updateStatus (s : State) (sid : String) (m : Message) (n : Nat)
    (h : RoomsInv s.rooms) : RoomsInv (updateStatus s sid m n).1.rooms := by
  unfold updateStatus
  simp only []
  split
  · exact h
  · exact inv_updateUserStatus _ _ _ _ _ h

theorem inv_disconnect (s : State) (sid : String) (n : Nat)
    (h : RoomsInv s.rooms) : RoomsInv (disconnect s sid n).1.rooms := by
  unfold disconnect
  simp only []
  split
  · split
    · exact h
    · split
      · exact inv_cleanupEmptyRoom _ _ (inv_markDisconnected _ _ _ _ h)
      · exact h
  · exact h

theorem inv_fireTimer (s : State) (t : Timer) (h : RoomsInv s.rooms) :
    RoomsInv (fireTimer s t).1.rooms := by
  unfold fireTimer
  split
  · exact h
  · simp only [updSock]
    split
    · exact h
    · split
      · split
        · exact RoomsInv_update _ _ (fun r hr => RoomOk_update_users r _ _ hr) h
        · exact h
      · split
        · exact h
        · split <;> exact h

theorem inv_step (s : State) (n : Nat) (e : Event) (h : RoomsInv s.rooms) :
    RoomsInv (step s n e).1.rooms := by
  cases e with
  | connection sid => simp only [step]; split <;> exact h
  | joinRoom sid m => simp only [step]; split; exact inv_joinRoomCore s sid m n h; exact h
  | sendMessage sid m t r =>
    simp only [step]; split; exact inv_sendMessage s sid m n t r h; exact h
  | leaveRoom sid m => simp only [step]; split; exact inv_leaveRoom s sid m n h; exact h
  | typing sid m => simp only [step]; split; exact inv_typing s sid m n h; exact h
  | stopTyping sid m => simp only [step]; split; exact inv_stopTyping s sid m n h; exact h
  | updateStatus sid m => simp only [step]; split; exact inv_updateStatus s sid m n h; exact h
  | disconnect sid => simp only [step]; split; exact inv_disconnect s sid n h; exact h
  | timeout hd =>
    simp only [step]
    split
    · exact h
    · exact inv_fireTimer (clearTimeout s hd) _ h

theorem reachable_roomsInv {s : State} (h : Reachable s) : RoomsInv s.rooms := by
  induction h with
  | init => exact ⟨List.nodup_nil, fun p hp => by cases hp⟩
  | step s n e _ ih => exact inv_step s n e ih

theorem reachable_advance (k : Nat) (s : State) (t : Nat) (h : Reachable s) :
    Reachable (advance k s t).1 := by
  induction k generalizing s with
  | zero => exact h
  | succ k ih =>
    unfold advance
    split
    · exact h
    · exact ih _ (Reachable.step s _ _ h)

theorem reachable_deliver (s : State) (t : Nat) (e : Event) (h : Reachable s) :
    Reachable (deliver s t e).1 :=
  Reachable.step _ t e (reachable_advance _ s t h)

theorem reachable_run (l : List (Nat × Event)) (s : State) (h : Reachable s) :
    Reachable (run s l).1 := by
  induction l generalizing s with
  | nil => exact h
  | cons p rest ih =>
    obtain ⟨t, e⟩ := p
    exact ih _ (reachable_deliver s t e h)

/-! ## C1 and C2: the member counter -/

/-- C1: in every state reachable from the empty initial state, every room's
`userCount` equals the number of entries of its `users` map (an association
list without repeated names); the ghost directory plays no part. -/
theorem userCount_eq_live_members (s : State) (hs : Reachable s) (roomCode : String)
    (room : Room) (hr : s.rooms.get? roomCode = some room) :
    room.userCount = (room.users.length : Int) ∧ room.users.keys.Nodup := by
  have h := (reachable_roomsInv hs).2 (roomCode, room) (JsMap.get?_mem hr)
  exact ⟨h.2, h.1⟩

/-- Witness of C1: after alice and bob joined and bob dropped, room `ABC` has
two entries and counter 2. -/
theorem userCount_eq_live_members_witness :
    Reachable (run State.init traceJoinDisconnect).1 ∧
    (run State.init traceJoinDisconnect).1.rooms.get? "ABC" = some roomAfterDisconnect ∧
    roomAfterDisconnect.userCount = (roomAfterDisconnect.users.length : Int) ∧
    roomAfterDisconnect.users.keys.Nodup :=
  ⟨reachable_run _ _ Reachable.init, by decide,
   userCount_eq_live_members _ (reachable_run traceJoinDisconnect _ Reachable.init) "ABC"
     roomAfterDisconnect (by decide)⟩

/-- Counterexample to C2: after alice and bob joined and bob's connection
dropped, room `ABC` has `userCount = 2` while only one live member has
`connected = true`. -/
theorem userCount_ne_connected_count :
    Reachable (run State.init traceJoinDisconnect).1 ∧
    ((run State.init traceJoinDisconnect).1.rooms.get? "ABC").map
      (fun r => (r.userCount, connectedCount r)) = some (2, 1) :=
  ⟨reachable_run _ _ Reachable.init, by decide⟩

/-- C2 as amended: in every reachable state a room's `userCount` is the number
of live members with `connected = true` plus the number with
`connected = false`. -/
theorem userCount_eq_connected_add_disconnected (s : State) (hs : Reachable s)
    (roomCode : String) (room : Room) (hr : s.rooms.get? roomCode = some room) :
    room.userCount = (connectedCount room : Int) + (disconnectedCount room : Int) := by
  have h := (reachable_roomsInv hs).2 (roomCode, room) (JsMap.get?_mem hr)
  rw [h.2, List.length_eq_countP_add_countP (fun p => p.2.connected) room.users]
  simp [connectedCount, disconnectedCount]

/-- Witness of the amended C2 on the sample execution. -/
theorem userCount_eq_connected_add_disconnected_witness :
    Reachable (run State.init traceJoinDisconnect).1 ∧
    (run State.init traceJoinDisconnect).1.rooms.get? "ABC" = some roomAfterDisconnect ∧
    roomAfterDisconnect.userCount =
      (connectedCount roomAfterDisconnect : Int) + (disconnectedCount roomAfterDisconnect : Int) :=
  ⟨reachable_run _ _ Reachable.init, by decide,
   userCount_eq_connected_add_disconnected _
     (reachable_run traceJoinDisconnect _ Reachable.init) "ABC" roomAfterDisconnect (by decide)⟩

/-! ## More lemmas on `JsMap` lookups -/

namespace JsMap

variable {α : Type}

theorem update_cons (k2 : String) (v : α) (rest : JsMap α) (k : String) (f : α → α) :
    JsMap.update ((k2, v) :: rest) k f =
      (if k2 = k then (k2, f v) else (k2, v)) :: JsMap.update rest k f := rfl

theorem get?_cons (k2 : String) (v : α) (rest : JsMap α) (k : String) :
    JsMap.get? ((k2, v) :: rest) k = if k2 = k then some v else JsMap.get? rest k := rfl

theorem get?_update (m : JsMap α) (k k1 : String) (f : α → α) :
    (m.update k f).get? k1 = if k1 = k then (m.get? k1).map f else m.get? k1 := by
  induction m with
  | nil => simp [update, get?]
  | cons p rest ih =>
    obtain ⟨k2, v⟩ := p
    rw [update_cons]
    by_cases h2 : k2 = k
    · rw [if_pos h2, get?_cons, get?_cons, ih]
      by_cases h1 : k2 = k1
      · have h3 : k1 = k := h1.symm.trans h2
        simp [h1, h3]
      · simp [h1]
    · rw [if_neg h2, get?_cons, get?_cons, ih]
      by_cases h1 : k2 = k1
      · have h3 : ¬ k1 = k := fun e => h2 (h1.trans e)
        simp [h1, h3]
      · simp [h1]

theorem get?_update_same (m : JsMap α) (k : String) (f : α → α) :
    (m.update k f).get? k = (m.get? k).map f := by
  rw [get?_update]; simp

theorem get?_update_ne (m : JsMap α) {k k1 : String} (f : α → α) (h : k1 ≠ k) :
    (m.update k f).get? k1 = m.get? k1 := by
  rw [get?_update]; simp [h]

theorem has_update (m : JsMap α) (k k1 : String) (f : α → α) :
    (m.update k f).has k1 = m.has k1 := by
  unfold has
  rw [get?_update]
  split <;> simp

theorem get?_set (m : JsMap α) (k k1 : String) (v : α) :
    (m.set k v).get? k1 = if k1 = k then some v else m.get? k1 := by
  induction m with
  | nil =>
    by_cases h : k = k1
    · simp [set, get?, h]
    · have h2 : ¬ k1 = k := fun e => h e.symm
      simp [set, get?, h, h2]
  | cons p rest ih =>
    obtain ⟨k2, v2⟩ := p
    by_cases h2 : k2 = k
    · subst h2
      by_cases h1 : k2 = k1
      · simp [set, get?, h1]
      · have h3 : ¬ k1 = k2 := fun e => h1 e.symm
        simp [set, get?, h1, h3]
    · by_cases h1 : k2 = k1
      · have h3 : ¬ k1 = k := fun e => h2 (h1.trans e)
        simp [set, get?, h2, h1, h3]
      · simp only [set, h2, if_false, get?, h1]
        exact ih

theorem get?_set_same (m : JsMap α) (k : String) (v : α) :
    (m.set k v).get? k = some v := by
  rw [get?_set]; simp

theorem get?_set_ne (m : JsMap α) {k k1 : String} (v : α) (h : k1 ≠ k) :
    (m.set k v).get? k1 = m.get? k1 := by
  rw [get?_set]; simp [h]

theorem has_set_same (m : JsMap α) (k : String) (v : α) : (m.set k v).has k = true := by
  simp [has, get?_set_same]

theorem get?_delete (m : JsMap α) (k k1 : String) :
    (m.delete k).get? k1 = if k1 = k then none else m.get? k1 := by
  induction m with
  | nil => simp [delete, get?]
  | cons p rest ih =>
    obtain ⟨k2, v2⟩ := p
    simp only [delete] at ih ⊢
    rw [List.filter_cons]
    by_cases h2 : k2 = k
    · subst h2
      simp only [ne_eq, not_true_eq_false, decide_False, Bool.false_eq_true, if_false]
      rw [ih]
      by_cases h1 : k1 = k2
      · simp [h1]
      · have h3 : ¬ k2 = k1 := fun e => h1 e.symm
        simp [h1, get?, h3]
    · have hd : decide ((k2, v2).1 ≠ k) = true := by simpa using h2
      rw [if_pos hd]
      by_cases h1 : k2 = k1
      · have h3 : ¬ k1 = k := fun e => h2 (h1.trans e)
        simp [get?, h1, h3]
      · simp only [get?, h1, if_false]
        exact ih

theorem get?_delete_same (m : JsMap α) (k : String) : (m.delete k).get? k = none := by
  rw [get?_delete]; simp

theorem get?_delete_ne (m : JsMap α) {k k1 : String} (h : k1 ≠ k) :
    (m.delete k).get? k1 = m.get? k1 := by
  rw [get?_delete]; simp [h]

theorem has_delete_same (m : JsMap α) (k : String) : (m.delete k).has k = false := by
  simp [has, get?_delete_same]

theorem has_eq_false_iff (m : JsMap α) (k : String) : m.has k = false ↔ m.get? k = none := by
  unfold has
  cases m.get? k <;> simp

theorem has_eq_true_iff (m : JsMap α) (k : String) :
    m.has k = true ↔ ∃ v, m.get? k = some v := by
  unfold has
  cases m.get? k <;> simp

end JsMap

/-! ## C3: what a first-time joiner is sent -/

/-- C3 fails on the code: bob has no JoinRecord for room `ABC` and joins at
time 1200; the handler first records the join time and appends the join
notification, then replays every entry from that time on, so bob is sent a
`messageHistory` holding his own join notification. -/
theorem first_time_joiner_is_sent_history :
    (run State.init traceBeforeBobJoins).1.userJoinTimestamps.get?
        (userRoomKey "bob" "ABC") = none ∧
    Emission.toSocket "s2" (.messageHistory "ABC"
        [.notification 1200 "bob ha ingresado a la sala."]) ∈
      (step (run State.init traceBeforeBobJoins).1 1200 (.joinRoom "s2" msgBob)).2 ∧
    (run State.init [(100, .connection "s1"), (1000, .joinRoom "s1" msgAlice)]).2 =
      [(1000, .toRoom "ABC" (.messageNotice "ABC" "alice ha ingresado a la sala." 1000)),
       (1000, .toRoom "ABC" (.userList "ABC" 1 1
          [{ name := "alice", status := "activo", typing := false, connected := true,
             lastActivity := 1000 }])),
       (1000, .toSocket "s1" (.messageHistory "ABC"
          [.notification 1000 "alice ha ingresado a la sala."]))] := by
  refine ⟨by decide, by decide, by decide⟩

/-! ## C6: replay of the history since the join -/

/-- Counterexample to C6: a client whose display name is the empty string has
created room `ABC` at time 1000; its JoinRecord is 1000 and the log holds an
entry stamped 1000, yet `sendRecentMessageHistory` emits nothing. -/
theorem empty_name_replay_suppressed :
    (run State.init traceEmptyName).1.userJoinTimestamps.get? (userRoomKey "" "ABC")
      = some 1000 ∧
    (run State.init traceEmptyName).1.roomMessages.get? "ABC"
      = some [.notification 1000 " ha ingresado a la sala."] ∧
    [HistoryEntry.notification 1000 " ha ingresado a la sala."].filter
      (fun e => decide (e.timestamp ≥ 1000)) ≠ [] ∧
    sendRecentMessageHistory (run State.init traceEmptyName).1 "s1" "ABC" "" = [] := by
  refine ⟨by decide, by decide, by decide, by decide⟩

/-- C6 as amended: for a non-empty display name with a non-zero JoinRecord `t`,
`sendRecentMessageHistory` emits one `messageHistory` to the requesting
connection whose messages are the log entries with `timestamp ≥ t` in log
order, and nothing when that sequence is empty; it emits nothing when the log
is empty or absent, when there is no JoinRecord, or when the display name is
empty. -/
theorem replay_since_join (s : State) (sid roomCode displayName : String) :
    (∀ (log : List HistoryEntry) (t : Nat), displayName ≠ "" →
        s.roomMessages.get? roomCode = some log →
        s.userJoinTimestamps.get? (userRoomKey displayName roomCode) = some t → t ≠ 0 →
        sendRecentMessageHistory s sid roomCode displayName =
          if log.filter (fun e => decide (e.timestamp ≥ t)) = [] then []
          else [.toSocket sid (.messageHistory roomCode
                  (log.filter (fun e => decide (e.timestamp ≥ t))))]) ∧
    ((s.roomMessages.get? roomCode).getD [] = [] →
        sendRecentMessageHistory s sid roomCode displayName = []) ∧
    (s.userJoinTimestamps.get? (userRoomKey displayName roomCode) = none →
        sendRecentMessageHistory s sid roomCode displayName = []) ∧
    (displayName = "" → sendRecentMessageHistory s sid roomCode displayName = []) := by
  refine ⟨?_, ?_, ?_, ?_⟩
  · intro log t hn hl ht ht0
    unfold sendRecentMessageHistory
    have hh : s.roomMessages.has roomCode = true := JsMap.has_of_get? hl
    simp only [hh, hl, ht, Option.getD_some, hn, ht0]
    cases hf : log.filter (fun e => decide (e.timestamp ≥ t)) with
    | nil =>
      cases log with
      | nil => simp
      | cons a l => simp
    | cons a l =>
      cases log with
      | nil => simp at hf
      | cons b l2 => simp
  · intro h
    unfold sendRecentMessageHistory
    split
    · rfl
    · simp [h]
  · intro h
    unfold sendRecentMessageHistory
    simp only [h]
    split
    · rfl
    · simp
  · intro h
    unfold sendRecentMessageHistory
    simp [h]

/-- Witness of the amended C6: alice (JoinRecord 1000) is replayed her join
notification and her chat message, in log order. -/
theorem replay_since_join_witness :
    sendRecentMessageHistory (run State.init traceAliceDropped).1 "s2" "ABC" "alice" =
      [.toSocket "s2" (.messageHistory "ABC"
        [.notification 1000 "alice ha ingresado a la sala.",
         .chat "msg_1500_abc123" "alice" 1500 "hi" "alice [10:00]: hi" "delivered"])] :=
  (replay_since_join (run State.init traceAliceDropped).1 "s2" "ABC" "alice").1
    [.notification 1000 "alice ha ingresado a la sala.",
     .chat "msg_1500_abc123" "alice" 1500 "hi" "alice [10:00]: hi" "delivered"]
    1000 (by decide) (by decide) (by decide) (by decide)

/-! ## C7: destruction of an empty room -/

/-- C7: for a room counter that is not negative, `cleanupEmptyRoom` removes the
room exactly when the room exists, its `userCount` is 0 and its history log is
empty (or absent); it then deletes the code from `rooms`, `roomMessages` and
`roomParticipants` together, and in every other case the state is unchanged. -/
theorem cleanupEmptyRoom_spec (s : State) (roomCode : String)
    (hcount : ∀ r, s.rooms.get? roomCode = some r → 0 ≤ r.userCount) :
    ((∃ r, s.rooms.get? roomCode = some r ∧ r.userCount = 0 ∧
          (s.roomMessages.get? roomCode).getD [] = []) →
        (cleanupEmptyRoom s roomCode).rooms = s.rooms.delete roomCode ∧
        (cleanupEmptyRoom s roomCode).roomMessages = s.roomMessages.delete roomCode ∧
        (cleanupEmptyRoom s roomCode).roomParticipants = s.roomParticipants.delete roomCode ∧
        (cleanupEmptyRoom s roomCode).rooms.has roomCode = false ∧
        (cleanupEmptyRoom s roomCode).roomMessages.has roomCode = false ∧
        (cleanupEmptyRoom s roomCode).roomParticipants.has roomCode = false) ∧
    (¬ (∃ r, s.rooms.get? roomCode = some r ∧ r.userCount = 0 ∧
          (s.roomMessages.get? roomCode).getD [] = []) →
        cleanupEmptyRoom s roomCode = s) := by
  constructor
  · rintro ⟨r, hr, h0, hl⟩
    have hnot : ¬ r.userCount > 0 := by omega
    have hm : (match s.roomMessages.get? roomCode with
        | none => false
        | some l => decide (l.length > 0)) = false := by
      cases hg : s.roomMessages.get? roomCode with
      | none => rfl
      | some l =>
        rw [hg] at hl
        simp only [Option.getD_some] at hl
        simp [hl]
    unfold cleanupEmptyRoom
    simp only [hr, hnot, if_false, hm, Bool.not_false, if_true]
    exact ⟨trivial, trivial, trivial, JsMap.has_delete_same _ _, JsMap.has_delete_same _ _,
      JsMap.has_delete_same _ _⟩
  · intro hne
    unfold cleanupEmptyRoom
    cases hr : s.rooms.get? roomCode with
    | none => rfl
    | some r =>
      simp only []
      by_cases hpos : r.userCount > 0
      · rw [if_pos hpos]
      · rw [if_neg hpos]
        have h0 : r.userCount = 0 := by
          have := hcount r hr
          omega
        cases hg : s.roomMessages.get? roomCode with
        | none => exact absurd ⟨r, hr, h0, by simp [hg]⟩ hne
        | some l =>
          cases l with
          | nil => exact absurd ⟨r, hr, h0, by simp [hg]⟩ hne
          | cons a l => simp

/-- Witness of C7: after a voluntary leave room `ABC` has no live member but a
non-empty history, and `cleanupEmptyRoom` leaves the state unchanged; a room
that was only created (no member, empty history) is removed. -/
theorem cleanupEmptyRoom_spec_witness :
    (∀ r, (run State.init traceJoinLeave).1.rooms.get? "ABC" = some r → 0 ≤ r.userCount) ∧
    ((run State.init traceJoinLeave).1.rooms.get? "ABC").map (fun r => r.userCount) = some 0 ∧
    cleanupEmptyRoom (run State.init traceJoinLeave).1 "ABC" =
      (run State.init traceJoinLeave).1 ∧
    (cleanupEmptyRoom (createRoom State.init "ABC").1 "ABC").rooms.has "ABC" = false :=
  ⟨by decide, by decide,
   (cleanupEmptyRoom_spec (run State.init traceJoinLeave).1 "ABC" (by decide)).2 (by decide),
   ((cleanupEmptyRoom_spec (createRoom State.init "ABC").1 "ABC" (by decide)).1
      (by decide)).2.2.2.1⟩

/-! ## Fields left alone by the helpers of `joinRoom` -/

section fields
variable (s : State) (sid c name : String) (n : Nat)

@[simp] theorem recent_addNotificationToHistory (t : String) :
    (addNotificationToHistory s c t n).1.recentDisconnections = s.recentDisconnections := by
  unfold addNotificationToHistory; split <;> rfl

@[simp] theorem recent_markDisconnected :
    (markDisconnected s c name n).recentDisconnections = s.recentDisconnections := rfl

@[simp] theorem recent_leavePreviousRoom :
    (leavePreviousRoom s sid name c n).1.recentDisconnections = s.recentDisconnections := by
  unfold leavePreviousRoom
  simp only []
  repeat' split
  all_goals rfl

@[simp] theorem recent_updSock (f : SocketState → SocketState) :
    (updSock s sid f).recentDisconnections = s.recentDisconnections := rfl

@[simp] theorem recent_createRoom :
    (createRoom s c).1.recentDisconnections = s.recentDisconnections := rfl

@[simp] theorem recent_trackUserConnection :
    (trackUserConnection s c name n).1.recentDisconnections = s.recentDisconnections := by
  unfold trackUserConnection
  simp only []
  split <;> rfl

@[simp] theorem recent_upsertParticipant :
    (upsertParticipant s sid c name n).recentDisconnections = s.recentDisconnections := by
  unfold upsertParticipant
  simp only []
  split <;> rfl

@[simp] theorem recent_upsertLiveMember :
    (upsertLiveMember s sid c name n).1.recentDisconnections = s.recentDisconnections := by
  unfold upsertLiveMember
  repeat' split
  all_goals rfl

@[simp] theorem recent_joinNotification :
    (joinNotification s c name n).1.recentDisconnections = s.recentDisconnections := by
  unfold joinNotification
  exact recent_addNotificationToHistory _ _ _ _

end fields

theorem recent_joinPrepare (s : State) (sid : String) (m : Message) (n : Nat) :
    (joinPrepare s sid m n).1.recentDisconnections =
      (reconnectionCheck s (userRoomKey (getUserDisplayName m) m.roomCode) n).1.recentDisconnections := by
  unfold joinPrepare
  simp only [apply_ite State.recentDisconnections, recent_createRoom, recent_updSock,
    recent_leavePreviousRoom, ite_self]

theorem joinPrepare_isReconnection (s : State) (sid : String) (m : Message) (n : Nat) :
    (joinPrepare s sid m n).2.2 =
      (reconnectionCheck s (userRoomKey (getUserDisplayName m) m.roomCode) n).2 := rfl

theorem recent_joinRoomCore (s : State) (sid : String) (m : Message) (n : Nat)
    (h : (joinRoomCore s sid m n).2.2.rejected = false) :
    (joinRoomCore s sid m n).1.recentDisconnections =
      (reconnectionCheck s (userRoomKey (getUserDisplayName m) m.roomCode) n).1.recentDisconnections := by
  unfold joinRoomCore at h ⊢
  simp only [] at h ⊢
  split at h
  · simp at h
  · rename_i hc
    rw [if_neg hc]
    simp only [apply_ite Prod.fst, apply_ite State.recentDisconnections,
      recent_joinNotification, recent_upsertLiveMember, recent_upsertParticipant,
      recent_trackUserConnection, recent_joinPrepare, ite_self]

/-! ## C8 and C9: the reconnection record -/

theorem reconnectionCheck_true_iff (s : State) (key : String) (now : Nat) :
    (reconnectionCheck s key now).2 = true ↔
      ∃ d, s.recentDisconnections.get? key = some d ∧ d ≠ 0 ∧
        (now : Int) - (d : Int) < (RECONNECTION_WINDOW : Int) := by
  unfold reconnectionCheck
  cases hg : s.recentDisconnections.get? key with
  | none => simp
  | some d =>
    simp only []
    split
    · rename_i h
      simp only [Bool.and_eq_true, decide_eq_true_eq] at h
      simp [h.1, h.2]
    · rename_i h
      simp only [Bool.and_eq_true, decide_eq_true_eq] at h
      simp only [Bool.false_eq_true, false_iff]
      rintro ⟨d2, hd2, h1, h2⟩
      cases hd2
      exact h ⟨h1, h2⟩

theorem reconnectionCheck_snd_congr {s1 s2 : State} (key : String) (now : Nat)
    (h : s1.recentDisconnections = s2.recentDisconnections) :
    (reconnectionCheck s1 key now).2 = (reconnectionCheck s2 key now).2 := by
  unfold reconnectionCheck
  simp only [h]
  split <;> rfl

theorem reconnectionCheck_cleared (s : State) (key : String) (now : Nat)
    (h : (reconnectionCheck s key now).2 = true) :
    (reconnectionCheck s key now).1.recentDisconnections = s.recentDisconnections.delete key := by
  unfold reconnectionCheck at h ⊢
  simp only [] at h ⊢
  split
  · rfl
  · rename_i hc
    rw [if_neg hc] at h
    simp at h

theorem reconnectionCheck_kept (s : State) (key : String) (now : Nat)
    (h : (reconnectionCheck s key now).2 = false) :
    (reconnectionCheck s key now).1 = s := by
  unfold reconnectionCheck at h ⊢
  simp only [] at h ⊢
  split
  · rename_i hc
    rw [if_pos hc] at h
    simp at h
  · rfl

theorem isReconnection_joinRoomCore (s : State) (sid : String) (m : Message) (now : Nat) :
    (joinRoomCore s sid m now).2.2.isReconnection =
      if (joinRoomCore s sid m now).2.2.rejected then false
      else (reconnectionCheck s (userRoomKey (getUserDisplayName m) m.roomCode) now).2 := by
  unfold joinRoomCore
  simp only []
  split
  · simp
  · simp [joinPrepare_isReconnection]

/-- Counterexample to C8: alice dropped at 2000 and a join arrives at 12500.
The check is performed (the join is accepted) and fails, and the record of the
drop is still stored afterwards: performing the check did not clear it. -/
theorem stale_record_not_cleared :
    (run State.init traceStaleRecord).1.recentDisconnections.get? (userRoomKey "alice" "ABC")
      = some 2000 ∧
    (joinRoomCore (run State.init traceStaleRecord).1 "s2" msgAlice 12500).2.2.rejected
      = false ∧
    (joinRoomCore (run State.init traceStaleRecord).1 "s2" msgAlice 12500).2.2.isReconnection
      = false ∧
    (joinRoomCore (run State.init traceStaleRecord).1 "s2" msgAlice 12500).1.recentDisconnections.get?
      (userRoomKey "alice" "ABC") = some 2000 := by
  refine ⟨by decide, by decide, by decide, by decide⟩

/-- C9 fails on the code: alice drops at 1000, reconnects at 2000 and drops
again at 11500. The expiry timer of the first drop is still pending, comes due
at 12000 and deletes the record written at 11500, so a join at 13000 (1500 ms
after the second drop) is not recognised as a reconnection, although it would
have been had the stale timer done nothing. -/
theorem stale_expiry_deletes_newer_record :
    (run State.init traceTwoDrops).1.recentDisconnections.get? (userRoomKey "alice" "ABC")
      = some 11500 ∧
    (run State.init traceTwoDrops).1.timers.map (fun t => (t.id, t.fireAt)) =
      [(0, 12000), (1, 22500)] ∧
    (reconnectionCheck (run State.init traceTwoDrops).1 (userRoomKey "alice" "ABC") 13000).2
      = true ∧
    (run State.init traceTwoDropsThenConnect).1.recentDisconnections.get?
      (userRoomKey "alice" "ABC") = none ∧
    (joinRoomCore (run State.init traceTwoDropsThenConnect).1 "s3" msgAlice 13000).2.2.rejected
      = false ∧
    (joinRoomCore (run State.init traceTwoDropsThenConnect).1 "s3" msgAlice 13000).2.2.isReconnection
      = false := by
  refine ⟨by decide, by decide, by decide, by decide, by decide, by decide⟩

/-! ## Fields left alone by helpers and handlers -/

@[simp] theorem createRoom_jts (s : State) (c : String) :
    (createRoom s c).1.userJoinTimestamps = s.userJoinTimestamps := rfl

@[simp] theorem createRoom_timers (s : State) (c : String) :
    (createRoom s c).1.timers = s.timers := rfl

@[simp] theorem createRoom_nextTimer (s : State) (c : String) :
    (createRoom s c).1.nextTimer = s.nextTimer := rfl

@[simp] theorem addNotificationToHistory_jts (s : State) (c t : String) (n : Nat) :
    (addNotificationToHistory s c t n).1.userJoinTimestamps = s.userJoinTimestamps := by
  unfold addNotificationToHistory
  split <;> rfl

@[simp] theorem addNotificationToHistory_timers (s : State) (c t : String) (n : Nat) :
    (addNotificationToHistory s c t n).1.timers = s.timers := by
  unfold addNotificationToHistory
  split <;> rfl

@[simp] theorem addNotificationToHistory_nextTimer (s : State) (c t : String) (n : Nat) :
    (addNotificationToHistory s c t n).1.nextTimer = s.nextTimer := by
  unfold addNotificationToHistory
  split <;> rfl

@[simp] theorem removeUserFromRoom_timers (s : State) (c name : String) (v : Bool) (n : Nat) :
    (removeUserFromRoom s c name v n).1.timers = s.timers := by
  unfold removeUserFromRoom
  simp only []
  repeat' split
  all_goals simp

@[simp] theorem removeUserFromRoom_nextTimer (s : State) (c name : String) (v : Bool) (n : Nat) :
    (removeUserFromRoom s c name v n).1.nextTimer = s.nextTimer := by
  unfold removeUserFromRoom
  simp only []
  repeat' split
  all_goals simp

@[simp] theorem cleanupEmptyRoom_jts (s : State) (c : String) :
    (cleanupEmptyRoom s c).userJoinTimestamps = s.userJoinTimestamps := by
  unfold cleanupEmptyRoom
  simp only []
  repeat' split
  all_goals rfl

@[simp] theorem cleanupEmptyRoom_timers (s : State) (c : String) :
    (cleanupEmptyRoom s c).timers = s.timers := by
  unfold cleanupEmptyRoom
  simp only []
  repeat' split
  all_goals rfl

@[simp] theorem cleanupEmptyRoom_nextTimer (s : State) (c : String) :
    (cleanupEmptyRoom s c).nextTimer = s.nextTimer := by
  unfold cleanupEmptyRoom
  simp only []
  repeat' split
  all_goals rfl

@[simp] theorem trackUserConnection_timers (s : State) (c name : String) (n : Nat) :
    (trackUserConnection s c name n).1.timers = s.timers := by
  unfold trackUserConnection
  simp only []
  split <;> rfl

@[simp] theorem trackUserConnection_nextTimer (s : State) (c name : String) (n : Nat) :
    (trackUserConnection s c name n).1.nextTimer = s.nextTimer := by
  unfold trackUserConnection
  simp only []
  split <;> rfl

@[simp] theorem updateUserStatus_jts (s : State) (c name st : String) (n : Nat) :
    (updateUserStatus s c name st n).userJoinTimestamps = s.userJoinTimestamps := by
  unfold updateUserStatus
  split <;> rfl

@[simp] theorem updateUserStatus_timers (s : State) (c name st : String) (n : Nat) :
    (updateUserStatus s c name st n).timers = s.timers := by
  unfold updateUserStatus
  split <;> rfl

@[simp] theorem updateUserStatus_nextTimer (s : State) (c name st : String) (n : Nat) :
    (updateUserStatus s c name st n).nextTimer = s.nextTimer := by
  unfold updateUserStatus
  split <;> rfl

@[simp] theorem createChatMessage_jts (s : State) (c a b : String) (n : Nat) (t r : String) :
    (createChatMessage s c a b n t r).1.userJoinTimestamps = s.userJoinTimestamps := rfl

@[simp] theorem createChatMessage_timers (s : State) (c a b : String) (n : Nat) (t r : String) :
    (createChatMessage s c a b n t r).1.timers = s.timers := rfl

@[simp] theorem createChatMessage_nextTimer (s : State) (c a b : String) (n : Nat) (t r : String) :
    (createChatMessage s c a b n t r).1.nextTimer = s.nextTimer := rfl

@[simp] theorem reconnectionCheck_jts (s : State) (k : String) (n : Nat) :
    (reconnectionCheck s k n).1.userJoinTimestamps = s.userJoinTimestamps := by
  unfold reconnectionCheck
  simp only []
  split <;> rfl

@[simp] theorem reconnectionCheck_timers (s : State) (k : String) (n : Nat) :
    (reconnectionCheck s k n).1.timers = s.timers := by
  unfold reconnectionCheck
  simp only []
  split <;> rfl

@[simp] theorem reconnectionCheck_nextTimer (s : State) (k : String) (n : Nat) :
    (reconnectionCheck s k n).1.nextTimer = s.nextTimer := by
  unfold reconnectionCheck
  simp only []
  split <;> rfl

@[simp] theorem markDisconnected_jts (s : State) (c name : String) (n : Nat) :
    (markDisconnected s c name n).userJoinTimestamps = s.userJoinTimestamps := rfl

@[simp] theorem markDisconnected_timers (s : State) (c name : String) (n : Nat) :
    (markDisconnected s c name n).timers = s.timers := rfl

@[simp] theorem markDisconnected_nextTimer (s : State) (c name : String) (n : Nat) :
    (markDisconnected s c name n).nextTimer = s.nextTimer := rfl

@[simp] theorem leavePreviousRoom_jts (s : State) (sid name c : String) (n : Nat) :
    (leavePreviousRoom s sid name c n).1.userJoinTimestamps = s.userJoinTimestamps := by
  unfold leavePreviousRoom
  simp only []
  repeat' split
  all_goals rfl

@[simp] theorem leavePreviousRoom_timers (s : State) (sid name c : String) (n : Nat) :
    (leavePreviousRoom s sid name c n).1.timers = s.timers := by
  unfold leavePreviousRoom
  simp only []
  repeat' split
  all_goals rfl

@[simp] theorem leavePreviousRoom_nextTimer (s : State) (sid name c : String) (n : Nat) :
    (leavePreviousRoom s sid name c n).1.nextTimer = s.nextTimer := by
  unfold leavePreviousRoom
  simp only []
  repeat' split
  all_goals rfl

@[simp] theorem upsertParticipant_jts (s : State) (sid c name : String) (n : Nat) :
    (upsertParticipant s sid c name n).userJoinTimestamps = s.userJoinTimestamps := by
  unfold upsertParticipant
  simp only []
  split <;> rfl

@[simp] theorem upsertParticipant_timers (s : State) (sid c name : String) (n : Nat) :
    (upsertParticipant s sid c name n).timers = s.timers := by
  unfold upsertParticipant
  simp only []
  split <;> rfl

@[simp] theorem upsertParticipant_nextTimer (s : State) (sid c name : String) (n : Nat) :
    (upsertParticipant s sid c name n).nextTimer = s.nextTimer := by
  unfold upsertParticipant
  simp only []
  split <;> rfl

@[simp] theorem upsertLiveMember_jts (s : State) (sid c name : String) (n : Nat) :
    (upsertLiveMember s sid c name n).1.userJoinTimestamps = s.userJoinTimestamps := by
  unfold upsertLiveMember
  repeat' split
  all_goals rfl

@[simp] theorem upsertLiveMember_timers (s : State) (sid c name : String) (n : Nat) :
    (upsertLiveMember s sid c name n).1.timers = s.timers := by
  unfold upsertLiveMember
  repeat' split
  all_goals rfl

@[simp] theorem upsertLiveMember_nextTimer (s : State) (sid c name : String) (n : Nat) :
    (upsertLiveMember s sid c name n).1.nextTimer = s.nextTimer := by
  unfold upsertLiveMember
  repeat' split
  all_goals rfl

@[simp] theorem joinNotification_jts (s : State) (c name : String) (n : Nat) :
    (joinNotification s c name n).1.userJoinTimestamps = s.userJoinTimestamps := by
  simp [joinNotification]

@[simp] theorem joinNotification_timers (s : State) (c name : String) (n : Nat) :
    (joinNotification s c name n).1.timers = s.timers := by
  simp [joinNotification]

@[simp] theorem joinNotification_nextTimer (s : State) (c name : String) (n : Nat) :
    (joinNotification s c name n).1.nextTimer = s.nextTimer := by
  simp [joinNotification]

@[simp] theorem updSock_jts (s : State) (sid : String) (f : SocketState → SocketState) :
    (updSock s sid f).userJoinTimestamps = s.userJoinTimestamps := rfl

@[simp] theorem updSock_timers (s : State) (sid : String) (f : SocketState → SocketState) :
    (updSock s sid f).timers = s.timers := rfl

@[simp] theorem updSock_nextTimer (s : State) (sid : String) (f : SocketState → SocketState) :
    (updSock s sid f).nextTimer = s.nextTimer := rfl

@[simp] theorem clearTimeout_jts (s : State) (h : Nat) :
    (clearTimeout s h).userJoinTimestamps = s.userJoinTimestamps := rfl

@[simp] theorem clearTimeout_nextTimer (s : State) (h : Nat) :
    (clearTimeout s h).nextTimer = s.nextTimer := rfl

@[simp] theorem setTimeout_jts (s : State) (n d : Nat) (a : TimerAction) :
    (setTimeout s n d a).userJoinTimestamps = s.userJoinTimestamps := rfl

@[simp] theorem joinPrepare_jts (s : State) (sid : String) (m : Message) (n : Nat) :
    (joinPrepare s sid m n).1.userJoinTimestamps = s.userJoinTimestamps := by
  unfold joinPrepare
  simp only []
  repeat' split
  all_goals simp

@[simp] theorem joinPrepare_timers (s : State) (sid : String) (m : Message) (n : Nat) :
    (joinPrepare s sid m n).1.timers = s.timers := by
  unfold joinPrepare
  simp only []
  repeat' split
  all_goals simp

@[simp] theorem joinPrepare_nextTimer (s : State) (sid : String) (m : Message) (n : Nat) :
    (joinPrepare s sid m n).1.nextTimer = s.nextTimer := by
  unfold joinPrepare
  simp only []
  repeat' split
  all_goals simp

@[simp] theorem joinRoomCore_timers (s : State) (sid : String) (m : Message) (n : Nat) :
    (joinRoomCore s sid m n).1.timers = s.timers := by
  unfold joinRoomCore
  simp only []
  repeat' split
  all_goals simp

@[simp] theorem joinRoomCore_nextTimer (s : State) (sid : String) (m : Message) (n : Nat) :
    (joinRoomCore s sid m n).1.nextTimer = s.nextTimer := by
  unfold joinRoomCore
  simp only []
  repeat' split
  all_goals simp

@[simp] theorem sendMessage_jts (s : State) (sid : String) (m : Message) (n : Nat) (t r : String) :
    (sendMessage s sid m n t r).1.userJoinTimestamps = s.userJoinTimestamps := by
  unfold sendMessage
  simp only []
  repeat' split
  all_goals simp

@[simp] theorem sendMessage_nextTimer (s : State) (sid : String) (m : Message) (n : Nat) (t r : String) :
    (sendMessage s sid m n t r).1.nextTimer = s.nextTimer := by
  unfold sendMessage
  simp only []
  repeat' split
  all_goals simp

@[simp] theorem leaveRoom_timers (s : State) (sid : String) (m : Message) (n : Nat) :
    (leaveRoom s sid m n).1.timers = s.timers := by
  unfold leaveRoom
  simp only []
  repeat' split
  all_goals simp

@[simp] theorem leaveRoom_nextTimer (s : State) (sid : String) (m : Message) (n : Nat) :
    (leaveRoom s sid m n).1.nextTimer = s.nextTimer := by
  unfold leaveRoom
  simp only []
  repeat' split
  all_goals simp

@[simp] theorem typing_jts (s : State) (sid : String) (m : Message) (n : Nat) :
    (typing s sid m n).1.userJoinTimestamps = s.userJoinTimestamps := by
  unfold typing
  simp only []
  repeat' split
  all_goals rfl

@[simp] theorem stopTyping_jts (s : State) (sid : String) (m : Message) (n : Nat) :
    (stopTyping s sid m n).1.userJoinTimestamps = s.userJoinTimestamps := by
  unfold stopTyping
  simp only []
  repeat' split
  all_goals rfl

@[simp] theorem stopTyping_nextTimer (s : State) (sid : String) (m : Message) (n : Nat) :
    (stopTyping s sid m n).1.nextTimer = s.nextTimer := by
  unfold stopTyping
  simp only []
  repeat' split
  all_goals rfl

@[simp] theorem updateStatus_jts (s : State) (sid : String) (m : Message) (n : Nat) :
    (updateStatus s sid m n).1.userJoinTimestamps = s.userJoinTimestamps := by
  unfold updateStatus
  simp only []
  repeat' split
  all_goals simp

@[simp] theorem updateStatus_timers (s : State) (sid : String) (m : Message) (n : Nat) :
    (updateStatus s sid m n).1.timers = s.timers := by
  unfold updateStatus
  simp only []
  repeat' split
  all_goals simp

@[simp] theorem updateStatus_nextTimer (s : State) (sid : String) (m : Message) (n : Nat) :
    (updateStatus s sid m n).1.nextTimer = s.nextTimer := by
  unfold updateStatus
  simp only []
  repeat' split
  all_goals simp

@[simp] theorem disconnect_jts (s : State) (sid : String) (n : Nat) :
    (disconnect s sid n).1.userJoinTimestamps = s.userJoinTimestamps := by
  unfold disconnect
  simp only []
  repeat' split
  all_goals simp

@[simp] theorem fireTimer_jts (s : State) (t : Timer) :
    (fireTimer s t).1.userJoinTimestamps = s.userJoinTimestamps := by
  unfold fireTimer
  repeat' split
  all_goals rfl

@[simp] theorem fireTimer_timers (s : State) (t : Timer) :
    (fireTimer s t).1.timers = s.timers := by
  unfold fireTimer
  repeat' split
  all_goals rfl

@[simp] theorem fireTimer_nextTimer (s : State) (t : Timer) :
    (fireTimer s t).1.nextTimer = s.nextTimer := by
  unfold fireTimer
  repeat' split
  all_goals rfl

/-! ## Live membership is kept by every event but a voluntary leave -/

theorem JsMap.has_set {α : Type} (m : JsMap α) (k k1 : String) (v : α) :
    (JsMap.set m k v).has k1 = (m.has k1 || decide (k1 = k)) := by
  unfold JsMap.has
  rw [JsMap.get?_set]
  by_cases h : k1 = k
  · simp [h]
  · simp [h]

theorem memberOf_update {rooms : JsMap Room} {c name : String} (k : String) (f : Room → Room)
    (hf : ∀ r, r.users.has name = true → (f r).users.has name = true)
    (h : MemberOf rooms c name) : MemberOf (rooms.update k f) c name := by
  obtain ⟨r, hr, hn⟩ := h
  by_cases hk : c = k
  · exact ⟨f r, by rw [JsMap.get?_update, if_pos hk, hr]; rfl, hf r hn⟩
  · exact ⟨r, by rw [JsMap.get?_update_ne _ _ hk]; exact hr, hn⟩

theorem memberOf_update_users {rooms : JsMap Room} {c name : String} (k n : String)
    (g : UserInfo → UserInfo) (h : MemberOf rooms c name) :
    MemberOf (rooms.update k (fun r => { r with users := r.users.update n g })) c name :=
  memberOf_update k _ (fun r hr => by
    show (r.users.update n g).has name = true
    rw [JsMap.has_update]; exact hr) h

theorem memberOf_set_new {rooms : JsMap Room} {c name : String} (k : String) (v : Room)
    (hk : rooms.has k = false) (h : MemberOf rooms c name) :
    MemberOf (rooms.set k v) c name := by
  obtain ⟨r, hr, hn⟩ := h
  have hck : c ≠ k := by
    intro e
    subst e
    rw [(JsMap.has_eq_false_iff _ _).mp hk] at hr
    cases hr
  exact ⟨r, by rw [JsMap.get?_set_ne _ _ hck]; exact hr, hn⟩

theorem userCount_pos_of_member {rooms : JsMap Room} {c name : String} {r : Room}
    (hi : RoomsInv rooms) (hr : rooms.get? c = some r) (hn : r.users.has name = true) :
    r.userCount > 0 := by
  have hok := hi.2 (c, r) (JsMap.get?_mem hr)
  have hlen : 0 < r.users.length := by
    cases hu : r.users with
    | nil => rw [hu] at hn; simp [JsMap.has, JsMap.get?] at hn
    | cons a l => simp
  have h2 : r.userCount = (r.users.length : Int) := hok.2
  omega

theorem member_markDisconnected (s : State) (k n : String) (t : Nat) {c name : String}
    (h : MemberOf s.rooms c name) : MemberOf (markDisconnected s k n t).rooms c name :=
  memberOf_update_users k n _ h

theorem member_updateUserStatus (s : State) (k n st : String) (t : Nat) {c name : String}
    (h : MemberOf s.rooms c name) : MemberOf (updateUserStatus s k n st t).rooms c name := by
  unfold updateUserStatus
  split
  · exact h
  · exact memberOf_update_users k n _ h

theorem member_cleanupEmptyRoom (s : State) (k : String) {c name : String}
    (hi : RoomsInv s.rooms) (h : MemberOf s.rooms c name) :
    MemberOf (cleanupEmptyRoom s k).rooms c name := by
  unfold cleanupEmptyRoom
  split
  · exact h
  · rename_i room hroom
    split
    · exact h
    · rename_i hpos
      simp only []
      split
      · obtain ⟨r, hr, hn⟩ := h
        have hck : c ≠ k := by
          intro e
          subst e
          rw [hroom] at hr
          cases hr
          exact hpos (userCount_pos_of_member hi hroom hn)
        exact ⟨r, by
          show (s.rooms.delete k).get? c = some r
          rw [JsMap.get?_delete_ne _ hck]; exact hr, hn⟩
      · exact h

theorem member_leavePreviousRoom (s : State) (sid n k : String) (t : Nat) {c name : String}
    (h : MemberOf s.rooms c name) : MemberOf (leavePreviousRoom s sid n k t).1.rooms c name := by
  unfold leavePreviousRoom
  simp only []
  split
  · split
    · exact h
    · split
      · exact member_markDisconnected _ _ _ _ h
      · exact h
  · exact h

theorem member_upsertLiveMember (s : State) (sid k n : String) (t : Nat) {c name : String}
    (h : MemberOf s.rooms c name) : MemberOf (upsertLiveMember s sid k n t).1.rooms c name := by
  unfold upsertLiveMember
  split
  · exact h
  · split
    · exact memberOf_update k (fun r =>
          { r with
            users := r.users.set n
              { socketId := sid, status := "activo", typing := false, connected := true,
                lastActivity := t }
            userCount := r.userCount + 1 }) (fun r hr => by
        show (r.users.set n _).has name = true
        rw [JsMap.has_set, hr]; rfl) h
    · exact memberOf_update_users k n _ h

theorem member_joinPrepare (s : State) (sid : String) (m : Message) (t : Nat) {c name : String}
    (h : MemberOf s.rooms c name) : MemberOf (joinPrepare s sid m t).1.rooms c name := by
  unfold joinPrepare
  simp only []
  have h1 := @member_leavePreviousRoom
    (reconnectionCheck s (userRoomKey (getUserDisplayName m) m.roomCode) t).1 sid
    (getUserDisplayName m) m.roomCode t c name
    (by rw [rooms_reconnectionCheck]; exact h)
  generalize (leavePreviousRoom
    (reconnectionCheck s (userRoomKey (getUserDisplayName m) m.roomCode) t).1 sid
    (getUserDisplayName m) m.roomCode t) = lp at h1 ⊢
  have h3 : MemberOf (updSock lp.1 sid (fun k =>
    { k with currentRoom := some m.roomCode, currentUser := some m.userName,
             displayName := some (getUserDisplayName m) })).rooms c name := h1
  generalize (updSock lp.1 sid (fun k =>
    { k with currentRoom := some m.roomCode, currentUser := some m.userName,
             displayName := some (getUserDisplayName m) })) = s3 at h3 ⊢
  have h4 : MemberOf (if !s3.rooms.has m.roomCode then (createRoom s3 m.roomCode).1 else s3).rooms
      c name := by
    split
    · rename_i hh
      exact memberOf_set_new _ _ (by simpa using hh) h3
    · exact h3
  generalize (if !s3.rooms.has m.roomCode then (createRoom s3 m.roomCode).1 else s3) = s4 at h4 ⊢
  have h5 : MemberOf (if !s4.roomMessages.has m.roomCode then
    { s4 with roomMessages := s4.roomMessages.set m.roomCode [] } else s4).rooms c name := by
    split <;> exact h4
  generalize (if !s4.roomMessages.has m.roomCode then
    { s4 with roomMessages := s4.roomMessages.set m.roomCode [] } else s4) = s5 at h5 ⊢
  split <;> exact h5

theorem member_joinRoomCore (s : State) (sid : String) (m : Message) (t : Nat) {c name : String}
    (h : MemberOf s.rooms c name) : MemberOf (joinRoomCore s sid m t).1.rooms c name := by
  unfold joinRoomCore
  simp only []
  split
  · exact h
  · have h6 := member_joinPrepare s sid m t h
    generalize joinPrepare s sid m t = pr at h6 ⊢
    have h7 : MemberOf (trackUserConnection pr.1 m.roomCode (getUserDisplayName m) t).1.rooms
        c name := by
      rw [rooms_trackUserConnection]; exact h6
    generalize (trackUserConnection pr.1 m.roomCode (getUserDisplayName m) t) = tr at h7 ⊢
    have h8 := @member_upsertLiveMember
      (upsertParticipant tr.1 sid m.roomCode (getUserDisplayName m) t)
      sid m.roomCode (getUserDisplayName m) t c name
      (by rw [rooms_upsertParticipant]; exact h7)
    generalize (upsertLiveMember (upsertParticipant tr.1 sid m.roomCode (getUserDisplayName m) t)
      sid m.roomCode (getUserDisplayName m) t) = lm at h8 ⊢
    split
    · rw [rooms_joinNotification]; exact h8
    · exact h8

theorem member_sendMessage (s : State) (sid : String) (m : Message) (n : Nat) (t r : String)
    {c name : String} (h : MemberOf s.rooms c name) :
    MemberOf (sendMessage s sid m n t r).1.rooms c name := by
  unfold sendMessage
  simp only []
  split
  · exact h
  · split
    · rw [rooms_createChatMessage]
      have h1 := member_updateUserStatus s m.roomCode (getUserDisplayName m) "activo" n h
      generalize updateUserStatus s m.roomCode (getUserDisplayName m) "activo" n = s1 at h1 ⊢
      have h2 : MemberOf (match (sockOf s sid).typingTimeout with
          | none => s1
          | some hd => updSock (clearTimeout s1 hd) sid
              (fun k => { k with typingTimeout := none })).rooms c name := by
        split <;> exact h1
      generalize (match (sockOf s sid).typingTimeout with
          | none => s1
          | some hd => updSock (clearTimeout s1 hd) sid
              (fun k => { k with typingTimeout := none })) = s2 at h2 ⊢
      split
      · exact h2
      · split
        · exact memberOf_update_users _ _ _ h2
        · exact h2
    · exact h

theorem member_typing (s : State) (sid : String) (m : Message) (n : Nat) {c name : String}
    (h : MemberOf s.rooms c name) : MemberOf (typing s sid m n).1.rooms c name := by
  unfold typing
  simp only []
  split
  · exact h
  · split
    · exact h
    · split
      · have key : MemberOf (s.rooms.update m.roomCode (fun r =>
            { r with users := r.users.update (getUserDisplayName m) (fun u =>
                { u with typing := true, lastActivity := n }) })) c name :=
          memberOf_update_users _ _ _ h
        split <;> exact key
      · exact h

theorem member_stopTyping (s : State) (sid : String) (m : Message) (n : Nat) {c name : String}
    (h : MemberOf s.rooms c name) : MemberOf (stopTyping s sid m n).1.rooms c name := by
  unfold stopTyping
  simp only []
  split
  · exact h
  · split
    · exact h
    · split
      · have key : MemberOf (s.rooms.update m.roomCode (fun r =>
            { r with users := r.users.update (getUserDisplayName m) (fun u =>
                { u with typing := false, lastActivity := n }) })) c name :=
          memberOf_update_users _ _ _ h
        split <;> exact key
      · exact h

theorem member_updateStatus (s : State) (sid : String) (m : Message) (n : Nat) {c name : String}
    (h : MemberOf s.rooms c name) : MemberOf (updateStatus s sid m n).1.rooms c name := by
  unfold updateStatus
  simp only []
  split
  · exact h
  · exact member_updateUserStatus _ _ _ _ _ h

theorem member_disconnect (s : State) (sid : String) (n : Nat) {c name : String}
    (hi : RoomsInv s.rooms) (h : MemberOf s.rooms c name) :
    MemberOf (disconnect s sid n).1.rooms c name := by
  unfold disconnect
  simp only []
  split
  · split
    · exact h
    · split
      · exact member_cleanupEmptyRoom _ _ (inv_markDisconnected _ _ _ _ hi)
          (member_markDisconnected _ _ _ _ h)
      · exact h
  · exact h

theorem member_fireTimer (s : State) (t : Timer) {c name : String}
    (h : MemberOf s.rooms c name) : MemberOf (fireTimer s t).1.rooms c name := by
  unfold fireTimer
  split
  · exact h
  · simp only [updSock]
    split
    · exact h
    · split
      · split
        · exact memberOf_update_users _ _ _ h
        · exact h
      · split
        · exact h
        · split <;> exact h

theorem member_step (s : State) (n : Nat) (e : Event) {c name : String}
    (hi : RoomsInv s.rooms) (hl : e.isLeave = false) (h : MemberOf s.rooms c name) :
    MemberOf (step s n e).1.rooms c name := by
  cases e with
  | connection sid => simp only [step]; split <;> exact h
  | joinRoom sid m => simp only [step]; split; exact member_joinRoomCore s sid m n h; exact h
  | sendMessage sid m t r =>
    simp only [step]; split; exact member_sendMessage s sid m n t r h; exact h
  | leaveRoom sid m => simp [Event.isLeave] at hl
  | typing sid m => simp only [step]; split; exact member_typing s sid m n h; exact h
  | stopTyping sid m => simp only [step]; split; exact member_stopTyping s sid m n h; exact h
  | updateStatus sid m => simp only [step]; split; exact member_updateStatus s sid m n h; exact h
  | disconnect sid => simp only [step]; split; exact member_disconnect s sid n hi h; exact h
  | timeout hd =>
    simp only [step]
    split
    · exact h
    · exact member_fireTimer (clearTimeout s hd) _ h

/-! ## The history log is left alone by most helpers -/

@[simp] theorem trackUserConnection_log (s : State) (c name : String) (n : Nat) :
    (trackUserConnection s c name n).1.roomMessages = s.roomMessages := by
  unfold trackUserConnection
  simp only []
  split <;> rfl

@[simp] theorem updateUserStatus_log (s : State) (c name st : String) (n : Nat) :
    (updateUserStatus s c name st n).roomMessages = s.roomMessages := by
  unfold updateUserStatus
  split <;> rfl

@[simp] theorem reconnectionCheck_log (s : State) (k : String) (n : Nat) :
    (reconnectionCheck s k n).1.roomMessages = s.roomMessages := by
  unfold reconnectionCheck
  simp only []
  split <;> rfl

@[simp] theorem markDisconnected_log (s : State) (c name : String) (n : Nat) :
    (markDisconnected s c name n).roomMessages = s.roomMessages := rfl

@[simp] theorem leavePreviousRoom_log (s : State) (sid name c : String) (n : Nat) :
    (leavePreviousRoom s sid name c n).1.roomMessages = s.roomMessages := by
  unfold leavePreviousRoom
  simp only []
  repeat' split
  all_goals rfl

@[simp] theorem upsertParticipant_log (s : State) (sid c name : String) (n : Nat) :
    (upsertParticipant s sid c name n).roomMessages = s.roomMessages := by
  unfold upsertParticipant
  simp only []
  split <;> rfl

@[simp] theorem upsertLiveMember_log (s : State) (sid c name : String) (n : Nat) :
    (upsertLiveMember s sid c name n).1.roomMessages = s.roomMessages := by
  unfold upsertLiveMember
  repeat' split
  all_goals rfl

@[simp] theorem updSock_log (s : State) (sid : String) (f : SocketState → SocketState) :
    (updSock s sid f).roomMessages = s.roomMessages := rfl

@[simp] theorem clearTimeout_log (s : State) (h : Nat) :
    (clearTimeout s h).roomMessages = s.roomMessages := rfl

@[simp] theorem setTimeout_log (s : State) (n d : Nat) (a : TimerAction) :
    (setTimeout s n d a).roomMessages = s.roomMessages := rfl

@[simp] theorem typing_log (s : State) (sid : String) (m : Message) (n : Nat) :
    (typing s sid m n).1.roomMessages = s.roomMessages := by
  unfold typing
  simp only []
  repeat' split
  all_goals rfl

@[simp] theorem stopTyping_log (s : State) (sid : String) (m : Message) (n : Nat) :
    (stopTyping s sid m n).1.roomMessages = s.roomMessages := by
  unfold stopTyping
  simp only []
  repeat' split
  all_goals rfl

@[simp] theorem updateStatus_log (s : State) (sid : String) (m : Message) (n : Nat) :
    (updateStatus s sid m n).1.roomMessages = s.roomMessages := by
  unfold updateStatus
  simp only []
  repeat' split
  all_goals simp

@[simp] theorem fireTimer_log (s : State) (t : Timer) :
    (fireTimer s t).1.roomMessages = s.roomMessages := by
  unfold fireTimer
  repeat' split
  all_goals rfl

/-! ## The JoinRecord is kept by every event but a voluntary leave -/

theorem trackUserConnection_of_has (s : State) (c name : String) (n : Nat)
    (h : s.userJoinTimestamps.has (userRoomKey name c) = true) :
    trackUserConnection s c name n =
      (s, { isFirstTimeJoining := false, hadLeftVoluntarily := false,
            joinTimestamp := s.userJoinTimestamps.get? (userRoomKey name c) }) := by
  unfold trackUserConnection
  simp [h]

theorem trackUserConnection_of_not_has (s : State) (c name : String) (n : Nat)
    (h : s.userJoinTimestamps.has (userRoomKey name c) = false) :
    (trackUserConnection s c name n).1 =
        { s with userJoinTimestamps := s.userJoinTimestamps.set (userRoomKey name c) n } ∧
      (trackUserConnection s c name n).2.isFirstTimeJoining = true := by
  unfold trackUserConnection
  simp [h]

theorem jts_get_trackUserConnection (s : State) (c name : String) (n : Nat) {k : String}
    {ts : Nat} (h : s.userJoinTimestamps.get? k = some ts) :
    (trackUserConnection s c name n).1.userJoinTimestamps.get? k = some ts := by
  by_cases hh : s.userJoinTimestamps.has (userRoomKey name c) = true
  · rw [trackUserConnection_of_has s c name n hh]; exact h
  · have hf : s.userJoinTimestamps.has (userRoomKey name c) = false := by simpa using hh
    rw [(trackUserConnection_of_not_has s c name n hf).1]
    show (s.userJoinTimestamps.set (userRoomKey name c) n).get? k = some ts
    have hne : k ≠ userRoomKey name c := by
      intro e
      rw [e, (JsMap.has_eq_false_iff _ _).mp hf] at h
      cases h
    rw [JsMap.get?_set_ne _ _ hne]; exact h

theorem jts_get_joinRoomCore (s : State) (sid : String) (m : Message) (n : Nat) {k : String}
    {ts : Nat} (h : s.userJoinTimestamps.get? k = some ts) :
    (joinRoomCore s sid m n).1.userJoinTimestamps.get? k = some ts := by
  unfold joinRoomCore
  simp only []
  split
  · exact h
  · simp only [apply_ite Prod.fst, apply_ite State.userJoinTimestamps, joinNotification_jts,
      upsertLiveMember_jts, upsertParticipant_jts, ite_self]
    exact jts_get_trackUserConnection _ _ _ _ (by rw [joinPrepare_jts]; exact h)

theorem jts_get_step (s : State) (n : Nat) (e : Event) {k : String} {ts : Nat}
    (hl : e.isLeave = false) (h : s.userJoinTimestamps.get? k = some ts) :
    (step s n e).1.userJoinTimestamps.get? k = some ts := by
  cases e with
  | connection sid => simp only [step]; split <;> exact h
  | joinRoom sid m =>
    simp only [step]; split
    · exact jts_get_joinRoomCore s sid m n h
    · exact h
  | sendMessage sid m t r => simp only [step]; split <;> simp [h]
  | leaveRoom sid m => simp [Event.isLeave] at hl
  | typing sid m => simp only [step]; split <;> simp [h]
  | stopTyping sid m => simp only [step]; split <;> simp [h]
  | updateStatus sid m => simp only [step]; split <;> simp [h]
  | disconnect sid => simp only [step]; split <;> simp [h]
  | timeout hd =>
    simp only [step]
    split
    · exact h
    · simp [h]

theorem inv_steps (l : List (Nat × Event)) (s : State) (h : RoomsInv s.rooms) :
    RoomsInv (steps s l).rooms := by
  induction l generalizing s with
  | nil => exact h
  | cons p rest ih =>
    obtain ⟨t, e⟩ := p
    exact ih _ (inv_step s t e h)

theorem member_jts_steps (l : List (Nat × Event)) (s : State) {c name k : String} {ts : Nat}
    (hi : RoomsInv s.rooms) (hl : ∀ p ∈ l, p.2.isLeave = false)
    (hm : MemberOf s.rooms c name) (hj : s.userJoinTimestamps.get? k = some ts) :
    MemberOf (steps s l).rooms c name ∧ (steps s l).userJoinTimestamps.get? k = some ts := by
  induction l generalizing s with
  | nil => exact ⟨hm, hj⟩
  | cons p rest ih =>
    obtain ⟨t, e⟩ := p
    have he : e.isLeave = false := hl (t, e) (List.mem_cons_self _ _)
    exact ih _ (inv_step s t e hi) (fun q hq => hl q (List.mem_cons_of_mem _ hq))
      (member_step s t e hi he hm) (jts_get_step s t e he hj)

/-! ## Analysis of the accepted `joinRoom` -/

theorem updateUserList_isUserList (s : State) (c : String) (n : Nat) :
    ∀ e ∈ updateUserList s c n, isUserList e = true := by
  unfold updateUserList
  split
  · intro e he; cases he
  · intro e he
    simp only [List.mem_singleton] at he
    rw [he]; rfl

theorem leavePreviousRoom_isUserList (s : State) (sid name c : String) (n : Nat) :
    ∀ e ∈ (leavePreviousRoom s sid name c n).2, isUserList e = true := by
  unfold leavePreviousRoom
  simp only []
  split
  · split
    · intro e he; cases he
    · split
      · exact updateUserList_isUserList _ _ _
      · intro e he; cases he
  · intro e he; cases he

theorem joinPrepare_isUserList (s : State) (sid : String) (m : Message) (n : Nat) :
    ∀ e ∈ (joinPrepare s sid m n).2.1, isUserList e = true := by
  unfold joinPrepare
  exact leavePreviousRoom_isUserList _ _ _ _ _

theorem rooms_has_leavePreviousRoom (s : State) (sid name c : String) (n : Nat) (k : String) :
    (leavePreviousRoom s sid name c n).1.rooms.has k = s.rooms.has k := by
  unfold leavePreviousRoom
  simp only []
  split
  · split
    · rfl
    · split
      · simp only [markDisconnected]
        exact JsMap.has_update _ _ _ _
      · rfl
  · rfl

theorem joinPrepare_rooms_has (s : State) (sid : String) (m : Message) (n : Nat) :
    (joinPrepare s sid m n).1.rooms.has m.roomCode = true := by
  unfold joinPrepare
  simp only []
  generalize (updSock (leavePreviousRoom
    (reconnectionCheck s (userRoomKey (getUserDisplayName m) m.roomCode) n).1 sid
    (getUserDisplayName m) m.roomCode n).1 sid (fun k =>
    { k with currentRoom := some m.roomCode, currentUser := some m.userName,
             displayName := some (getUserDisplayName m) })) = s3
  have h4 : (if !s3.rooms.has m.roomCode then (createRoom s3 m.roomCode).1 else s3).rooms.has
      m.roomCode = true := by
    split
    · exact JsMap.has_set_same _ _ _
    · rename_i hh
      simpa using hh
  generalize (if !s3.rooms.has m.roomCode then (createRoom s3 m.roomCode).1 else s3) = s4 at h4 ⊢
  have h5 : (if !s4.roomMessages.has m.roomCode then
    { s4 with roomMessages := s4.roomMessages.set m.roomCode [] } else s4).rooms.has
      m.roomCode = true := by
    split <;> exact h4
  generalize (if !s4.roomMessages.has m.roomCode then
    { s4 with roomMessages := s4.roomMessages.set m.roomCode [] } else s4) = s5 at h5 ⊢
  split <;> exact h5

theorem joinPrepare_log_has (s : State) (sid : String) (m : Message) (n : Nat) :
    (joinPrepare s sid m n).1.roomMessages.has m.roomCode = true := by
  unfold joinPrepare
  simp only []
  generalize (updSock (leavePreviousRoom
    (reconnectionCheck s (userRoomKey (getUserDisplayName m) m.roomCode) n).1 sid
    (getUserDisplayName m) m.roomCode n).1 sid (fun k =>
    { k with currentRoom := some m.roomCode, currentUser := some m.userName,
             displayName := some (getUserDisplayName m) })) = s3
  generalize (if !s3.rooms.has m.roomCode then (createRoom s3 m.roomCode).1 else s3) = s4
  have h5 : (if !s4.roomMessages.has m.roomCode then
    { s4 with roomMessages := s4.roomMessages.set m.roomCode [] } else s4).roomMessages.has
      m.roomCode = true := by
    split
    · exact JsMap.has_set_same _ _ _
    · rename_i hh
      simpa using hh
  generalize (if !s4.roomMessages.has m.roomCode then
    { s4 with roomMessages := s4.roomMessages.set m.roomCode [] } else s4) = s5 at h5 ⊢
  split <;> exact h5

theorem historyOf_congr {s1 s2 : State} (c : String) (h : s1.roomMessages = s2.roomMessages) :
    historyOf s1 c = historyOf s2 c := by
  unfold historyOf; rw [h]

theorem joinPrepare_history (s : State) (sid : String) (m : Message) (n : Nat)
    (h : s.rooms.has m.roomCode = false → historyOf s m.roomCode = []) :
    historyOf (joinPrepare s sid m n).1 m.roomCode = historyOf s m.roomCode := by
  unfold joinPrepare
  simp only []
  have h3r : (updSock (leavePreviousRoom
      (reconnectionCheck s (userRoomKey (getUserDisplayName m) m.roomCode) n).1 sid
      (getUserDisplayName m) m.roomCode n).1 sid (fun k =>
      { k with currentRoom := some m.roomCode, currentUser := some m.userName,
               displayName := some (getUserDisplayName m) })).rooms.has m.roomCode =
      s.rooms.has m.roomCode := by
    show (leavePreviousRoom _ sid _ _ n).1.rooms.has m.roomCode = _
    rw [rooms_has_leavePreviousRoom, rooms_reconnectionCheck]
  have h3l : historyOf (updSock (leavePreviousRoom
      (reconnectionCheck s (userRoomKey (getUserDisplayName m) m.roomCode) n).1 sid
      (getUserDisplayName m) m.roomCode n).1 sid (fun k =>
      { k with currentRoom := some m.roomCode, currentUser := some m.userName,
               displayName := some (getUserDisplayName m) })) m.roomCode =
      historyOf s m.roomCode :=
    historyOf_congr _ (by simp)
  generalize (updSock (leavePreviousRoom
    (reconnectionCheck s (userRoomKey (getUserDisplayName m) m.roomCode) n).1 sid
    (getUserDisplayName m) m.roomCode n).1 sid (fun k =>
    { k with currentRoom := some m.roomCode, currentUser := some m.userName,
             displayName := some (getUserDisplayName m) })) = s3 at h3r h3l ⊢
  have h4 : historyOf (if !s3.rooms.has m.roomCode then (createRoom s3 m.roomCode).1 else s3)
      m.roomCode = historyOf s m.roomCode := by
    split
    · rename_i hh
      have hf : s.rooms.has m.roomCode = false := by rw [← h3r]; simpa using hh
      rw [h hf]
      show ((s3.roomMessages.set m.roomCode []).get? m.roomCode).getD [] = []
      rw [JsMap.get?_set_same]; rfl
    · exact h3l
  generalize (if !s3.rooms.has m.roomCode then (createRoom s3 m.roomCode).1 else s3) = s4 at h4 ⊢
  have h5 : historyOf (if !s4.roomMessages.has m.roomCode then
      { s4 with roomMessages := s4.roomMessages.set m.roomCode [] } else s4) m.roomCode =
      historyOf s m.roomCode := by
    split
    · rename_i hh
      rw [← h4]
      have hf : s4.roomMessages.get? m.roomCode = none :=
        (JsMap.has_eq_false_iff _ _).mp (by simpa using hh)
      show ((s4.roomMessages.set m.roomCode []).get? m.roomCode).getD [] =
        (s4.roomMessages.get? m.roomCode).getD []
      rw [JsMap.get?_set_same, hf]; rfl
    · exact h4
  generalize (if !s4.roomMessages.has m.roomCode then
    { s4 with roomMessages := s4.roomMessages.set m.roomCode [] } else s4) = s5 at h5 ⊢
  split <;> exact h5

theorem upsertLiveMember_of_member (s : State) (sid c name : String) (n : Nat)
    (h : MemberOf s.rooms c name) : (upsertLiveMember s sid c name n).2 = false := by
  obtain ⟨r, hr, hn⟩ := h
  unfold upsertLiveMember
  simp [hr, hn]

theorem sendRecentMessageHistory_not_message (s : State) (sid c name : String) :
    ∀ e ∈ sendRecentMessageHistory s sid c name, isMessageEvent e = false := by
  unfold sendRecentMessageHistory
  simp only []
  repeat' split
  all_goals intro e he
  all_goals first
    | (simp only [List.mem_singleton] at he; rw [he]; rfl)
    | cases he

theorem isMessageEvent_of_isUserList {e : Emission} (h : isUserList e = true) :
    isMessageEvent e = false := by
  cases e with
  | toSocket sid p => simp [isUserList] at h
  | toRoom c p => cases p <;> first | rfl | simp [isUserList] at h

/-- A join by a display name that is a live member of the room and has a
JoinRecord: no `message` event is emitted, the log and the JoinRecord stay. -/
theorem rejoin_silent (s : State) (sid : String) (m : Message) (n : Nat) {ts : Nat}
    (hm : MemberOf s.rooms m.roomCode (getUserDisplayName m))
    (hj : s.userJoinTimestamps.get? (userRoomKey (getUserDisplayName m) m.roomCode) = some ts) :
    (∀ e ∈ (joinRoomCore s sid m n).2.1, isMessageEvent e = false) ∧
    historyOf (joinRoomCore s sid m n).1 m.roomCode = historyOf s m.roomCode ∧
    (joinRoomCore s sid m n).1.userJoinTimestamps.get?
      (userRoomKey (getUserDisplayName m) m.roomCode) = some ts ∧
    (joinRoomCore s sid m n).2.2.rejected = false := by
  have hhas : s.rooms.has m.roomCode = true := by
    obtain ⟨r, hr, _⟩ := hm
    exact JsMap.has_of_get? hr
  have hpm := member_joinPrepare s sid m n hm
  have hpj : (joinPrepare s sid m n).1.userJoinTimestamps.has
      (userRoomKey (getUserDisplayName m) m.roomCode) = true := by
    rw [joinPrepare_jts]; exact JsMap.has_of_get? hj
  have hph := joinPrepare_history s sid m n (fun hf => by rw [hhas] at hf; cases hf)
  have hpe := joinPrepare_isUserList s sid m n
  have htr := trackUserConnection_of_has _ _ _ n hpj
  have hlm := upsertLiveMember_of_member
    (upsertParticipant (joinPrepare s sid m n).1 sid m.roomCode (getUserDisplayName m) n)
    sid m.roomCode (getUserDisplayName m) n (by rw [rooms_upsertParticipant]; exact hpm)
  unfold joinRoomCore
  simp only [hhas, Bool.not_true, Bool.false_and, Bool.false_eq_true, if_false, htr, hlm,
    Bool.or_self, List.append_nil]
  refine ⟨?_, ?_, ?_, trivial⟩
  · intro e he
    simp only [List.mem_append] at he
    rcases he with (he | he) | he
    · exact isMessageEvent_of_isUserList (hpe e he)
    · exact isMessageEvent_of_isUserList (updateUserList_isUserList _ _ _ e he)
    · exact sendRecentMessageHistory_not_message _ _ _ _ e he
  · rw [← hph]
    exact historyOf_congr _ (by simp)
  · simp only [upsertLiveMember_jts, upsertParticipant_jts, joinPrepare_jts]
    exact hj

theorem memberOf_update_at {rooms : JsMap Room} {c name : String} {r : Room}
    (f : Room → Room) (hr : rooms.get? c = some r) (hf : (f r).users.has name = true) :
    MemberOf (rooms.update c f) c name :=
  ⟨f r, by rw [JsMap.get?_update_same, hr]; rfl, hf⟩

theorem upsertLiveMember_member (s : State) (sid c name : String) (n : Nat)
    (h : s.rooms.has c = true) : MemberOf (upsertLiveMember s sid c name n).1.rooms c name := by
  obtain ⟨r, hr⟩ := (JsMap.has_eq_true_iff _ _).mp h
  unfold upsertLiveMember
  simp only [hr]
  split
  · exact memberOf_update_at (fun r =>
        { r with
          users := r.users.set name
            { socketId := sid, status := "activo", typing := false, connected := true,
              lastActivity := n }
          userCount := r.userCount + 1 }) hr (JsMap.has_set_same _ _ _)
  · rename_i hh
    exact memberOf_update_at (fun r =>
        { r with users := r.users.update name (fun u =>
            { u with connected := true, status := "activo", lastActivity := n,
                     socketId := sid }) }) hr
      (by
        simp only []
        rw [JsMap.has_update]
        simpa using hh)

theorem trackUserConnection_has (s : State) (c name : String) (n : Nat) :
    (trackUserConnection s c name n).1.userJoinTimestamps.has (userRoomKey name c) = true := by
  by_cases hh : s.userJoinTimestamps.has (userRoomKey name c) = true
  · rw [trackUserConnection_of_has s c name n hh]; exact hh
  · have hf : s.userJoinTimestamps.has (userRoomKey name c) = false := by simpa using hh
    rw [(trackUserConnection_of_not_has s c name n hf).1]
    exact JsMap.has_set_same _ _ _

/-- After an accepted join the display name is a live member of the room and
has a JoinRecord. -/
theorem joinRoomCore_post (s : State) (sid : String) (m : Message) (n : Nat)
    (h : (joinRoomCore s sid m n).2.2.rejected = false) :
    MemberOf (joinRoomCore s sid m n).1.rooms m.roomCode (getUserDisplayName m) ∧
    (joinRoomCore s sid m n).1.userJoinTimestamps.has
      (userRoomKey (getUserDisplayName m) m.roomCode) = true := by
  unfold joinRoomCore at h ⊢
  simp only [] at h ⊢
  split at h
  · simp at h
  · rename_i hc
    rw [if_neg hc]
    constructor
    · have hlm := upsertLiveMember_member
        (upsertParticipant (trackUserConnection (joinPrepare s sid m n).1 m.roomCode
          (getUserDisplayName m) n).1 sid m.roomCode (getUserDisplayName m) n)
        sid m.roomCode (getUserDisplayName m) n
        (by rw [rooms_upsertParticipant, rooms_trackUserConnection]
            exact joinPrepare_rooms_has s sid m n)
      generalize joinPrepare s sid m n = pr at hlm ⊢
      generalize trackUserConnection pr.1 m.roomCode (getUserDisplayName m) n = tr at hlm ⊢
      generalize upsertLiveMember (upsertParticipant tr.1 sid m.roomCode (getUserDisplayName m) n)
        sid m.roomCode (getUserDisplayName m) n = lm at hlm ⊢
      simp only []
      split
      · rw [rooms_joinNotification]; exact hlm
      · exact hlm
    · simp only [apply_ite Prod.fst, apply_ite State.userJoinTimestamps, joinNotification_jts,
        upsertLiveMember_jts, upsertParticipant_jts, ite_self]
      exact trackUserConnection_has _ _ _ _

/-! ## A reconnection with no `leaveRoom` in between is silent -/

/-- A reconnection is silent when no `leaveRoom` event of any client happens
in between: a participant joins a room (the join is accepted), disconnects at
time `d` and sends `joinRoom` for the same room at time `t` with
`t - d < 10000`; whatever other events, timer callbacks included, happen in
between, as long as none is a `leaveRoom`, the second join emits no `message`
event, leaves the history log of the room as it was, and leaves the JoinRecord
at the value it had after the original join. (The proof does not use the bound
on `t - d`: the member stays in the `users` map after a disconnect.) A
`leaveRoom` of another participant whose key is the same string can break
this. -/
theorem reconnect_within_window_is_silent (s s1 s2 : State) (hs : Reachable s)
    (sid sid2 : String) (m m2 : Message) (t0 d t : Nat) (es1 es2 : List (Nat × Event))
    (hlive : isLive s sid = true)
    (hacc : (joinRoomCore s sid m t0).2.2.rejected = false)
    (hroom : m2.roomCode = m.roomCode)
    (hname : getUserDisplayName m2 = getUserDisplayName m)
    (hes1 : ∀ p ∈ es1, p.2.isLeave = false) (hes2 : ∀ p ∈ es2, p.2.isLeave = false)
    (_hwin : (t : Int) - (d : Int) < 10000)
    (hs1 : s1 = (step s t0 (.joinRoom sid m)).1)
    (hs2 : s2 = steps s1 (es1 ++ (d, .disconnect sid) :: es2)) :
    (∀ e ∈ (step s2 t (.joinRoom sid2 m2)).2, isMessageEvent e = false) ∧
    historyOf (step s2 t (.joinRoom sid2 m2)).1 m.roomCode = historyOf s2 m.roomCode ∧
    (∃ ts, s1.userJoinTimestamps.get? (userRoomKey (getUserDisplayName m) m.roomCode)
        = some ts ∧
      (step s2 t (.joinRoom sid2 m2)).1.userJoinTimestamps.get?
        (userRoomKey (getUserDisplayName m) m.roomCode) = some ts) := by
  have h1 : s1 = (joinRoomCore s sid m t0).1 := by
    rw [hs1]; simp [step, hlive, joinRoom]
  have hpost := joinRoomCore_post s sid m t0 hacc
  rw [← h1] at hpost
  obtain ⟨ts, hts⟩ := (JsMap.has_eq_true_iff _ _).mp hpost.2
  have hi1 : RoomsInv s1.rooms := by
    rw [h1]; exact inv_joinRoomCore s sid m t0 (reachable_roomsInv hs)
  have hall : ∀ p ∈ es1 ++ (d, Event.disconnect sid) :: es2, p.2.isLeave = false := by
    intro p hp
    rcases List.mem_append.mp hp with hp | hp
    · exact hes1 p hp
    · rcases List.mem_cons.mp hp with hp | hp
      · rw [hp]; rfl
      · exact hes2 p hp
  have h2 := member_jts_steps _ s1 hi1 hall hpost.1 hts
  rw [← hs2] at h2
  simp only [step]
  split
  · have hm2 : MemberOf s2.rooms m2.roomCode (getUserDisplayName m2) := by
      rw [hroom, hname]; exact h2.1
    have hj2 : s2.userJoinTimestamps.get? (userRoomKey (getUserDisplayName m2) m2.roomCode)
        = some ts := by
      rw [hroom, hname]; exact h2.2
    have key := rejoin_silent s2 sid2 m2 t hm2 hj2
    rw [hroom, hname] at key
    exact ⟨key.1, key.2.1, ts, hts, key.2.2.1⟩
  · exact ⟨fun e he => (by cases he), rfl, ts, hts, h2.2⟩

/-- Example of a silent reconnection: alice joins at 1000, drops at 2000 and
joins again from a new connection at 2500. -/
theorem reconnect_within_window_is_silent_witness :
    (∀ e ∈ (step (steps (step stateOneClient 1000 (.joinRoom "s1" msgAlice)).1
        ([] ++ (2000, .disconnect "s1") :: [(2400, .connection "s2")]))
        2500 (.joinRoom "s2" msgAlice)).2, isMessageEvent e = false) ∧
    (step (steps (step stateOneClient 1000 (.joinRoom "s1" msgAlice)).1
        ([] ++ (2000, .disconnect "s1") :: [(2400, .connection "s2")]))
        2500 (.joinRoom "s2" msgAlice)).1.userJoinTimestamps.get? (userRoomKey "alice" "ABC")
      = some 1000 ∧
    isLive (steps (step stateOneClient 1000 (.joinRoom "s1" msgAlice)).1
        ([] ++ (2000, .disconnect "s1") :: [(2400, .connection "s2")])) "s2" = true :=
  ⟨(reconnect_within_window_is_silent stateOneClient _ _
      (Reachable.step _ _ _ Reachable.init) "s1" "s2" msgAlice msgAlice 1000 2000 2500
      [] [(2400, .connection "s2")] (by decide) (by decide) rfl rfl
      (fun _ hp => by cases hp) (by decide) (by decide) rfl rfl).1,
   by decide, by decide⟩

/-! ## C5: joining again after a voluntary leave -/

theorem notMemberOf_update_users {rooms : JsMap Room} {c name : String} (k n : String)
    (g : UserInfo → UserInfo) (h : NotMemberOf rooms c name) :
    NotMemberOf (rooms.update k (fun r => { r with users := r.users.update n g })) c name := by
  intro r hr
  rw [JsMap.get?_update] at hr
  split at hr
  · cases hg : rooms.get? c with
    | none => rw [hg] at hr; cases hr
    | some r0 =>
      rw [hg] at hr
      simp only [Option.map_some', Option.some.injEq] at hr
      rw [← hr]
      show (JsMap.update r0.users n g).has name = false
      rw [JsMap.has_update]
      exact h r0 hg
  · exact h r hr

theorem notMember_leavePreviousRoom (s : State) (sid n k : String) (t : Nat) {c name : String}
    (h : NotMemberOf s.rooms c name) :
    NotMemberOf (leavePreviousRoom s sid n k t).1.rooms c name := by
  unfold leavePreviousRoom
  simp only []
  split
  · split
    · exact h
    · split
      · exact notMemberOf_update_users _ _ _ h
      · exact h
  · exact h

theorem notMember_joinPrepare (s : State) (sid : String) (m : Message) (t : Nat) {name : String}
    (h : NotMemberOf s.rooms m.roomCode name) :
    NotMemberOf (joinPrepare s sid m t).1.rooms m.roomCode name := by
  unfold joinPrepare
  simp only []
  have h1 := @notMember_leavePreviousRoom
    (reconnectionCheck s (userRoomKey (getUserDisplayName m) m.roomCode) t).1 sid
    (getUserDisplayName m) m.roomCode t m.roomCode name
    (by rw [rooms_reconnectionCheck]; exact h)
  generalize (leavePreviousRoom
    (reconnectionCheck s (userRoomKey (getUserDisplayName m) m.roomCode) t).1 sid
    (getUserDisplayName m) m.roomCode t) = lp at h1 ⊢
  have h3 : NotMemberOf (updSock lp.1 sid (fun k =>
    { k with currentRoom := some m.roomCode, currentUser := some m.userName,
             displayName := some (getUserDisplayName m) })).rooms m.roomCode name := h1
  generalize (updSock lp.1 sid (fun k =>
    { k with currentRoom := some m.roomCode, currentUser := some m.userName,
             displayName := some (getUserDisplayName m) })) = s3 at h3 ⊢
  have h4 : NotMemberOf (if !s3.rooms.has m.roomCode then (createRoom s3 m.roomCode).1 else s3).rooms
      m.roomCode name := by
    split
    · intro r hr
      have hr2 : (s3.rooms.set m.roomCode { oid := s3.nextOid, users := [], userCount := 0 }).get?
          m.roomCode = some r := hr
      rw [JsMap.get?_set_same] at hr2
      cases hr2
      rfl
    · exact h3
  generalize (if !s3.rooms.has m.roomCode then (createRoom s3 m.roomCode).1 else s3) = s4 at h4 ⊢
  have h5 : NotMemberOf (if !s4.roomMessages.has m.roomCode then
    { s4 with roomMessages := s4.roomMessages.set m.roomCode [] } else s4).rooms
      m.roomCode name := by
    split <;> exact h4
  generalize (if !s4.roomMessages.has m.roomCode then
    { s4 with roomMessages := s4.roomMessages.set m.roomCode [] } else s4) = s5 at h5 ⊢
  split <;> exact h5

theorem upsertLiveMember_of_notMember (s : State) (sid c name : String) (n : Nat)
    (hh : s.rooms.has c = true) (h : NotMemberOf s.rooms c name) :
    (upsertLiveMember s sid c name n).2 = true := by
  obtain ⟨r, hr⟩ := (JsMap.has_eq_true_iff _ _).mp hh
  unfold upsertLiveMember
  simp [hr, h r hr]

theorem joinNotification_spec (s : State) (c name : String) (n : Nat)
    (h : s.roomMessages.has c = true) :
    (joinNotification s c name n).2 =
        [.toRoom c (.messageNotice c (name ++ " ha ingresado a la sala.") n)] ∧
    historyOf (joinNotification s c name n).1 c =
        historyOf s c ++ [.notification n (name ++ " ha ingresado a la sala.")] := by
  obtain ⟨l, hl⟩ := (JsMap.has_eq_true_iff _ _).mp h
  unfold joinNotification addNotificationToHistory historyOf
  simp only [h, Bool.not_true, Bool.false_eq_true, if_false, ite_self, JsMap.get?_update_same,
    hl, Option.map_some', Option.getD_some]
  exact ⟨trivial, trivial⟩

theorem sendRecentMessageHistory_entries (s : State) (sid c name : String) {ts : Nat}
    (h : s.userJoinTimestamps.get? (userRoomKey name c) = some ts) :
    ∀ e ∈ sendRecentMessageHistory s sid c name, ∀ dst c1 msgs,
      e = Emission.toSocket dst (.messageHistory c1 msgs) → ∀ x ∈ msgs, ts ≤ x.timestamp := by
  unfold sendRecentMessageHistory
  simp only [h]
  repeat' split
  all_goals intro e he
  all_goals first
    | (simp only [List.mem_singleton] at he
       intro dst c1 msgs heq x hx
       rw [he] at heq
       simp only [Emission.toSocket.injEq, Payload.messageHistory.injEq] at heq
       rw [← heq.2.2] at hx
       simpa using (List.mem_filter.mp hx).2)
    | cases he

theorem not_history_of_isUserList {e : Emission} (h : isUserList e = true) (dst c1 : String)
    (msgs : List HistoryEntry) : e ≠ Emission.toSocket dst (.messageHistory c1 msgs) := by
  intro heq
  rw [heq] at h
  simp [isUserList] at h

/-- A join by a display name that is not a live member of the room, has no
JoinRecord and is not recognised as a reconnection. -/
theorem fresh_join_notifies (s : State) (sid : String) (m : Message) (n : Nat)
    (hnm : NotMemberOf s.rooms m.roomCode (getUserDisplayName m))
    (hj : s.userJoinTimestamps.get? (userRoomKey (getUserDisplayName m) m.roomCode) = none)
    (habs : s.rooms.has m.roomCode = false →
      s.roomParticipants.has m.roomCode = false ∧ historyOf s m.roomCode = [])
    (hrc : (reconnectionCheck s (userRoomKey (getUserDisplayName m) m.roomCode) n).2 = false) :
    Emission.toRoom m.roomCode (.messageNotice m.roomCode
        (getUserDisplayName m ++ " ha ingresado a la sala.") n) ∈ (joinRoomCore s sid m n).2.1 ∧
    historyOf (joinRoomCore s sid m n).1 m.roomCode =
      historyOf s m.roomCode ++
        [.notification n (getUserDisplayName m ++ " ha ingresado a la sala.")] ∧
    (joinRoomCore s sid m n).1.userJoinTimestamps.get?
      (userRoomKey (getUserDisplayName m) m.roomCode) = some n ∧
    (∀ e ∈ (joinRoomCore s sid m n).2.1, ∀ dst c1 msgs,
      e = Emission.toSocket dst (.messageHistory c1 msgs) → ∀ x ∈ msgs, n ≤ x.timestamp) := by
  have hrej : (!s.rooms.has m.roomCode && s.roomParticipants.has m.roomCode) = false := by
    cases hh : s.rooms.has m.roomCode with
    | true => rfl
    | false => simp [(habs hh).1]
  have hpn := notMember_joinPrepare s sid m n hnm
  have hph := joinPrepare_history s sid m n (fun hf => (habs hf).2)
  have hpe := joinPrepare_isUserList s sid m n
  have hpr := joinPrepare_rooms_has s sid m n
  have hpl := joinPrepare_log_has s sid m n
  have hpj : (joinPrepare s sid m n).1.userJoinTimestamps.has
      (userRoomKey (getUserDisplayName m) m.roomCode) = false := by
    rw [joinPrepare_jts]; exact (JsMap.has_eq_false_iff _ _).mpr hj
  have hprc : (joinPrepare s sid m n).2.2 = false := by
    rw [joinPrepare_isReconnection]; exact hrc
  unfold joinRoomCore
  simp only [hrej, Bool.false_eq_true, if_false]
  generalize joinPrepare s sid m n = pr at hpn hph hpe hpr hpl hpj hprc ⊢
  have htr := trackUserConnection_of_not_has pr.1 m.roomCode (getUserDisplayName m) n hpj
  have htj : (trackUserConnection pr.1 m.roomCode (getUserDisplayName m)
      n).1.userJoinTimestamps.get? (userRoomKey (getUserDisplayName m) m.roomCode) = some n := by
    rw [htr.1]; exact JsMap.get?_set_same _ _ _
  have htl := trackUserConnection_log pr.1 m.roomCode (getUserDisplayName m) n
  have htrm := rooms_trackUserConnection pr.1 m.roomCode (getUserDisplayName m) n
  generalize trackUserConnection pr.1 m.roomCode (getUserDisplayName m) n = tr at htj htl htrm ⊢
  have hlm := upsertLiveMember_of_notMember
    (upsertParticipant tr.1 sid m.roomCode (getUserDisplayName m) n)
    sid m.roomCode (getUserDisplayName m) n
    (by rw [rooms_upsertParticipant, htrm]; exact hpr)
    (by rw [rooms_upsertParticipant, htrm]; exact hpn)
  have hll : (upsertLiveMember (upsertParticipant tr.1 sid m.roomCode (getUserDisplayName m) n)
      sid m.roomCode (getUserDisplayName m) n).1.roomMessages = pr.1.roomMessages := by
    rw [upsertLiveMember_log, upsertParticipant_log, htl]
  have hlj : (upsertLiveMember (upsertParticipant tr.1 sid m.roomCode (getUserDisplayName m) n)
      sid m.roomCode (getUserDisplayName m) n).1.userJoinTimestamps = tr.1.userJoinTimestamps := by
    rw [upsertLiveMember_jts, upsertParticipant_jts]
  generalize upsertLiveMember (upsertParticipant tr.1 sid m.roomCode (getUserDisplayName m) n)
    sid m.roomCode (getUserDisplayName m) n = lm at hlm hll hlj ⊢
  have hjn := joinNotification_spec lm.1 m.roomCode (getUserDisplayName m) n
    (by rw [hll]; exact hpl)
  have hjj := joinNotification_jts lm.1 m.roomCode (getUserDisplayName m) n
  simp only [hlm, hprc, Bool.not_false, Bool.and_self, Bool.true_or, if_true, hjn.1]
  generalize joinNotification lm.1 m.roomCode (getUserDisplayName m) n = jn at hjn hjj ⊢
  have hjts : jn.1.userJoinTimestamps.get? (userRoomKey (getUserDisplayName m) m.roomCode)
      = some n := by
    rw [hjj, hlj]; exact htj
  refine ⟨?_, ?_, hjts, ?_⟩
  · simp
  · rw [hjn.2, ← hph, historyOf_congr m.roomCode hll]
  · intro e he
    simp only [List.mem_append, List.mem_singleton] at he
    rcases he with ((he | he) | he) | he
    · intro dst c1 msgs heq
      exact absurd heq (not_history_of_isUserList (hpe e he) dst c1 msgs)
    · intro dst c1 msgs heq
      rw [he] at heq
      cases heq
    · intro dst c1 msgs heq
      exact absurd heq (not_history_of_isUserList (updateUserList_isUserList _ _ _ e he) dst c1 msgs)
    · exact sendRecentMessageHistory_entries _ _ _ _ hjts e he

theorem removeUserFromRoom_voluntary (s : State) (c name : String) (n : Nat) {r : Room}
    (hr : s.rooms.get? c = some r) (hn : r.users.has name = true) :
    (removeUserFromRoom s c name true n).1.rooms =
        s.rooms.update c (fun r =>
          { r with users := r.users.delete name, userCount := r.userCount - 1 }) ∧
    (removeUserFromRoom s c name true n).1.userJoinTimestamps =
        s.userJoinTimestamps.delete (userRoomKey name c) ∧
    (removeUserFromRoom s c name true n).1.recentDisconnections = s.recentDisconnections := by
  unfold removeUserFromRoom
  simp only [hr, hn, Bool.not_true, Bool.false_eq_true, if_false, if_true,
    rooms_addNotificationToHistory, addNotificationToHistory_jts,
    recent_addNotificationToHistory]
  exact ⟨trivial, trivial, trivial⟩

theorem cleanupEmptyRoom_cases (s : State) (c : String) :
    cleanupEmptyRoom s c = s ∨
    ((cleanupEmptyRoom s c).rooms = s.rooms.delete c ∧
     (cleanupEmptyRoom s c).roomMessages = s.roomMessages.delete c ∧
     (cleanupEmptyRoom s c).roomParticipants = s.roomParticipants.delete c ∧
     (cleanupEmptyRoom s c).userJoinTimestamps = s.userJoinTimestamps ∧
     (cleanupEmptyRoom s c).recentDisconnections = s.recentDisconnections) := by
  unfold cleanupEmptyRoom
  split
  · exact Or.inl rfl
  · split
    · exact Or.inl rfl
    · simp only []
      split
      · exact Or.inr ⟨rfl, rfl, rfl, rfl, rfl⟩
      · exact Or.inl rfl

/-- After the voluntary leave of a live member: the name is no longer a live
member, its JoinRecord is gone, and if the room was destroyed so were its log
and its ghost directory; the disconnect records are untouched. -/
theorem leaveRoom_post (s : State) (sid : String) (m : Message) (n : Nat)
    (hcode : m.roomCode ≠ "")
    (hm : MemberOf s.rooms m.roomCode (getUserDisplayName m)) :
    NotMemberOf (leaveRoom s sid m n).1.rooms m.roomCode (getUserDisplayName m) ∧
    (leaveRoom s sid m n).1.userJoinTimestamps.get?
      (userRoomKey (getUserDisplayName m) m.roomCode) = none ∧
    ((leaveRoom s sid m n).1.rooms.has m.roomCode = false →
      (leaveRoom s sid m n).1.roomParticipants.has m.roomCode = false ∧
      historyOf (leaveRoom s sid m n).1 m.roomCode = []) ∧
    (leaveRoom s sid m n).1.recentDisconnections = s.recentDisconnections := by
  obtain ⟨r, hr, hn⟩ := hm
  have hrem := removeUserFromRoom_voluntary s m.roomCode (getUserDisplayName m) n hr hn
  have hnm : NotMemberOf (removeUserFromRoom s m.roomCode (getUserDisplayName m) true n).1.rooms
      m.roomCode (getUserDisplayName m) := by
    intro r1 hr1
    rw [hrem.1, JsMap.get?_update_same, hr] at hr1
    simp only [Option.map_some', Option.some.injEq] at hr1
    rw [← hr1]
    exact JsMap.has_delete_same _ _
  have hhas : (removeUserFromRoom s m.roomCode (getUserDisplayName m) true n).1.rooms.has
      m.roomCode = true := by
    rw [hrem.1, JsMap.has_update]; exact JsMap.has_of_get? hr
  have hjt : (removeUserFromRoom s m.roomCode (getUserDisplayName m) true
      n).1.userJoinTimestamps.get? (userRoomKey (getUserDisplayName m) m.roomCode) = none := by
    rw [hrem.2.1]; exact JsMap.get?_delete_same _ _
  have hrd := hrem.2.2
  unfold leaveRoom
  simp only [hcode, if_false, hr, hn, if_true]
  generalize (removeUserFromRoom s m.roomCode (getUserDisplayName m) true n).1 = s1
    at hnm hhas hjt hrd ⊢
  have key : NotMemberOf (cleanupEmptyRoom s1 m.roomCode).rooms m.roomCode (getUserDisplayName m) ∧
      (cleanupEmptyRoom s1 m.roomCode).userJoinTimestamps.get?
        (userRoomKey (getUserDisplayName m) m.roomCode) = none ∧
      ((cleanupEmptyRoom s1 m.roomCode).rooms.has m.roomCode = false →
        (cleanupEmptyRoom s1 m.roomCode).roomParticipants.has m.roomCode = false ∧
        historyOf (cleanupEmptyRoom s1 m.roomCode) m.roomCode = []) ∧
      (cleanupEmptyRoom s1 m.roomCode).recentDisconnections = s.recentDisconnections := by
    rcases cleanupEmptyRoom_cases s1 m.roomCode with h | h
    · rw [h]
      exact ⟨hnm, hjt, fun hf => (by rw [hhas] at hf; cases hf), hrd⟩
    · refine ⟨?_, ?_, ?_, ?_⟩
      · intro r1 hr1
        rw [h.1, JsMap.get?_delete_same] at hr1
        cases hr1
      · rw [h.2.2.2.1]; exact hjt
      · intro _
        refine ⟨by rw [h.2.2.1]; exact JsMap.has_delete_same _ _, ?_⟩
        unfold historyOf
        rw [h.2.1, JsMap.get?_delete_same]; rfl
      · rw [h.2.2.2.2]; exact hrd
  generalize cleanupEmptyRoom s1 m.roomCode = s2 at key ⊢
  split
  · exact key
  · exact key

theorem memberOf_of_eval {rooms : JsMap Room} {c name : String}
    (h : (rooms.get? c).map (fun r => r.users.has name) = some true) : MemberOf rooms c name := by
  cases hg : rooms.get? c with
  | none => rw [hg] at h; cases h
  | some r =>
    rw [hg] at h
    simp only [Option.map_some', Option.some.injEq] at h
    exact ⟨r, hg, h⟩

/-- C5 fails on the code: bob is a live member of room `ABC` from two
connections; the first drops at 100, the second leaves voluntarily at 200 and
joins again at 300. The leave has deleted bob's ghost entry, so the join has
`hadLeftVoluntarily = false`; the disconnect record of 100 is still fresh, so
it is taken for a reconnection; hence neither a join notification is appended
to the history nor a `message` event broadcast. -/
theorem rejoin_after_leave_without_notification :
    ((run State.init traceTwoTabs).1.rooms.get? "ABC").map (fun r => r.users.has "bob")
      = some true ∧
    (step (run State.init traceTwoTabs).1 200 (.leaveRoom "s2" msgBob)).2 =
      [.toRoom "ABC" (.messageNotice "ABC" "bob ha abandonado la sala." 200),
       .toRoom "ABC" (.userList "ABC" 0 0 [])] ∧
    (step (run State.init traceTwoTabs).1 200
        (.leaveRoom "s2" msgBob)).1.roomParticipants.get? "ABC" = some [] ∧
    (step (run State.init traceTwoTabs).1 200
        (.leaveRoom "s2" msgBob)).1.recentDisconnections.get? (userRoomKey "bob" "ABC")
      = some 100 ∧
    (joinRoomCore (step (run State.init traceTwoTabs).1 200 (.leaveRoom "s2" msgBob)).1
        "s2" msgBob 300).2.2 =
      { rejected := false, isReconnection := true, isNewUser := true,
        isFirstTimeJoining := true, hadLeftVoluntarily := false } ∧
    (step (step (run State.init traceTwoTabs).1 200 (.leaveRoom "s2" msgBob)).1 300
        (.joinRoom "s2" msgBob)).2 =
      [.toRoom "ABC" (.userList "ABC" 1 1
        [{ name := "bob", status := "activo", typing := false, connected := true,
           lastActivity := 300 }])] ∧
    historyOf (step (step (run State.init traceTwoTabs).1 200 (.leaveRoom "s2" msgBob)).1 300
        (.joinRoom "s2" msgBob)).1 "ABC" =
      [.notification 10 "bob ha ingresado a la sala.",
       .notification 200 "bob ha abandonado la sala."] := by
  refine ⟨by decide, by decide, by decide, by decide, by decide, by decide, by decide⟩

/-- A rejoin right after a voluntary leave that is not recognised as a
reconnection is treated as new: a live member of a room leaves it voluntarily
and the next event is a `joinRoom` of the same display name for the same room,
with no non-zero disconnect record of the key younger than 10000 ms. Then the
join notification `<displayName> ha ingresado a la sala.` is appended to the
history and broadcast to the room, the JoinRecord is the time of the new join,
and every `messageHistory` sent holds only entries stamped at or after that
time. -/
theorem rejoin_after_leave_is_new (s s1 : State) (sid sid2 : String) (m m2 : Message)
    (t1 t2 : Nat)
    (hlive : isLive s sid = true) (hcode : m.roomCode ≠ "")
    (hmem : MemberOf s.rooms m.roomCode (getUserDisplayName m))
    (hroom : m2.roomCode = m.roomCode)
    (hname : getUserDisplayName m2 = getUserDisplayName m)
    (hs1 : s1 = (step s t1 (.leaveRoom sid m)).1)
    (hlive2 : isLive s1 sid2 = true)
    (hnorec : ∀ d, s.recentDisconnections.get? (userRoomKey (getUserDisplayName m) m.roomCode)
        = some d → d = 0 ∨ (10000 : Int) ≤ (t2 : Int) - (d : Int)) :
    Emission.toRoom m.roomCode (.messageNotice m.roomCode
        (getUserDisplayName m ++ " ha ingresado a la sala.") t2) ∈
      (step s1 t2 (.joinRoom sid2 m2)).2 ∧
    historyOf (step s1 t2 (.joinRoom sid2 m2)).1 m.roomCode =
      historyOf s1 m.roomCode ++
        [.notification t2 (getUserDisplayName m ++ " ha ingresado a la sala.")] ∧
    (step s1 t2 (.joinRoom sid2 m2)).1.userJoinTimestamps.get?
      (userRoomKey (getUserDisplayName m) m.roomCode) = some t2 ∧
    (∀ e ∈ (step s1 t2 (.joinRoom sid2 m2)).2, ∀ dst c1 msgs,
      e = Emission.toSocket dst (.messageHistory c1 msgs) → ∀ x ∈ msgs, t2 ≤ x.timestamp) := by
  have h1 : s1 = (leaveRoom s sid m t1).1 := by
    rw [hs1]; simp [step, hlive]
  have hpost := leaveRoom_post s sid m t1 hcode hmem
  rw [← h1] at hpost
  have hrc : (reconnectionCheck s1 (userRoomKey (getUserDisplayName m) m.roomCode) t2).2
      = false := by
    cases hb : (reconnectionCheck s1 (userRoomKey (getUserDisplayName m) m.roomCode) t2).2 with
    | false => rfl
    | true =>
      exfalso
      obtain ⟨d, hd, hd0, hw⟩ := (reconnectionCheck_true_iff _ _ _).mp hb
      rw [hpost.2.2.2] at hd
      rcases hnorec d hd with h0 | h0
      · exact hd0 h0
      · simp only [RECONNECTION_WINDOW] at hw
        omega
  have key := fresh_join_notifies s1 sid2 m2 t2
    (by rw [hroom, hname]; exact hpost.1)
    (by rw [hroom, hname]; exact hpost.2.1)
    (by rw [hroom]; exact hpost.2.2.1)
    (by rw [hroom, hname]; exact hrc)
  rw [hroom, hname] at key
  simp only [step, hlive2, if_true, joinRoom]
  exact key

/-- Example of a rejoin treated as new: alice creates room `ABC`, leaves at
3000 and joins again at 5000. -/
theorem rejoin_after_leave_is_new_witness :
    MemberOf (run State.init [(100, .connection "s1"), (1000, .joinRoom "s1" msgAlice)]).1.rooms
      "ABC" "alice" ∧
    Emission.toRoom "ABC" (.messageNotice "ABC" "alice ha ingresado a la sala." 5000) ∈
      (step (run State.init traceJoinLeave).1 5000 (.joinRoom "s1" msgAlice)).2 ∧
    historyOf (step (run State.init traceJoinLeave).1 5000 (.joinRoom "s1" msgAlice)).1 "ABC" =
      [.notification 1000 "alice ha ingresado a la sala.",
       .notification 3000 "alice ha abandonado la sala.",
       .notification 5000 "alice ha ingresado a la sala."] :=
  ⟨memberOf_of_eval (by decide),
   (rejoin_after_leave_is_new
      (run State.init [(100, .connection "s1"), (1000, .joinRoom "s1" msgAlice)]).1
      (run State.init traceJoinLeave).1 "s1" "s1" msgAlice msgAlice 3000 5000
      (by decide) (by decide) (memberOf_of_eval (by decide)) rfl rfl (by decide) (by decide)
      (fun d hd => by
        have h0 : (run State.init [(100, .connection "s1"),
            (1000, .joinRoom "s1" msgAlice)]).1.recentDisconnections.get?
            (userRoomKey (getUserDisplayName msgAlice) msgAlice.roomCode) = none := by decide
        rw [h0] at hd
        cases hd)).1,
   by decide⟩

/-! ## The connection states are left alone by most helpers -/

@[simp] theorem createRoom_sockets (s : State) (c : String) :
    (createRoom s c).1.sockets = s.sockets := rfl

@[simp] theorem addNotificationToHistory_sockets (s : State) (c t : String) (n : Nat) :
    (addNotificationToHistory s c t n).1.sockets = s.sockets := by
  unfold addNotificationToHistory
  split <;> rfl

@[simp] theorem removeUserFromRoom_sockets (s : State) (c name : String) (v : Bool) (n : Nat) :
    (removeUserFromRoom s c name v n).1.sockets = s.sockets := by
  unfold removeUserFromRoom
  simp only []
  repeat' split
  all_goals simp

@[simp] theorem cleanupEmptyRoom_sockets (s : State) (c : String) :
    (cleanupEmptyRoom s c).sockets = s.sockets := by
  unfold cleanupEmptyRoom
  simp only []
  repeat' split
  all_goals rfl

@[simp] theorem trackUserConnection_sockets (s : State) (c name : String) (n : Nat) :
    (trackUserConnection s c name n).1.sockets = s.sockets := by
  unfold trackUserConnection
  simp only []
  split <;> rfl

@[simp] theorem updateUserStatus_sockets (s : State) (c name st : String) (n : Nat) :
    (updateUserStatus s c name st n).sockets = s.sockets := by
  unfold updateUserStatus
  split <;> rfl

@[simp] theorem createChatMessage_sockets (s : State) (c a b : String) (n : Nat) (t r : String) :
    (createChatMessage s c a b n t r).1.sockets = s.sockets := rfl

@[simp] theorem reconnectionCheck_sockets (s : State) (k : String) (n : Nat) :
    (reconnectionCheck s k n).1.sockets = s.sockets := by
  unfold reconnectionCheck
  simp only []
  split <;> rfl

@[simp] theorem markDisconnected_sockets (s : State) (c name : String) (n : Nat) :
    (markDisconnected s c name n).sockets = s.sockets := rfl

@[simp] theorem leavePreviousRoom_sockets (s : State) (sid name c : String) (n : Nat) :
    (leavePreviousRoom s sid name c n).1.sockets = s.sockets := by
  unfold leavePreviousRoom
  simp only []
  repeat' split
  all_goals rfl

@[simp] theorem upsertParticipant_sockets (s : State) (sid c name : String) (n : Nat) :
    (upsertParticipant s sid c name n).sockets = s.sockets := by
  unfold upsertParticipant
  simp only []
  split <;> rfl

@[simp] theorem upsertLiveMember_sockets (s : State) (sid c name : String) (n : Nat) :
    (upsertLiveMember s sid c name n).1.sockets = s.sockets := by
  unfold upsertLiveMember
  repeat' split
  all_goals rfl

@[simp] theorem joinNotification_sockets (s : State) (c name : String) (n : Nat) :
    (joinNotification s c name n).1.sockets = s.sockets := by
  simp [joinNotification]

@[simp] theorem clearTimeout_sockets (s : State) (h : Nat) :
    (clearTimeout s h).sockets = s.sockets := rfl

@[simp] theorem setTimeout_sockets (s : State) (n d : Nat) (a : TimerAction) :
    (setTimeout s n d a).sockets = s.sockets := rfl

@[simp] theorem updateStatus_sockets (s : State) (sid : String) (m : Message) (n : Nat) :
    (updateStatus s sid m n).1.sockets = s.sockets := by
  unfold updateStatus
  simp only []
  repeat' split
  all_goals simp

@[simp] theorem disconnect_sockets (s : State) (sid : String) (n : Nat) :
    (disconnect s sid n).1.sockets = s.sockets := by
  unfold disconnect
  simp only []
  repeat' split
  all_goals simp

/-! ## C10: the typing auto-clear timer -/

theorem length_le_one_of_same_id (l : List Timer) (h : Nat)
    (hn : (l.map (fun t => t.id)).Nodup) (hall : ∀ t ∈ l, t.id = h) : l.length ≤ 1 := by
  cases l with
  | nil => simp
  | cons a l1 =>
    cases l1 with
    | nil => simp
    | cons b l2 =>
      exfalso
      have ha := hall a (List.mem_cons_self _ _)
      have hb := hall b (List.mem_cons_of_mem _ (List.mem_cons_self _ _))
      simp only [List.map_cons, List.nodup_cons, List.mem_cons] at hn
      exact hn.1 (Or.inl (ha.trans hb.symm))

theorem typingTimers_le_one (s : State) (sid : String) (h : TimerInv s) :
    (typingTimersOf s sid).length ≤ 1 := by
  cases hk : s.sockets.get? sid with
  | none =>
    have : typingTimersOf s sid = [] := by
      unfold typingTimersOf
      apply List.filter_eq_nil_iff.mpr
      intro t ht ho
      obtain ⟨k, hk2, _⟩ := h.2.2 t ht sid (by simpa using ho)
      rw [hk] at hk2
      cases hk2
    rw [this]; simp
  | some k =>
    cases hh : k.typingTimeout with
    | none =>
      have : typingTimersOf s sid = [] := by
        unfold typingTimersOf
        apply List.filter_eq_nil_iff.mpr
        intro t ht ho
        obtain ⟨k2, hk2, hid⟩ := h.2.2 t ht sid (by simpa using ho)
        rw [hk] at hk2
        cases hk2
        rw [hh] at hid
        cases hid
      rw [this]; simp
    | some hd =>
      apply length_le_one_of_same_id _ hd
      · exact List.Nodup.sublist (List.Sublist.map _ (List.filter_sublist _)) h.2.1
      · intro t ht
        have hm := List.mem_filter.mp ht
        obtain ⟨k2, hk2, hid⟩ := h.2.2 t hm.1 sid (by simpa using hm.2)
        rw [hk] at hk2
        cases hk2
        rw [hh] at hid
        cases hid
        rfl

theorem timerInv_sub {s s1 : State} (h : TimerInv s)
    (ht : List.Sublist s1.timers s.timers) (hn : s1.nextTimer = s.nextTimer)
    (hk : ∀ t ∈ s1.timers, ∀ sid k, t.action.owner = some sid → s.sockets.get? sid = some k →
      k.typingTimeout = some t.id →
      ∃ k1, s1.sockets.get? sid = some k1 ∧ k1.typingTimeout = some t.id) :
    TimerInv s1 := by
  refine ⟨?_, ?_, ?_⟩
  · intro t hm
    rw [hn]
    exact h.1 t (ht.subset hm)
  · exact List.Nodup.sublist (List.Sublist.map _ ht) h.2.1
  · intro t hm sid ho
    obtain ⟨k, hk1, hk2⟩ := h.2.2 t (ht.subset hm) sid ho
    exact hk t hm sid k ho hk1 hk2

theorem timerInv_add {s s1 : State} (tm : Timer) (h : TimerInv s)
    (ht : s1.timers = s.timers ++ [tm]) (hid : tm.id = s.nextTimer)
    (hn : s1.nextTimer = s.nextTimer + 1)
    (hk : ∀ t ∈ s.timers, ∀ sid k, t.action.owner = some sid → s.sockets.get? sid = some k →
      k.typingTimeout = some t.id →
      ∃ k1, s1.sockets.get? sid = some k1 ∧ k1.typingTimeout = some t.id)
    (hnew : ∀ sid, tm.action.owner = some sid →
      ∃ k1, s1.sockets.get? sid = some k1 ∧ k1.typingTimeout = some tm.id) :
    TimerInv s1 := by
  refine ⟨?_, ?_, ?_⟩
  · intro t hm
    rw [ht] at hm
    rw [hn]
    rcases List.mem_append.mp hm with hm | hm
    · exact Nat.lt_succ_of_lt (h.1 t hm)
    · simp only [List.mem_singleton] at hm
      rw [hm, hid]; exact Nat.lt_succ_self _
  · rw [ht, List.map_append]
    refine List.Nodup.append h.2.1 (List.nodup_singleton _) ?_
    intro a ha hb
    simp only [List.map_cons, List.map_nil, List.mem_singleton] at hb
    obtain ⟨t, htm, hte⟩ := List.mem_map.mp ha
    have := h.1 t htm
    rw [hte, hb, hid] at this
    exact Nat.lt_irrefl _ this
  · intro t hm sid ho
    rw [ht] at hm
    rcases List.mem_append.mp hm with hm | hm
    · obtain ⟨k, hk1, hk2⟩ := h.2.2 t hm sid ho
      exact hk t hm sid k ho hk1 hk2
    · simp only [List.mem_singleton] at hm
      rw [hm] at ho ⊢
      exact hnew sid ho

theorem timerInv_frame {s s1 : State} (h : TimerInv s)
    (ht : s1.timers = s.timers) (hn : s1.nextTimer = s.nextTimer)
    (hk : ∀ sid k, s.sockets.get? sid = some k →
      ∃ k1, s1.sockets.get? sid = some k1 ∧ k1.typingTimeout = k.typingTimeout) :
    TimerInv s1 :=
  timerInv_sub h (by rw [ht]) hn (fun t _ sid k _ hk1 hk2 => by
    obtain ⟨k1, h1, h2⟩ := hk sid k hk1
    exact ⟨k1, h1, by rw [h2, hk2]⟩)

theorem handles_refl (m : JsMap SocketState) :
    ∀ sid k, m.get? sid = some k →
      ∃ k1, m.get? sid = some k1 ∧ k1.typingTimeout = k.typingTimeout :=
  fun _ k hk => ⟨k, hk, rfl⟩

theorem handles_update (m : JsMap SocketState) (sid0 : String) (f : SocketState → SocketState)
    (hf : ∀ k, (f k).typingTimeout = k.typingTimeout) :
    ∀ sid k, m.get? sid = some k →
      ∃ k1, (m.update sid0 f).get? sid = some k1 ∧ k1.typingTimeout = k.typingTimeout := by
  intro sid k hk
  rw [JsMap.get?_update, hk]
  split
  · exact ⟨f k, rfl, hf k⟩
  · exact ⟨k, rfl, rfl⟩

theorem updSock_sockets (s : State) (sid : String) (f : SocketState → SocketState) :
    (updSock s sid f).sockets = s.sockets.update sid f := rfl

theorem joinPrepare_sockets (s : State) (sid : String) (m : Message) (n : Nat) :
    (joinPrepare s sid m n).1.sockets = s.sockets.update sid (fun k =>
      { k with currentRoom := some m.roomCode, currentUser := some m.userName,
               displayName := some (getUserDisplayName m) }) := by
  unfold joinPrepare
  simp only [apply_ite State.sockets, createRoom_sockets, updSock_sockets,
    leavePreviousRoom_sockets, reconnectionCheck_sockets, ite_self]

theorem joinRoomCore_sockets (s : State) (sid : String) (m : Message) (n : Nat) :
    (joinRoomCore s sid m n).1.sockets = s.sockets ∨
    (joinRoomCore s sid m n).1.sockets = s.sockets.update sid (fun k =>
      { k with currentRoom := some m.roomCode, currentUser := some m.userName,
               displayName := some (getUserDisplayName m) }) := by
  unfold joinRoomCore
  simp only []
  split
  · exact Or.inl rfl
  · right
    simp only [apply_ite Prod.fst, apply_ite State.sockets, joinNotification_sockets,
      upsertLiveMember_sockets, upsertParticipant_sockets, trackUserConnection_sockets,
      joinPrepare_sockets, ite_self]

theorem timerInv_joinRoomCore (s : State) (sid : String) (m : Message) (n : Nat)
    (h : TimerInv s) : TimerInv (joinRoomCore s sid m n).1 := by
  refine timerInv_frame h (joinRoomCore_timers s sid m n) (joinRoomCore_nextTimer s sid m n) ?_
  rcases joinRoomCore_sockets s sid m n with hs | hs
  · rw [hs]; exact handles_refl _
  · rw [hs]; exact handles_update _ _ _ (fun _ => rfl)

theorem leaveRoom_sockets (s : State) (sid : String) (m : Message) (n : Nat) :
    (leaveRoom s sid m n).1.sockets = s.sockets ∨
    (leaveRoom s sid m n).1.sockets = s.sockets.update sid (fun k =>
      { k with currentRoom := none, currentUser := none }) := by
  unfold leaveRoom
  split
  · exact Or.inl rfl
  · simp only []
    have hl : (match s.rooms.get? m.roomCode with
        | none => (s, ([] : List Emission))
        | some room =>
          if room.users.has (getUserDisplayName m) then
            (cleanupEmptyRoom (removeUserFromRoom s m.roomCode (getUserDisplayName m) true n).1
                m.roomCode,
             [Emission.toRoom m.roomCode (.messageNotice m.roomCode
                (getUserDisplayName m ++ " ha abandonado la sala.") n)] ++
               updateUserList (removeUserFromRoom s m.roomCode (getUserDisplayName m) true n).1
                 m.roomCode n)
          else (s, [])).1.sockets = s.sockets := by
      split
      · rfl
      · split
        · simp only [cleanupEmptyRoom_sockets, removeUserFromRoom_sockets]
        · rfl
    generalize (match s.rooms.get? m.roomCode with
        | none => (s, ([] : List Emission))
        | some room =>
          if room.users.has (getUserDisplayName m) then
            (cleanupEmptyRoom (removeUserFromRoom s m.roomCode (getUserDisplayName m) true n).1
                m.roomCode,
             [Emission.toRoom m.roomCode (.messageNotice m.roomCode
                (getUserDisplayName m ++ " ha abandonado la sala.") n)] ++
               updateUserList (removeUserFromRoom s m.roomCode (getUserDisplayName m) true n).1
                 m.roomCode n)
          else (s, [])) = lv at hl ⊢
    split
    · right
      rw [updSock_sockets, hl]
    · exact Or.inl hl

theorem timerInv_leaveRoom (s : State) (sid : String) (m : Message) (n : Nat)
    (h : TimerInv s) : TimerInv (leaveRoom s sid m n).1 := by
  refine timerInv_frame h (leaveRoom_timers s sid m n) (leaveRoom_nextTimer s sid m n) ?_
  rcases leaveRoom_sockets s sid m n with hs | hs
  · rw [hs]; exact handles_refl _
  · rw [hs]; exact handles_update _ _ _ (fun _ => rfl)

theorem timerInv_updateStatus (s : State) (sid : String) (m : Message) (n : Nat)
    (h : TimerInv s) : TimerInv (updateStatus s sid m n).1 :=
  timerInv_frame h (updateStatus_timers s sid m n) (updateStatus_nextTimer s sid m n)
    (by rw [updateStatus_sockets]; exact handles_refl _)

theorem sockOf_handle {s : State} {sid : String} {hd : Nat}
    (h : (sockOf s sid).typingTimeout = some hd) :
    ∃ k, s.sockets.get? sid = some k ∧ k.typingTimeout = some hd := by
  unfold sockOf at h
  cases hg : s.sockets.get? sid with
  | none => rw [hg] at h; cases h
  | some k => rw [hg] at h; exact ⟨k, rfl, h⟩

/-- The bookkeeping survives `clearTimeout(handle)` on the handle held by a
connection, whatever is then written to that connection's state. -/
theorem timerInv_clear {s s1 : State} {sid : String} {hd : Nat} (f : SocketState → SocketState)
    (h : TimerInv s) (hh : (sockOf s sid).typingTimeout = some hd)
    (ht : s1.timers = s.timers.filter (fun t => decide (t.id ≠ hd)))
    (hn : s1.nextTimer = s.nextTimer) (hs : s1.sockets = s.sockets.update sid f) :
    TimerInv s1 := by
  obtain ⟨k0, hk0, hk0h⟩ := sockOf_handle hh
  refine timerInv_sub h (by rw [ht]; exact List.filter_sublist _) hn ?_
  intro t hm sid1 k ho hk1 hk2
  rw [ht] at hm
  have hne : t.id ≠ hd := by simpa using (List.mem_filter.mp hm).2
  by_cases hsid : sid1 = sid
  · exfalso
    rw [hsid, hk0] at hk1
    cases hk1
    rw [hk0h] at hk2
    cases hk2
    exact hne rfl
  · exact ⟨k, by rw [hs, JsMap.get?_update_ne _ _ hsid]; exact hk1, hk2⟩

theorem sendMessage_view (s : State) (sid : String) (m : Message) (n : Nat) (t r : String) :
    ((sendMessage s sid m n t r).1.timers = s.timers ∧
      (sendMessage s sid m n t r).1.nextTimer = s.nextTimer ∧
      (sendMessage s sid m n t r).1.sockets = s.sockets) ∨
    (∃ hd, (sockOf s sid).typingTimeout = some hd ∧
      (sendMessage s sid m n t r).1.timers = s.timers.filter (fun t => decide (t.id ≠ hd)) ∧
      (sendMessage s sid m n t r).1.nextTimer = s.nextTimer ∧
      (sendMessage s sid m n t r).1.sockets =
        s.sockets.update sid (fun k => { k with typingTimeout := none })) := by
  unfold sendMessage
  simp only []
  split
  · exact Or.inl ⟨rfl, rfl, rfl⟩
  · split
    · cases hh : (sockOf s sid).typingTimeout with
      | none =>
        left
        simp only []
        refine ⟨?_, ?_, ?_⟩
        · rw [createChatMessage_timers]; repeat' split
          all_goals simp
        · rw [createChatMessage_nextTimer]; repeat' split
          all_goals simp
        · rw [createChatMessage_sockets]; repeat' split
          all_goals simp
      | some hd =>
        right
        refine ⟨hd, rfl, ?_⟩
        simp only []
        refine ⟨?_, ?_, ?_⟩
        · rw [createChatMessage_timers]; repeat' split
          all_goals simp [updSock, clearTimeout]
        · rw [createChatMessage_nextTimer]; repeat' split
          all_goals simp [updSock, clearTimeout]
        · rw [createChatMessage_sockets]; repeat' split
          all_goals simp [updSock, clearTimeout]
    · exact Or.inl ⟨rfl, rfl, rfl⟩

theorem timerInv_sendMessage (s : State) (sid : String) (m : Message) (n : Nat) (t r : String)
    (h : TimerInv s) : TimerInv (sendMessage s sid m n t r).1 := by
  rcases sendMessage_view s sid m n t r with ⟨h1, h2, h3⟩ | ⟨hd, hh, h1, h2, h3⟩
  · exact timerInv_frame h h1 h2 (by rw [h3]; exact handles_refl _)
  · exact timerInv_clear _ h hh h1 h2 h3

theorem stopTyping_view (s : State) (sid : String) (m : Message) (n : Nat) :
    ((stopTyping s sid m n).1.timers = s.timers ∧
      (stopTyping s sid m n).1.nextTimer = s.nextTimer ∧
      (stopTyping s sid m n).1.sockets = s.sockets) ∨
    (∃ hd, (sockOf s sid).typingTimeout = some hd ∧
      (stopTyping s sid m n).1.timers = s.timers.filter (fun t => decide (t.id ≠ hd)) ∧
      (stopTyping s sid m n).1.nextTimer = s.nextTimer ∧
      (stopTyping s sid m n).1.sockets =
        s.sockets.update sid (fun k => { k with typingTimeout := none })) := by
  unfold stopTyping
  simp only []
  split
  · exact Or.inl ⟨rfl, rfl, rfl⟩
  · split
    · exact Or.inl ⟨rfl, rfl, rfl⟩
    · split
      · cases hh : (sockOf s sid).typingTimeout with
        | none => exact Or.inl ⟨rfl, rfl, rfl⟩
        | some hd => exact Or.inr ⟨hd, rfl, rfl, rfl, rfl⟩
      · exact Or.inl ⟨rfl, rfl, rfl⟩

theorem timerInv_stopTyping (s : State) (sid : String) (m : Message) (n : Nat)
    (h : TimerInv s) : TimerInv (stopTyping s sid m n).1 := by
  rcases stopTyping_view s sid m n with ⟨h1, h2, h3⟩ | ⟨hd, hh, h1, h2, h3⟩
  · exact timerInv_frame h h1 h2 (by rw [h3]; exact handles_refl _)
  · exact timerInv_clear _ h hh h1 h2 h3

/-- The effect of a `typing` event that passes every guard of the handler. -/
theorem typing_active (s : State) (sid : String) (m : Message) (n : Nat) {room : Room}
    (hcur : truthyStr (sockOf s sid).currentRoom = true)
    (husr : truthyStr (sockOf s sid).currentUser = true)
    (hroom : s.rooms.get? m.roomCode = some room)
    (hmem : room.users.has (getUserDisplayName m) = true) :
    typing s sid m n =
      (updSock
        (setTimeout
          (match (sockOf s sid).typingTimeout with
           | none => { s with rooms := s.rooms.update m.roomCode (fun r =>
               { r with users := r.users.update (getUserDisplayName m) (fun u =>
                   { u with typing := true, lastActivity := n }) }) }
           | some h => clearTimeout { s with rooms := s.rooms.update m.roomCode (fun r =>
               { r with users := r.users.update (getUserDisplayName m) (fun u =>
                   { u with typing := true, lastActivity := n }) }) } h)
          n TYPING_TIMEOUT (.typingClear sid m.roomCode room.oid (getUserDisplayName m)))
        sid (fun k => { k with typingTimeout := some s.nextTimer }),
       [.toRoom m.roomCode (.typingStatus m.roomCode (getUserDisplayName m) true)]) := by
  unfold typing
  simp only [hcur, husr, Bool.not_true, Bool.or_self, Bool.false_eq_true, if_false, hroom, hmem,
    if_true]
  cases (sockOf s sid).typingTimeout <;> rfl

theorem typing_view (s : State) (sid : String) (m : Message) (n : Nat) :
    typing s sid m n = (s, []) ∨
    (∃ room, (typing s sid m n).1.timers =
        (match (sockOf s sid).typingTimeout with
         | none => s.timers
         | some h => s.timers.filter (fun t => decide (t.id ≠ h))) ++
          [{ id := s.nextTimer, fireAt := n + TYPING_TIMEOUT,
             action := .typingClear sid m.roomCode room (getUserDisplayName m) }] ∧
      (typing s sid m n).1.nextTimer = s.nextTimer + 1 ∧
      (typing s sid m n).1.sockets =
        s.sockets.update sid (fun k => { k with typingTimeout := some s.nextTimer })) := by
  by_cases hg : (!truthyStr (sockOf s sid).currentRoom || !truthyStr (sockOf s sid).currentUser)
      = true
  · left
    unfold typing
    simp only [hg, if_true]
  · have hcur : truthyStr (sockOf s sid).currentRoom = true := by
      cases h1 : truthyStr (sockOf s sid).currentRoom <;> simp [h1] at hg ⊢
    have husr : truthyStr (sockOf s sid).currentUser = true := by
      cases h1 : truthyStr (sockOf s sid).currentUser <;> simp [h1] at hg ⊢
    cases hroom : s.rooms.get? m.roomCode with
    | none =>
      left
      unfold typing
      simp only [hg, Bool.false_eq_true, if_false, hroom]
    | some room =>
      cases hmem : room.users.has (getUserDisplayName m) with
      | false =>
        left
        unfold typing
        simp only [hg, Bool.false_eq_true, if_false, hroom, hmem]
      | true =>
        right
        refine ⟨room.oid, ?_⟩
        rw [typing_active s sid m n hcur husr hroom hmem]
        cases (sockOf s sid).typingTimeout <;> exact ⟨rfl, rfl, rfl⟩

theorem timerInv_typing (s : State) (sid : String) (m : Message) (n : Nat)
    (hp : s.sockets.has sid = true) (h : TimerInv s) : TimerInv (typing s sid m n).1 := by
  rcases typing_view s sid m n with he | ⟨oid, h1, h2, h3⟩
  · rw [he]; exact h
  · obtain ⟨k0, hk0⟩ := (JsMap.has_eq_true_iff _ _).mp hp
    have hc : TimerInv { s with timers :=
        (match (sockOf s sid).typingTimeout with
         | none => s.timers
         | some hd => s.timers.filter (fun t => decide (t.id ≠ hd))) } := by
      refine timerInv_sub h ?_ rfl (fun t _ sid1 k _ hk1 hk2 => ⟨k, hk1, hk2⟩)
      show List.Sublist (match (sockOf s sid).typingTimeout with
         | none => s.timers
         | some hd => s.timers.filter (fun t => decide (t.id ≠ hd))) s.timers
      split
      · exact List.Sublist.refl _
      · exact List.filter_sublist _
    refine timerInv_add _ hc h1 rfl h2 ?_ ?_
    · intro t hm sid1 k ho hk1 hk2
      by_cases hsid : sid1 = sid
      · exfalso
        have hk1s : s.sockets.get? sid = some k := by rw [← hsid]; exact hk1
        have hso : (sockOf s sid).typingTimeout = some t.id := by
          unfold sockOf; rw [hk1s]; exact hk2
        have hm2 : t ∈ (match (sockOf s sid).typingTimeout with
           | none => s.timers
           | some hd => s.timers.filter (fun t => decide (t.id ≠ hd))) := hm
        rw [hso] at hm2
        have := (List.mem_filter.mp hm2).2
        simp at this
      · exact ⟨k, by rw [h3, JsMap.get?_update_ne _ _ hsid]; exact hk1, hk2⟩
    · intro sid1 ho
      simp only [TimerAction.owner, Option.some.injEq] at ho
      rw [← ho, h3, JsMap.get?_update_same, hk0]
      exact ⟨_, rfl, rfl⟩

theorem disconnect_view (s : State) (sid : String) (n : Nat) :
    ((disconnect s sid n).1.timers = s.timers ∧
      (disconnect s sid n).1.nextTimer = s.nextTimer) ∨
    (∃ key, (disconnect s sid n).1.timers =
        s.timers ++ [{ id := s.nextTimer, fireAt := n + (RECONNECTION_WINDOW + 1000),
                       action := .expireDisconnection key }] ∧
      (disconnect s sid n).1.nextTimer = s.nextTimer + 1) := by
  unfold disconnect
  simp only []
  split
  · right
    refine ⟨userRoomKey (disconnectName (sockOf s sid)) ((sockOf s sid).currentRoom.getD ""), ?_⟩
    split
    · exact ⟨rfl, rfl⟩
    · split
      · simp only [cleanupEmptyRoom_timers, cleanupEmptyRoom_nextTimer, markDisconnected_timers,
          markDisconnected_nextTimer]
        exact ⟨rfl, rfl⟩
      · exact ⟨rfl, rfl⟩
  · exact Or.inl ⟨rfl, rfl⟩

theorem timerInv_disconnect (s : State) (sid : String) (n : Nat) (h : TimerInv s) :
    TimerInv (disconnect s sid n).1 := by
  rcases disconnect_view s sid n with ⟨h1, h2⟩ | ⟨key, h1, h2⟩
  · exact timerInv_frame h h1 h2 (by rw [disconnect_sockets]; exact handles_refl _)
  · refine timerInv_add _ h h1 rfl h2 ?_ ?_
    · intro t _ sid1 k _ hk1 hk2
      exact ⟨k, by rw [disconnect_sockets]; exact hk1, hk2⟩
    · intro sid1 ho
      simp [TimerAction.owner] at ho

theorem fireTimer_view (s : State) (t : Timer) :
    (fireTimer s t).1.timers = s.timers ∧ (fireTimer s t).1.nextTimer = s.nextTimer ∧
    ((t.action.owner = none ∧ (fireTimer s t).1.sockets = s.sockets) ∨
     (∃ sid, t.action.owner = some sid ∧ (fireTimer s t).1.sockets =
        s.sockets.update sid (fun k => { k with typingTimeout := none }))) := by
  refine ⟨fireTimer_timers s t, fireTimer_nextTimer s t, ?_⟩
  unfold fireTimer
  split
  · rename_i key hk
    left
    exact ⟨by rw [hk]; rfl, rfl⟩
  · rename_i sid c oid name hk
    right
    refine ⟨sid, by rw [hk]; rfl, ?_⟩
    simp only [updSock_sockets]
    repeat' split
    all_goals rfl

theorem timerInv_timeout (s : State) (n hd : Nat) (h : TimerInv s) :
    TimerInv (step s n (.timeout hd)).1 := by
  simp only [step]
  split
  · exact h
  · rename_i t hf
    have htm : t ∈ s.timers := List.mem_of_find?_eq_some hf
    have hid : t.id = hd := by
      have := List.find?_some hf
      simpa using this
    obtain ⟨h1, h2, h3⟩ := fireTimer_view (clearTimeout s hd) t
    refine timerInv_sub h (by rw [h1]; exact List.filter_sublist _) h2 ?_
    intro t1 hm sid1 k ho hk1 hk2
    rw [h1] at hm
    have hne : t1.id ≠ hd := by
      have := (List.mem_filter.mp hm).2
      simpa using this
    rcases h3 with ⟨_, hs⟩ | ⟨sid, hown, hs⟩
    · exact ⟨k, by rw [hs]; exact hk1, hk2⟩
    · by_cases hsid : sid1 = sid
      · exfalso
        obtain ⟨k2, hk3, hk4⟩ := h.2.2 t htm sid hown
        rw [hsid] at hk1
        have hk1c : s.sockets.get? sid = some k := hk1
        rw [hk3] at hk1c
        have hkk : k2 = k := Option.some.inj hk1c
        rw [hkk, hk2] at hk4
        have hids : t1.id = t.id := Option.some.inj hk4
        exact hne (hids.trans hid)
      · exact ⟨k, by rw [hs]; exact (JsMap.get?_update_ne _ _ hsid).trans hk1, hk2⟩

theorem isLive_has {s : State} {sid : String} (h : isLive s sid = true) :
    s.sockets.has sid = true := by
  unfold isLive at h
  cases hg : s.sockets.get? sid with
  | none => rw [hg] at h; cases h
  | some k => exact JsMap.has_of_get? hg

theorem timerInv_step (s : State) (n : Nat) (e : Event) (h : TimerInv s) :
    TimerInv (step s n e).1 := by
  cases e with
  | connection sid =>
    simp only [step]
    split
    · exact h
    · rename_i hh
      refine timerInv_frame h rfl rfl ?_
      intro sid1 k hk
      have hne : sid1 ≠ sid := by
        intro e
        rw [e] at hk
        rw [JsMap.has_of_get? hk] at hh
        exact hh rfl
      exact ⟨k, (JsMap.get?_set_ne _ _ hne).trans hk, rfl⟩
  | joinRoom sid m => simp only [step]; split; exact timerInv_joinRoomCore s sid m n h; exact h
  | sendMessage sid m t r =>
    simp only [step]; split; exact timerInv_sendMessage s sid m n t r h; exact h
  | leaveRoom sid m => simp only [step]; split; exact timerInv_leaveRoom s sid m n h; exact h
  | typing sid m =>
    simp only [step]; split
    · rename_i hl
      exact timerInv_typing s sid m n (isLive_has hl) h
    · exact h
  | stopTyping sid m => simp only [step]; split; exact timerInv_stopTyping s sid m n h; exact h
  | updateStatus sid m => simp only [step]; split; exact timerInv_updateStatus s sid m n h; exact h
  | disconnect sid =>
    simp only [step]; split
    · refine timerInv_frame (timerInv_disconnect s sid n h) rfl rfl ?_
      show ∀ sid1 k, (disconnect s sid n).1.sockets.get? sid1 = some k →
        ∃ k1, ((disconnect s sid n).1.sockets.update sid
          (fun k => { k with live := false })).get? sid1 = some k1 ∧
          k1.typingTimeout = k.typingTimeout
      exact handles_update _ _ _ (fun _ => rfl)
    · exact h
  | timeout hd => exact timerInv_timeout s n hd h

theorem reachable_timerInv {s : State} (h : Reachable s) : TimerInv s := by
  induction h with
  | init =>
    exact ⟨fun t ht => (by cases ht), List.nodup_nil, fun t ht => (by cases ht)⟩
  | step s n e _ ih => exact timerInv_step s n e ih

theorem advance_of_none (k : Nat) (s : State) (t : Nat) (h : nextDue s.timers t = none) :
    advance k s t = (s, []) := by
  cases k with
  | zero => rfl
  | succ k => simp only [advance, h]

theorem advanceTo_nil (s : State) (t : Nat) (h : s.timers = []) : advanceTo s t = (s, []) := by
  unfold advanceTo
  rw [h]; rfl

theorem advanceTo_single_early (s : State) (t : Nat) (tm : Timer) (h : s.timers = [tm])
    (hlt : t < tm.fireAt) : advanceTo s t = (s, []) := by
  unfold advanceTo
  apply advance_of_none
  rw [h]
  have : decide (tm.fireAt ≤ t) = false := by simpa using hlt
  simp [nextDue, List.filter_cons, this, earliest]

theorem advanceTo_single_due (s : State) (t : Nat) (tm : Timer) (h : s.timers = [tm])
    (hle : tm.fireAt ≤ t) :
    advanceTo s t =
      ((step s tm.fireAt (.timeout tm.id)).1,
       (step s tm.fireAt (.timeout tm.id)).2.map (fun e => (tm.fireAt, e))) := by
  unfold advanceTo
  rw [h]
  have hd : decide (tm.fireAt ≤ t) = true := by simpa using hle
  have hn : nextDue s.timers t = some tm := by
    rw [h]
    simp [nextDue, List.filter_cons, hd, earliest]
  simp only [List.length_singleton, advance, hn, List.append_nil]

/-- The state after a `typing` event that passes every guard. -/
theorem typing_post (s : State) (sid : String) (m : Message) (n : Nat) {room : Room}
    {k0 : SocketState} (hk : s.sockets.get? sid = some k0)
    (hcur : truthyStr k0.currentRoom = true) (husr : truthyStr k0.currentUser = true)
    (hroom : s.rooms.get? m.roomCode = some room)
    (hmem : room.users.has (getUserDisplayName m) = true) :
    (typing s sid m n).2 =
      [.toRoom m.roomCode (.typingStatus m.roomCode (getUserDisplayName m) true)] ∧
    (typing s sid m n).1.timers =
      (match k0.typingTimeout with
       | none => s.timers
       | some h => s.timers.filter (fun t => decide (t.id ≠ h))) ++
        [{ id := s.nextTimer, fireAt := n + TYPING_TIMEOUT,
           action := .typingClear sid m.roomCode room.oid (getUserDisplayName m) }] ∧
    (typing s sid m n).1.nextTimer = s.nextTimer + 1 ∧
    (typing s sid m n).1.sockets.get? sid =
      some { k0 with typingTimeout := some s.nextTimer } ∧
    (typing s sid m n).1.rooms.get? m.roomCode =
      some { room with users := room.users.update (getUserDisplayName m) (fun u =>
        { u with typing := true, lastActivity := n }) } := by
  have hso : sockOf s sid = k0 := by unfold sockOf; rw [hk]; rfl
  rw [typing_active s sid m n (by rw [hso]; exact hcur) (by rw [hso]; exact husr) hroom hmem,
    hso]
  cases k0.typingTimeout with
  | none =>
    refine ⟨rfl, rfl, rfl, ?_, ?_⟩
    · simp only [updSock, setTimeout, clearTimeout]
      rw [JsMap.get?_update_same, hk]; rfl
    · simp only [updSock, setTimeout, clearTimeout]
      rw [JsMap.get?_update_same, hroom]; rfl
  | some h =>
    refine ⟨rfl, rfl, rfl, ?_, ?_⟩
    · simp only [updSock, setTimeout, clearTimeout]
      rw [JsMap.get?_update_same, hk]; rfl
    · simp only [updSock, setTimeout, clearTimeout]
      rw [JsMap.get?_update_same, hroom]; rfl

/-- The typing callback finds its room and its member: it broadcasts the
`typingStatus` with `isTyping = false`. -/
theorem fire_typing_emits (s : State) (n : Nat) (tm : Timer) (sid c name : String) (oid : Nat)
    (room : Room) (ht : s.timers = [tm]) (hact : tm.action = .typingClear sid c oid name)
    (hroom : s.rooms.get? c = some room) (hoid : room.oid = oid)
    (hmem : room.users.has name = true) :
    (step s n (.timeout tm.id)).2 = [.toRoom c (.typingStatus c name false)] := by
  simp only [step, ht, List.find?_cons, decide_True]
  unfold fireTimer
  rw [hact]
  have hr : (clearTimeout s tm.id).rooms.get? c = some room := hroom
  simp only [hr, hoid, if_true, hmem]

theorem deliver_typing (s : State) (sid : String) (m : Message) (n : Nat) {room : Room}
    {k0 : SocketState} (hk : s.sockets.get? sid = some k0) (hl : k0.live = true)
    (hcur : truthyStr k0.currentRoom = true) (husr : truthyStr k0.currentUser = true)
    (hroom : s.rooms.get? m.roomCode = some room)
    (hmem : room.users.has (getUserDisplayName m) = true)
    (hadv : advanceTo s n = (s, [])) :
    deliver s n (.typing sid m) =
      ((typing s sid m n).1,
       [(n, .toRoom m.roomCode (.typingStatus m.roomCode (getUserDisplayName m) true))]) := by
  have hlive : isLive s sid = true := by unfold isLive; rw [hk]; exact hl
  have hp := (typing_post s sid m n hk hcur husr hroom hmem).1
  unfold deliver
  simp only [hadv, step, hlive, if_true, hp, List.nil_append, List.map_cons, List.map_nil]

/-- C10: a connection that is a live member of a room sends `typing` at 0 and
at 1000 while nothing else happens (no timer is pending at the start). The
emissions of the execution, continued until any time `T`, contain exactly one
`typingStatus` with `isTyping = false`, stamped 4000, when `T ≥ 4000`, and none
before (in particular none at 3000); after the two events a single timer is
pending, due at 4000. In every reachable state a connection has at most one
pending typing timer. -/
theorem typing_twice_one_clear (s : State) (sid : String) (m : Message) (room : Room) (T : Nat)
    (hquiet : s.timers = []) (hlive : isLive s sid = true)
    (hcur : truthyStr (sockOf s sid).currentRoom = true)
    (husr : truthyStr (sockOf s sid).currentUser = true)
    (hroom : s.rooms.get? m.roomCode = some room)
    (hmem : room.users.has (getUserDisplayName m) = true) :
    (((run s [(0, .typing sid m), (1000, .typing sid m)]).2 ++
        (advanceTo (run s [(0, .typing sid m), (1000, .typing sid m)]).1 T).2).filter
        isTypingStop =
      if 4000 ≤ T then
        [(4000, .toRoom m.roomCode (.typingStatus m.roomCode (getUserDisplayName m) false))]
      else []) ∧
    (run s [(0, .typing sid m), (1000, .typing sid m)]).1.timers.map (fun t => t.fireAt)
      = [4000] ∧
    (∀ s1 sid1, Reachable s1 → (typingTimersOf s1 sid1).length ≤ 1) := by
  refine ⟨?_, ?_, fun s1 sid1 h1 => typingTimers_le_one s1 sid1 (reachable_timerInv h1)⟩
  all_goals
    obtain ⟨k0, hk, hl⟩ : ∃ k0, s.sockets.get? sid = some k0 ∧ k0.live = true := by
      unfold isLive at hlive
      cases hg : s.sockets.get? sid with
      | none => rw [hg] at hlive; cases hlive
      | some k => rw [hg] at hlive; exact ⟨k, rfl, hlive⟩
    have hso : sockOf s sid = k0 := by unfold sockOf; rw [hk]; rfl
    rw [hso] at hcur husr
    obtain ⟨-, pt, pn, pk, pr⟩ := typing_post s sid m 0 hk hcur husr hroom hmem
    have hd1 := deliver_typing s sid m 0 hk hl hcur husr hroom hmem (advanceTo_nil s 0 hquiet)
    have pt1 : (typing s sid m 0).1.timers =
        [{ id := s.nextTimer, fireAt := 0 + TYPING_TIMEOUT,
           action := .typingClear sid m.roomCode room.oid (getUserDisplayName m) }] := by
      rw [pt, hquiet]
      cases k0.typingTimeout <;> rfl
    have hmem1 : ({ room with users := room.users.update (getUserDisplayName m) (fun u =>
        { u with typing := true, lastActivity := 0 }) } : Room).users.has
        (getUserDisplayName m) = true := by
      simp only []
      rw [JsMap.has_update]; exact hmem
    generalize (typing s sid m 0).1 = s1 at pt pn pk pr hd1 pt1
    obtain ⟨-, qt, qn, qk, qr⟩ := typing_post s1 sid m 1000 pk hcur husr pr hmem1
    have hd2 := deliver_typing s1 sid m 1000 pk hl hcur husr pr hmem1
      (advanceTo_single_early s1 1000 _ pt1 (show (1000 : Nat) < 0 + TYPING_TIMEOUT by decide))
    have qt1 : (typing s1 sid m 1000).1.timers =
        [{ id := s1.nextTimer, fireAt := 1000 + TYPING_TIMEOUT,
           action := .typingClear sid m.roomCode room.oid (getUserDisplayName m) }] := by
      rw [qt, pt1]
      simp [List.filter_cons]
    have hmem2 : ({ ({ room with users := room.users.update (getUserDisplayName m) (fun u =>
        { u with typing := true, lastActivity := 0 }) } : Room) with
        users := (room.users.update (getUserDisplayName m) (fun u =>
          { u with typing := true, lastActivity := 0 })).update (getUserDisplayName m) (fun u =>
          { u with typing := true, lastActivity := 1000 }) } : Room).users.has
        (getUserDisplayName m) = true := by
      simp only []
      rw [JsMap.has_update, JsMap.has_update]; exact hmem
    have hrun : run s [(0, .typing sid m), (1000, .typing sid m)] =
        ((typing s1 sid m 1000).1,
         [(0, .toRoom m.roomCode (.typingStatus m.roomCode (getUserDisplayName m) true)),
          (1000, .toRoom m.roomCode (.typingStatus m.roomCode (getUserDisplayName m) true))]) := by
      simp only [run, hd1, hd2, List.append_nil, List.singleton_append]
    rw [hrun]
    generalize (typing s1 sid m 1000).1 = s2 at qt qn qk qr hd2 qt1 hrun
  · by_cases hT : 4000 ≤ T
    · rw [if_pos hT]
      have hdue := advanceTo_single_due s2 T _ qt1 (by simpa [TYPING_TIMEOUT] using hT)
      have hfire := fire_typing_emits s2 (1000 + TYPING_TIMEOUT) _ sid m.roomCode
        (getUserDisplayName m) room.oid _ qt1 rfl qr rfl hmem2
      rw [hdue, hfire]
      simp [isTypingStop, TYPING_TIMEOUT]
    · rw [if_neg hT]
      have hearly := advanceTo_single_early s2 T _ qt1 (by
        simp only [TYPING_TIMEOUT]; omega)
      rw [hearly]
      simp [isTypingStop]
  · rw [qt1]
    simp [TYPING_TIMEOUT]

/-- Witness of C10: alice, who created room `ABC` at time 0, types at 0 and at
1000; read at time 10000 the only `typingStatus` with `isTyping = false` is
stamped 4000, and read at time 3000 there is none. -/
theorem typing_twice_one_clear_witness :
    ((run (run State.init traceAliceAtZero).1
          [(0, .typing "s1" msgAlice), (1000, .typing "s1" msgAlice)]).2 ++
        (advanceTo (run (run State.init traceAliceAtZero).1
          [(0, .typing "s1" msgAlice), (1000, .typing "s1" msgAlice)]).1 10000).2).filter
        isTypingStop =
      [(4000, .toRoom "ABC" (.typingStatus "ABC" "alice" false))] ∧
    ((run (run State.init traceAliceAtZero).1
          [(0, .typing "s1" msgAlice), (1000, .typing "s1" msgAlice)]).2 ++
        (advanceTo (run (run State.init traceAliceAtZero).1
          [(0, .typing "s1" msgAlice), (1000, .typing "s1" msgAlice)]).1 3000).2).filter
        isTypingStop = [] :=
  ⟨(typing_twice_one_clear (run State.init traceAliceAtZero).1 "s1" msgAlice
      { oid := 0
        users := [("alice", { socketId := "s1", status := "activo", typing := false,
                              connected := true, lastActivity := 0 })]
        userCount := 1 }
      10000 (by decide) (by decide) (by decide) (by decide) (by decide) (by decide)).1,
   (typing_twice_one_clear (run State.init traceAliceAtZero).1 "s1" msgAlice
      { oid := 0
        users := [("alice", { socketId := "s1", status := "activo", typing := false,
                              connected := true, lastActivity := 0 })]
        userCount := 1 }
      3000 (by decide) (by decide) (by decide) (by decide) (by decide) (by decide)).1⟩

/-! ## The timed executor runs every due timer -/

theorem earliest_mem (l : List Timer) (tm : Timer) (h : earliest l = some tm) : tm ∈ l := by
  induction l generalizing tm with
  | nil => simp [earliest] at h
  | cons x rest ih =>
    simp only [earliest] at h
    cases hr : earliest rest with
    | none =>
      rw [hr] at h
      simp only [Option.some.injEq] at h
      rw [← h]; exact List.mem_cons_self _ _
    | some y =>
      rw [hr] at h
      simp only [] at h
      split at h
      · simp only [Option.some.injEq] at h
        rw [← h]; exact List.mem_cons_self _ _
      · simp only [Option.some.injEq] at h
        rw [← h]; exact List.mem_cons_of_mem _ (ih y hr)

theorem nextDue_mem (l : List Timer) (t : Nat) (tm : Timer) (h : nextDue l t = some tm) :
    tm ∈ l :=
  (List.mem_filter.mp (earliest_mem _ tm h)).1

theorem timers_timeout_of_mem (s : State) (n : Nat) (tm : Timer) (hm : tm ∈ s.timers) :
    (step s n (.timeout tm.id)).1.timers.length < s.timers.length := by
  simp only [step]
  cases hf : s.timers.find? (fun t => decide (t.id = tm.id)) with
  | none =>
    exfalso
    have := List.find?_eq_none.mp hf tm hm
    simp at this
  | some t1 =>
    simp only [fireTimer_timers]
    show (s.timers.filter (fun t => decide (t.id ≠ tm.id))).length < s.timers.length
    apply List.length_filter_lt_length_iff_exists.mpr
    exact ⟨tm, hm, by simp⟩

theorem advance_complete (k : Nat) (s : State) (t : Nat) (hk : s.timers.length ≤ k) :
    nextDue (advance k s t).1.timers t = none := by
  induction k generalizing s with
  | zero =>
    have : s.timers = [] := List.length_eq_zero.mp (Nat.le_zero.mp hk)
    simp [advance, this, nextDue, earliest]
  | succ k ih =>
    unfold advance
    cases hn : nextDue s.timers t with
    | none => exact hn
    | some tm =>
      simp only []
      apply ih
      have := timers_timeout_of_mem s tm.fireAt tm (nextDue_mem _ _ _ hn)
      omega

/-- After `advanceTo s t` no pending timer is due at `t`: the bound on the
number of rounds never cuts an execution short. -/
theorem advanceTo_complete (s : State) (t : Nat) :
    nextDue (advanceTo s t).1.timers t = none :=
  advance_complete _ s t (Nat.le_refl _)

/-! ## C11: the voluntary removal of a live member -/

/-- C11: `removeUserFromRoom(code, displayName, true)` on a room in which
`displayName` is a live member returns true, removes that entry of `users`,
lowers `userCount` by exactly 1, deletes the ghost entry and the JoinRecord of
the pair, and leaves every other live member and ghost of the room as it was;
when the room does not exist or the name is not a live member it returns false
and the state is unchanged. -/
theorem removeUserFromRoom_voluntary_spec (s : State) (roomCode displayName : String)
    (now : Nat) :
    (∀ room, s.rooms.get? roomCode = some room → room.users.has displayName = true →
      (removeUserFromRoom s roomCode displayName true now).2 = true ∧
      (removeUserFromRoom s roomCode displayName true now).1.rooms.get? roomCode =
        some { room with users := room.users.delete displayName,
                         userCount := room.userCount - 1 } ∧
      (room.users.delete displayName).has displayName = false ∧
      (∀ n, n ≠ displayName →
        (room.users.delete displayName).get? n = room.users.get? n) ∧
      (removeUserFromRoom s roomCode displayName true now).1.roomParticipants.get? roomCode =
        (s.roomParticipants.get? roomCode).map (fun ghosts => ghosts.delete displayName) ∧
      (∀ ghosts : JsMap Participant, (ghosts.delete displayName).has displayName = false ∧
        ∀ n, n ≠ displayName → (ghosts.delete displayName).get? n = ghosts.get? n) ∧
      (removeUserFromRoom s roomCode displayName true now).1.userJoinTimestamps.get?
        (userRoomKey displayName roomCode) = none) ∧
    ((s.rooms.get? roomCode = none ∨
        ∃ room, s.rooms.get? roomCode = some room ∧ room.users.has displayName = false) →
      removeUserFromRoom s roomCode displayName true now = (s, false)) := by
  constructor
  · intro room hr hn
    have hv := removeUserFromRoom_voluntary s roomCode displayName now hr hn
    refine ⟨?_, ?_, JsMap.has_delete_same _ _, fun n hne => JsMap.get?_delete_ne _ hne, ?_,
      fun ghosts => ⟨JsMap.has_delete_same _ _, fun n hne => JsMap.get?_delete_ne _ hne⟩, ?_⟩
    · unfold removeUserFromRoom
      simp only [hr, hn, Bool.not_true, Bool.false_eq_true, if_false, if_true]
    · rw [hv.1, JsMap.get?_update_same, hr]; rfl
    · unfold removeUserFromRoom
      simp only [hr, hn, Bool.not_true, Bool.false_eq_true, if_false, if_true]
      unfold addNotificationToHistory
      split
      · exact JsMap.get?_update_same _ _ _
      · exact JsMap.get?_update_same _ _ _
    · rw [hv.2.1]; exact JsMap.get?_delete_same _ _
  · rintro (h | ⟨room, hr, hn⟩)
    · unfold removeUserFromRoom
      simp only [h]
    · unfold removeUserFromRoom
      simp only [hr, hn, Bool.not_false, if_true]

/-- Witness of C11: bob is removed from room `ABC`, alice stays. -/
theorem removeUserFromRoom_voluntary_spec_witness :
    stateAliceBob.rooms.get? "ABC" = some roomAfterDisconnect ∧
    roomAfterDisconnect.users.has "bob" = true ∧
    (removeUserFromRoom stateAliceBob "ABC" "bob" true 3000).2 = true ∧
    ((removeUserFromRoom stateAliceBob "ABC" "bob" true 3000).1.rooms.get? "ABC").map
      (fun r => (r.users.keys, r.userCount)) = some (["alice"], 1) ∧
    removeUserFromRoom stateAliceBob "ABC" "carol" true 3000 = (stateAliceBob, false) :=
  ⟨by decide, by decide,
   ((removeUserFromRoom_voluntary_spec stateAliceBob "ABC" "bob" 3000).1 roomAfterDisconnect
      (by decide) (by decide)).1,
   by decide,
   (removeUserFromRoom_voluntary_spec stateAliceBob "ABC" "carol" 3000).2
      (Or.inr ⟨roomAfterDisconnect, by decide, by decide⟩)⟩

/-! ## C12: `createRoom` on an existing code (counterexample) -/

/-- Counterexample to C12: room `ABC` exists with the live member alice, a log
of two entries and alice's ghost; `createRoom` on that code returns a new empty
room object, as for a new code and not a failure, and replaces the room, the
log and the ghost directory by empty ones. -/
theorem createRoom_replaces_existing_room :
    (run State.init traceAliceDropped).1.rooms.has "ABC" = true ∧
    ((run State.init traceAliceDropped).1.rooms.get? "ABC").map (fun r => r.users.keys)
      = some ["alice"] ∧
    (historyOf (run State.init traceAliceDropped).1 "ABC").length = 2 ∧
    ((run State.init traceAliceDropped).1.roomParticipants.get? "ABC").map (fun g => g.keys)
      = some ["alice"] ∧
    (createRoom (run State.init traceAliceDropped).1 "ABC").2 =
      { oid := 1, users := [], userCount := 0 } ∧
    (createRoom (run State.init traceAliceDropped).1 "ABC").1.rooms.get? "ABC" =
      some { oid := 1, users := [], userCount := 0 } ∧
    historyOf (createRoom (run State.init traceAliceDropped).1 "ABC").1 "ABC" = [] ∧
    ((createRoom (run State.init traceAliceDropped).1 "ABC").1.roomParticipants.get? "ABC").map
      (fun g => g.keys) = some [] := by
  refine ⟨by decide, by decide, by decide, by decide, by decide, by decide, by decide,
    by decide⟩

/-! ## C13 and C14: the key of a JoinRecord and of a disconnect record -/

theorem list_sep_inj (sep : Char) (d1 d2 r1 r2 : List Char) (h1 : sep ∉ d1) (h2 : sep ∉ d2)
    (h : d1 ++ sep :: r1 = d2 ++ sep :: r2) : d1 = d2 ∧ r1 = r2 := by
  induction d1 generalizing d2 with
  | nil =>
    cases d2 with
    | nil => simpa using h
    | cons b d2 =>
      simp only [List.nil_append, List.cons_append, List.cons.injEq] at h
      exact absurd (h.1 ▸ List.mem_cons_self _ _) h2
  | cons a d1 ih =>
    cases d2 with
    | nil =>
      simp only [List.nil_append, List.cons_append, List.cons.injEq] at h
      exact absurd (h.1 ▸ List.mem_cons_self _ _) h1
    | cons b d2 =>
      simp only [List.cons_append, List.cons.injEq] at h
      have := ih d2 (fun hm => h1 (List.mem_cons_of_mem _ hm))
        (fun hm => h2 (List.mem_cons_of_mem _ hm)) h.2
      exact ⟨by rw [h.1, this.1], this.2⟩

/-- The key identifies the pair when neither display name holds the
separator (as is the case for names derived from `userName`). -/
theorem userRoomKey_inj_of_no_separator (d1 d2 r1 r2 : String)
    (h1 : '_' ∉ d1.data) (h2 : '_' ∉ d2.data)
    (h : userRoomKey d1 r1 = userRoomKey d2 r2) : d1 = d2 ∧ r1 = r2 := by
  have hd : (userRoomKey d1 r1).data = (userRoomKey d2 r2).data := by rw [h]
  simp only [userRoomKey, String.data_append] at hd
  simp only [List.append_assoc, List.singleton_append] at hd
  have := list_sep_inj '_' d1.data d2.data r1.data r2.data h1 h2 hd
  exact ⟨String.ext this.1, String.ext this.2⟩

/-- C13 fails on the code: `a_b` is a live member of room `c` with the
JoinRecord 1000; the event is the voluntary leave of another display name
(`a`) from another room (`b_c`), and after it the JoinRecord of `(a_b, c)` is
gone, because both pairs are stored under the key `a_b_c`. -/
theorem joinRecord_lost_by_foreign_leave :
    (run State.init traceCollision).1.userJoinTimestamps.get? (userRoomKey "a_b" "c")
      = some 1000 ∧
    ((run State.init traceCollision).1.rooms.get? "c").map (fun r => r.users.has "a_b")
      = some true ∧
    getUserDisplayName msgShort = "a" ∧ msgShort.roomCode = "b_c" ∧
    (step (run State.init traceCollision).1 3000
      (.leaveRoom "s2" msgShort)).1.userJoinTimestamps.get? (userRoomKey "a_b" "c") = none ∧
    ((step (run State.init traceCollision).1 3000 (.leaveRoom "s2" msgShort)).1.rooms.get? "c").map
      (fun r => r.users.has "a_b") = some true := by
  refine ⟨by decide, by decide, by decide, by decide, by decide, by decide⟩

/-- C14 fails on the code: the pairs `(a_b, c)` and `(a, b_c)` are different
and get the same key. So `a`, joining room `b_c` for the first time, is taken
to have a JoinRecord (that of `a_b` in `c`); and when `a_b` has dropped from
`c`, the join of `a` to `b_c` is taken for a reconnection and consumes the
disconnect record of the other pair. -/
theorem userRoomKey_collision :
    userRoomKey "a_b" "c" = userRoomKey "a" "b_c" ∧ ("a_b", "c") ≠ ("a", "b_c") ∧
    (run State.init traceUnderscoreJoined).1.userJoinTimestamps = [("a_b_c", 1000)] ∧
    (joinRoomCore (run State.init traceUnderscoreJoined).1 "s2" msgShort
      2000).2.2.isFirstTimeJoining = false ∧
    (step (run State.init traceUnderscoreJoined).1 1600
      (.disconnect "s1")).1.recentDisconnections = [("a_b_c", 1600)] ∧
    (joinRoomCore (step (run State.init traceUnderscoreJoined).1 1600 (.disconnect "s1")).1
      "s2" msgShort 2000).2.2.isReconnection = true ∧
    (joinRoomCore (step (run State.init traceUnderscoreJoined).1 1600 (.disconnect "s1")).1
      "s2" msgShort 2000).1.recentDisconnections = [] := by
  refine ⟨by decide, by decide, by decide, by decide, by decide, by decide, by decide⟩

/-! ## C15: the history log only grows -/

theorem logGrows_refl (m : JsMap (List HistoryEntry)) (c : String) : LogGrows m m c :=
  ⟨⟨[], by simp⟩, fun h => h⟩

theorem logGrows_of_eq {m m1 : JsMap (List HistoryEntry)} (c : String) (h : m1 = m) :
    LogGrows m m1 c := by
  rw [h]; exact logGrows_refl m c

theorem logGrows_trans {m m1 m2 : JsMap (List HistoryEntry)} {c : String}
    (h1 : LogGrows m m1 c) (h2 : LogGrows m1 m2 c) : LogGrows m m2 c := by
  obtain ⟨⟨a1, e1⟩, p1⟩ := h1
  obtain ⟨⟨a2, e2⟩, p2⟩ := h2
  exact ⟨⟨a1 ++ a2, by rw [e2, e1, List.append_assoc]⟩, fun h => p2 (p1 h)⟩

theorem logGrows_append (m : JsMap (List HistoryEntry)) (k c : String) (e : HistoryEntry) :
    LogGrows m (m.update k (fun l => l ++ [e])) c := by
  constructor
  · rw [JsMap.get?_update]
    split
    · cases m.get? c with
      | none => exact ⟨[], by simp⟩
      | some l => exact ⟨[e], by simp⟩
    · exact ⟨[], by simp⟩
  · intro h
    rw [JsMap.has_update]; exact h

theorem logGrows_set_absent (m : JsMap (List HistoryEntry)) (k c : String)
    (h : m.has k = false) : LogGrows m (m.set k []) c := by
  constructor
  · rw [JsMap.get?_set]
    split
    · rename_i hck
      rw [hck, (JsMap.has_eq_false_iff _ _).mp h]
      exact ⟨[], by simp⟩
    · exact ⟨[], by simp⟩
  · intro hc
    rw [JsMap.has_set, hc]; rfl

theorem logGrows_set_ne (m : JsMap (List HistoryEntry)) {k c : String}
    (v : List HistoryEntry) (h : c ≠ k) : LogGrows m (m.set k v) c := by
  constructor
  · rw [JsMap.get?_set_ne _ _ h]
    exact ⟨[], by simp⟩
  · intro hc
    rw [JsMap.has_set, hc]; rfl

theorem logGrows_delete_ne (m : JsMap (List HistoryEntry)) {k c : String} (h : c ≠ k) :
    LogGrows m (m.delete k) c := by
  constructor
  · rw [JsMap.get?_delete_ne _ h]
    exact ⟨[], by simp⟩
  · intro hc
    unfold JsMap.has at hc ⊢
    rw [JsMap.get?_delete_ne _ h]; exact hc

theorem logGrows_addNotificationToHistory (s : State) (k t : String) (n : Nat) (c : String) :
    LogGrows s.roomMessages (addNotificationToHistory s k t n).1.roomMessages c := by
  unfold addNotificationToHistory
  split
  · exact logGrows_refl _ _
  · exact logGrows_append _ _ _ _

theorem logGrows_createChatMessage (s : State) (k a b : String) (n : Nat) (t r : String)
    (c : String) :
    LogGrows s.roomMessages (createChatMessage s k a b n t r).1.roomMessages c :=
  logGrows_append _ _ _ _

theorem logGrows_joinPrepare (s : State) (sid : String) (m : Message) (n : Nat) {c : String}
    (hc : s.rooms.has c = true) :
    LogGrows s.roomMessages (joinPrepare s sid m n).1.roomMessages c := by
  unfold joinPrepare
  simp only []
  have h3r : (updSock (leavePreviousRoom
      (reconnectionCheck s (userRoomKey (getUserDisplayName m) m.roomCode) n).1 sid
      (getUserDisplayName m) m.roomCode n).1 sid (fun k =>
      { k with currentRoom := some m.roomCode, currentUser := some m.userName,
               displayName := some (getUserDisplayName m) })).rooms.has c = true := by
    show (leavePreviousRoom _ sid _ _ n).1.rooms.has c = _
    rw [rooms_has_leavePreviousRoom, rooms_reconnectionCheck]; exact hc
  have h3l : (updSock (leavePreviousRoom
      (reconnectionCheck s (userRoomKey (getUserDisplayName m) m.roomCode) n).1 sid
      (getUserDisplayName m) m.roomCode n).1 sid (fun k =>
      { k with currentRoom := some m.roomCode, currentUser := some m.userName,
               displayName := some (getUserDisplayName m) })).roomMessages = s.roomMessages := by
    simp
  generalize (updSock (leavePreviousRoom
    (reconnectionCheck s (userRoomKey (getUserDisplayName m) m.roomCode) n).1 sid
    (getUserDisplayName m) m.roomCode n).1 sid (fun k =>
    { k with currentRoom := some m.roomCode, currentUser := some m.userName,
             displayName := some (getUserDisplayName m) })) = s3 at h3r h3l ⊢
  rw [← h3l]
  have h4 : LogGrows s3.roomMessages
      (if !s3.rooms.has m.roomCode then (createRoom s3 m.roomCode).1 else s3).roomMessages c := by
    split
    · rename_i hh
      have hne : c ≠ m.roomCode := by
        intro e
        rw [e] at h3r
        rw [h3r] at hh
        simp at hh
      exact logGrows_set_ne _ _ hne
    · exact logGrows_refl _ _
  generalize (if !s3.rooms.has m.roomCode then (createRoom s3 m.roomCode).1 else s3) = s4 at h4 ⊢
  have h5 : LogGrows s4.roomMessages (if !s4.roomMessages.has m.roomCode then
      { s4 with roomMessages := s4.roomMessages.set m.roomCode [] } else s4).roomMessages c := by
    split
    · rename_i hh
      exact logGrows_set_absent _ _ _ (by simpa using hh)
    · exact logGrows_refl _ _
  have h45 := logGrows_trans h4 h5
  generalize (if !s4.roomMessages.has m.roomCode then
    { s4 with roomMessages := s4.roomMessages.set m.roomCode [] } else s4) = s5 at h45 ⊢
  split <;> exact h45

theorem logGrows_joinRoomCore (s : State) (sid : String) (m : Message) (n : Nat) {c : String}
    (hc : s.rooms.has c = true) :
    LogGrows s.roomMessages (joinRoomCore s sid m n).1.roomMessages c := by
  unfold joinRoomCore
  simp only []
  split
  · exact logGrows_refl _ _
  · have h6 := logGrows_joinPrepare s sid m n hc
    generalize joinPrepare s sid m n = pr at h6 ⊢
    have hl : (upsertLiveMember (upsertParticipant (trackUserConnection pr.1 m.roomCode
        (getUserDisplayName m) n).1 sid m.roomCode (getUserDisplayName m) n) sid m.roomCode
        (getUserDisplayName m) n).1.roomMessages = pr.1.roomMessages := by
      rw [upsertLiveMember_log, upsertParticipant_log, trackUserConnection_log]
    generalize (upsertLiveMember (upsertParticipant (trackUserConnection pr.1 m.roomCode
        (getUserDisplayName m) n).1 sid m.roomCode (getUserDisplayName m) n) sid m.roomCode
        (getUserDisplayName m) n) = lm at hl ⊢
    generalize (trackUserConnection pr.1 m.roomCode (getUserDisplayName m) n).2 = tr
    split
    · refine logGrows_trans h6 ?_
      rw [← hl]
      unfold joinNotification
      exact logGrows_addNotificationToHistory _ _ _ _ _
    · rw [← hl] at h6
      exact h6

theorem sendMessage_logGrows (s : State) (sid : String) (m : Message) (n : Nat) (t r : String)
    (c : String) : LogGrows s.roomMessages (sendMessage s sid m n t r).1.roomMessages c := by
  unfold sendMessage
  simp only []
  split
  · exact logGrows_refl _ _
  · split
    · refine logGrows_trans ?_ (logGrows_createChatMessage _ _ _ _ _ _ _ _)
      apply logGrows_of_eq
      repeat' split
      all_goals simp [updSock, clearTimeout]
    · exact logGrows_refl _ _

theorem cleanupEmptyRoom_cases_log (s : State) (k : String) :
    cleanupEmptyRoom s k = s ∨
    ((cleanupEmptyRoom s k).rooms = s.rooms.delete k ∧
     (cleanupEmptyRoom s k).roomMessages = s.roomMessages.delete k ∧
     (s.roomMessages.get? k).getD [] = []) := by
  unfold cleanupEmptyRoom
  split
  · exact Or.inl rfl
  · split
    · exact Or.inl rfl
    · simp only []
      split
      · rename_i hm
        refine Or.inr ⟨rfl, rfl, ?_⟩
        cases hg : s.roomMessages.get? k with
        | none => rfl
        | some l =>
          rw [hg] at hm
          cases l with
          | nil => rfl
          | cons a l => simp at hm
      · exact Or.inl rfl

/-- The outcome of a cleanup for the log of `c`: it is still there, or the
room and its log are both gone and the log was empty. -/
theorem cleanup_log_cases (s0 s : State) (k c : String)
    (hg : LogGrows s0.roomMessages s.roomMessages c) :
    LogGrows s0.roomMessages (cleanupEmptyRoom s k).roomMessages c ∨
    ((cleanupEmptyRoom s k).rooms.has c = false ∧
     (cleanupEmptyRoom s k).roomMessages.has c = false ∧ historyOf s0 c = []) := by
  rcases cleanupEmptyRoom_cases_log s k with h | ⟨h1, h2, h3⟩
  · rw [h]; exact Or.inl hg
  · by_cases hck : c = k
    · right
      subst hck
      refine ⟨by rw [h1]; exact JsMap.has_delete_same _ _,
        by rw [h2]; exact JsMap.has_delete_same _ _, ?_⟩
      obtain ⟨⟨added, ha⟩, _⟩ := hg
      rw [h3] at ha
      unfold historyOf
      exact (List.append_eq_nil.mp ha.symm).1
    · left
      rw [h2]
      exact logGrows_trans hg (logGrows_delete_ne _ hck)

theorem logGrows_removeUserFromRoom (s : State) (k name : String) (v : Bool) (n : Nat)
    (c : String) :
    LogGrows s.roomMessages (removeUserFromRoom s k name v n).1.roomMessages c := by
  unfold removeUserFromRoom
  split
  · exact logGrows_refl _ _
  · split
    · exact logGrows_refl _ _
    · split
      · exact logGrows_addNotificationToHistory _ _ _ _ _
      · exact logGrows_refl _ _

theorem leaveRoom_log_cases (s : State) (sid : String) (m : Message) (n : Nat) (c : String) :
    LogGrows s.roomMessages (leaveRoom s sid m n).1.roomMessages c ∨
    ((leaveRoom s sid m n).1.rooms.has c = false ∧
     (leaveRoom s sid m n).1.roomMessages.has c = false ∧ historyOf s c = []) := by
  have key : ∀ (lv : State × List Emission) (code : String),
      (LogGrows s.roomMessages lv.1.roomMessages c ∨
        (lv.1.rooms.has c = false ∧ lv.1.roomMessages.has c = false ∧ historyOf s c = [])) →
      (LogGrows s.roomMessages
          (if (sockOf lv.1 sid).currentRoom = some code then
            updSock lv.1 sid (fun k => { k with currentRoom := none, currentUser := none })
           else lv.1).roomMessages c ∨
        ((if (sockOf lv.1 sid).currentRoom = some code then
            updSock lv.1 sid (fun k => { k with currentRoom := none, currentUser := none })
           else lv.1).rooms.has c = false ∧
         (if (sockOf lv.1 sid).currentRoom = some code then
            updSock lv.1 sid (fun k => { k with currentRoom := none, currentUser := none })
           else lv.1).roomMessages.has c = false ∧ historyOf s c = [])) := by
    intro lv code h
    split <;> exact h
  unfold leaveRoom
  split
  · exact Or.inl (logGrows_refl _ _)
  · simp only []
    apply key
    split
    · exact Or.inl (logGrows_refl _ _)
    · split
      · exact cleanup_log_cases s _ m.roomCode c (logGrows_removeUserFromRoom _ _ _ _ _ _)
      · exact Or.inl (logGrows_refl _ _)

theorem disconnect_log_cases (s : State) (sid : String) (n : Nat) (c : String) :
    LogGrows s.roomMessages (disconnect s sid n).1.roomMessages c ∨
    ((disconnect s sid n).1.rooms.has c = false ∧
     (disconnect s sid n).1.roomMessages.has c = false ∧ historyOf s c = []) := by
  unfold disconnect
  simp only []
  split
  · split
    · exact Or.inl (logGrows_refl _ _)
    · split
      · exact cleanup_log_cases s _ _ c (logGrows_refl _ _)
      · exact Or.inl (logGrows_refl _ _)
  · exact Or.inl (logGrows_refl _ _)

theorem step_log_cases (s : State) (n : Nat) (e : Event) {c : String}
    (hc : s.rooms.has c = true) :
    LogGrows s.roomMessages (step s n e).1.roomMessages c ∨
    ((step s n e).1.rooms.has c = false ∧
     (step s n e).1.roomMessages.has c = false ∧ historyOf s c = []) := by
  cases e with
  | connection sid => simp only [step]; split <;> exact Or.inl (logGrows_refl _ _)
  | joinRoom sid m =>
    simp only [step]; split
    · exact Or.inl (logGrows_joinRoomCore s sid m n hc)
    · exact Or.inl (logGrows_refl _ _)
  | sendMessage sid m t r =>
    simp only [step]; split
    · exact Or.inl (sendMessage_logGrows s sid m n t r c)
    · exact Or.inl (logGrows_refl _ _)
  | leaveRoom sid m =>
    simp only [step]; split
    · exact leaveRoom_log_cases s sid m n c
    · exact Or.inl (logGrows_refl _ _)
  | typing sid m =>
    simp only [step]; split
    · exact Or.inl (logGrows_of_eq _ (typing_log s sid m n))
    · exact Or.inl (logGrows_refl _ _)
  | stopTyping sid m =>
    simp only [step]; split
    · exact Or.inl (logGrows_of_eq _ (stopTyping_log s sid m n))
    · exact Or.inl (logGrows_refl _ _)
  | updateStatus sid m =>
    simp only [step]; split
    · exact Or.inl (logGrows_of_eq _ (updateStatus_log s sid m n))
    · exact Or.inl (logGrows_refl _ _)
  | disconnect sid =>
    simp only [step]; split
    · exact disconnect_log_cases s sid n c
    · exact Or.inl (logGrows_refl _ _)
  | timeout hd =>
    simp only [step]
    split
    · exact Or.inl (logGrows_refl _ _)
    · exact Or.inl (logGrows_of_eq _ (by rw [fireTimer_log]; rfl))

/-- C15: for every event and every room that exists before and after it, the
log of the room after the event is the log before it followed by new entries
(nothing is removed, reordered or modified); and a log that was stored before
the event and is not stored after it was empty and went together with its
room, which is what `cleanupEmptyRoom` does. -/
theorem history_append_only (s : State) (now : Nat) (e : Event) (roomCode : String)
    (hroom : s.rooms.has roomCode = true) :
    ((step s now e).1.rooms.has roomCode = true →
      ∃ added, historyOf (step s now e).1 roomCode = historyOf s roomCode ++ added) ∧
    (s.roomMessages.has roomCode = true →
      (step s now e).1.roomMessages.has roomCode = false →
      historyOf s roomCode = [] ∧ (step s now e).1.rooms.has roomCode = false) := by
  rcases step_log_cases s now e hroom with h | ⟨h1, h2, h3⟩
  · refine ⟨fun _ => h.1, fun hb ha => ?_⟩
    rw [h.2 hb] at ha
    cases ha
  · refine ⟨fun ha => ?_, fun _ _ => ⟨h3, h1⟩⟩
    rw [h1] at ha
    cases ha

/-- Witness of C15: alice's chat message is appended to the log of room `ABC`. -/
theorem history_append_only_witness :
    (run State.init traceBeforeBobJoins).1.rooms.has "ABC" = true ∧
    (step (run State.init traceBeforeBobJoins).1 1500
      (.sendMessage "s1" { msgAlice with message := "hi" } "10:00" "abc123")).1.rooms.has "ABC"
      = true ∧
    historyOf (step (run State.init traceBeforeBobJoins).1 1500
      (.sendMessage "s1" { msgAlice with message := "hi" } "10:00" "abc123")).1 "ABC" =
      [.notification 1000 "alice ha ingresado a la sala.",
       .chat "msg_1500_abc123" "alice" 1500 "hi" "alice [10:00]: hi" "delivered"] ∧
    ∃ added, historyOf (step (run State.init traceBeforeBobJoins).1 1500
      (.sendMessage "s1" { msgAlice with message := "hi" } "10:00" "abc123")).1 "ABC" =
      historyOf (run State.init traceBeforeBobJoins).1 "ABC" ++ added :=
  ⟨by decide, by decide, by decide,
   (history_append_only (run State.init traceBeforeBobJoins).1 1500
      (.sendMessage "s1" { msgAlice with message := "hi" } "10:00" "abc123") "ABC"
      (by decide)).1 (by decide)⟩

/-! ## C16: the presence list -/

theorem presenceList_names (s : State) (room : Room) (c : String) (n : Nat) :
    (presenceList s room c n).map (fun e => e.name) =
      room.users.keys ++
        JsMap.keys (((s.roomParticipants.get? c).getD []).filter
          (fun p => !room.users.has p.1)) := by
  unfold presenceList JsMap.keys
  simp only [List.map_append, List.map_map]
  rfl

theorem not_mem_keys_of_has_false {α : Type} (m : JsMap α) (k : String)
    (h : m.has k = false) : k ∉ m.keys := by
  intro hm
  rw [(JsMap.has_iff_mem_keys m k).mpr hm] at h
  cases h

/-- C16: for an existing room whose two maps hold no name twice,
`updateUserList` broadcasts one `userList` to the room with `count` the room's
`userCount` and `activeCount` the number of live members with
`connected = true`; its `users` hold each name of the live-member map or of the
ghost directory exactly once, the live members first and in map order, and
every ghost that is not a live member as an entry with status `desconectado`,
`typing = false` and `connected = false`. -/
theorem updateUserList_spec (s : State) (roomCode : String) (now : Nat) (room : Room)
    (hroom : s.rooms.get? roomCode = some room)
    (hu : room.users.keys.Nodup)
    (hg : ((s.roomParticipants.get? roomCode).getD []).keys.Nodup) :
    updateUserList s roomCode now =
      [.toRoom roomCode (.userList roomCode room.userCount
        (room.users.countP (fun p => p.2.connected)) (presenceList s room roomCode now))] ∧
    ((presenceList s room roomCode now).map (fun e => e.name)).Nodup ∧
    (∀ name, name ∈ (presenceList s room roomCode now).map (fun e => e.name) ↔
      name ∈ room.users.keys ∨ name ∈ ((s.roomParticipants.get? roomCode).getD []).keys) ∧
    (presenceList s room roomCode now).take room.users.length = room.users.map liveEntry ∧
    (room.users.map liveEntry).map (fun e => e.name) = room.users.keys ∧
    (∀ p ∈ (s.roomParticipants.get? roomCode).getD [], room.users.has p.1 = false →
      ({ name := p.1, status := "desconectado", typing := false, connected := false,
         lastActivity := if p.2.lastSeen = 0 then now else p.2.lastSeen } : PresenceEntry) ∈
        (presenceList s room roomCode now).drop room.users.length) ∧
    (∀ e ∈ (presenceList s room roomCode now).drop room.users.length,
      e.status = "desconectado" ∧ e.typing = false ∧ e.connected = false ∧
      e.name ∈ ((s.roomParticipants.get? roomCode).getD []).keys ∧ e.name ∉ room.users.keys) := by
  have hlen : (room.users.map liveEntry).length = room.users.length := List.length_map _ _
  have hdrop : (presenceList s room roomCode now).drop room.users.length =
      (((s.roomParticipants.get? roomCode).getD []).filter
        (fun p => !room.users.has p.1)).map (ghostEntry now) := by
    unfold presenceList
    rw [← hlen, List.drop_left]
  refine ⟨?_, ?_, ?_, ?_, ?_, ?_, ?_⟩
  · unfold updateUserList
    simp only [hroom]
    rfl
  · rw [presenceList_names]
    refine List.Nodup.append hu ?_ ?_
    · exact List.Nodup.sublist (List.Sublist.map _ (List.filter_sublist _)) hg
    · intro a ha hb
      obtain ⟨p, hp, hpa⟩ := List.mem_map.mp hb
      have hf := (List.mem_filter.mp hp).2
      have hh : room.users.has p.1 = false := by simpa using hf
      exact not_mem_keys_of_has_false _ _ hh (hpa ▸ ha)
  · intro name
    rw [presenceList_names, List.mem_append]
    constructor
    · rintro (h | h)
      · exact Or.inl h
      · obtain ⟨p, hp, hpa⟩ := List.mem_map.mp h
        exact Or.inr (List.mem_map.mpr ⟨p, (List.mem_filter.mp hp).1, hpa⟩)
    · rintro (h | h)
      · exact Or.inl h
      · by_cases hm : name ∈ room.users.keys
        · exact Or.inl hm
        · right
          obtain ⟨p, hp, hpa⟩ := List.mem_map.mp h
          refine List.mem_map.mpr ⟨p, List.mem_filter.mpr ⟨hp, ?_⟩, hpa⟩
          have hh : room.users.has p.1 = false := by
            cases hb : room.users.has p.1 with
            | false => rfl
            | true =>
              exfalso
              apply hm
              have hp1 : p.1 = name := hpa
              rw [← hp1]
              exact (JsMap.has_iff_mem_keys _ _).mp hb
          simp [hh]
  · unfold presenceList
    rw [← hlen, List.take_left]
  · unfold JsMap.keys
    rw [List.map_map]
    rfl
  · intro p hp hh
    rw [hdrop]
    exact List.mem_map.mpr ⟨p, List.mem_filter.mpr ⟨hp, by simp [hh]⟩, rfl⟩
  · intro e he
    rw [hdrop] at he
    obtain ⟨p, hp, hpe⟩ := List.mem_map.mp he
    have hm := List.mem_filter.mp hp
    have hh : room.users.has p.1 = false := by simpa using hm.2
    rw [← hpe]
    exact ⟨rfl, rfl, rfl, List.mem_map.mpr ⟨p, hm.1, rfl⟩, not_mem_keys_of_has_false _ _ hh⟩

/-- Witness of C16: room `ABC` with the live members alice and bob and the
ghosts alice, bob and carol. -/
theorem updateUserList_spec_witness :
    stateWithGhost.rooms.get? "ABC" = some roomAfterDisconnect ∧
    ((stateWithGhost.roomParticipants.get? "ABC").getD []).keys = ["alice", "bob", "carol"] ∧
    updateUserList stateWithGhost "ABC" 5000 =
      [.toRoom "ABC" (.userList "ABC" 2 1
        [{ name := "alice", status := "activo", typing := false, connected := true,
           lastActivity := 1000 },
         { name := "bob", status := "desconectado", typing := false, connected := false,
           lastActivity := 2000 },
         { name := "carol", status := "desconectado", typing := false, connected := false,
           lastActivity := 900 }])] ∧
    ((presenceList stateWithGhost roomAfterDisconnect "ABC" 5000).map
      (fun e => e.name)).Nodup :=
  ⟨by decide, by decide, by decide,
   (updateUserList_spec stateWithGhost "ABC" 5000 roomAfterDisconnect (by decide) (by decide)
      (by decide)).2.1⟩

/-! ## C17: the display name -/

theorem takeWhile_append_rest (l : List Char) :
    l.takeWhile (fun c => decide (c ≠ '_')) = l ∨
    ∃ rest, l = l.takeWhile (fun c => decide (c ≠ '_')) ++ '_' :: rest := by
  induction l with
  | nil => exact Or.inl rfl
  | cons a l ih =>
    by_cases ha : a = '_'
    · right
      subst ha
      exact ⟨l, by simp⟩
    · have hd : decide (a ≠ '_') = true := by simpa using ha
      rw [List.takeWhile_cons, if_pos hd]
      rcases ih with h | ⟨rest, h⟩
      · left; rw [h]
      · right
        exact ⟨rest, by rw [List.cons_append, ← h]⟩

/-- Counterexample to C17: the payload gives the explicit display name `""`
and `getUserDisplayName` does not return it; it returns `bob`, derived from the
user name `bob_1`. -/
theorem empty_displayName_not_returned :
    msgEmptyDisplay.displayName = some "" ∧
    getUserDisplayName msgEmptyDisplay = "bob" ∧
    getUserDisplayName msgEmptyDisplay ≠ "" := by
  refine ⟨rfl, by decide, by decide⟩

/-- C17 as amended: `getUserDisplayName` returns the explicit `displayName`
when it is a non-empty string; otherwise (no `displayName`, or the empty
string) it returns the characters of `userName` before its first `_`: the
result holds no `_`, `userName` is the result followed by nothing or by `_` and
a rest, and the result is the whole `userName` when that holds no `_`. -/
theorem getUserDisplayName_spec (m : Message) :
    (∀ d, m.displayName = some d → d ≠ "" → getUserDisplayName m = d) ∧
    ((m.displayName = none ∨ m.displayName = some "") →
      getUserDisplayName m = splitFirst m.userName ∧
      '_' ∉ (getUserDisplayName m).data ∧
      (∃ rest, m.userName.data = (getUserDisplayName m).data ++ rest ∧
        (rest = [] ∨ ∃ tail, rest = '_' :: tail)) ∧
      ('_' ∉ m.userName.data → getUserDisplayName m = m.userName)) := by
  constructor
  · intro d hd hne
    unfold getUserDisplayName truthyStr
    simp [hd, hne]
  · intro h
    have hs : getUserDisplayName m = splitFirst m.userName := by
      unfold getUserDisplayName truthyStr
      rcases h with h | h <;> simp [h]
    rw [hs]
    refine ⟨rfl, ?_, ?_, ?_⟩
    · intro hm
      have := List.mem_takeWhile_imp hm
      simp at this
    · rcases takeWhile_append_rest m.userName.data with h1 | ⟨rest, h1⟩
      · exact ⟨[], by rw [List.append_nil]; exact h1.symm, Or.inl rfl⟩
      · exact ⟨'_' :: rest, h1, Or.inr ⟨rest, rfl⟩⟩
    · intro hno
      unfold splitFirst
      have : m.userName.data.takeWhile (fun c => decide (c ≠ '_')) = m.userName.data := by
        apply List.takeWhile_eq_self_iff.mpr
        intro c hc
        have : c ≠ '_' := fun e => hno (e ▸ hc)
        simpa using this
      rw [this]

/-- Witness of the amended C17: an explicit display name, and a name derived
from `bob_1`. -/
theorem getUserDisplayName_spec_witness :
    getUserDisplayName msgUnderscore = "a_b" ∧
    getUserDisplayName msgBob = splitFirst "bob_1" ∧ getUserDisplayName msgBob = "bob" :=
  ⟨(getUserDisplayName_spec msgUnderscore).1 "a_b" rfl (by decide),
   ((getUserDisplayName_spec msgBob).2 (Or.inl rfl)).1, by decide⟩

/-! ## C18 and C19: rejected and ignored events -/

/-- C18: a `joinRoom` of a connected client for a code that has no room but has
a ghost directory emits exactly one event, the `error` sent to the requesting
connection, and leaves the whole state (the five maps and every connection
state) unchanged. -/
theorem joinRoom_rejected (s : State) (sid : String) (m : Message) (now : Nat)
    (hlive : isLive s sid = true)
    (hroom : s.rooms.has m.roomCode = false)
    (hghost : s.roomParticipants.has m.roomCode = true) :
    step s now (.joinRoom sid m) =
      (s, [.toSocket sid (.error (roomClosedMessage m.roomCode))]) ∧
    (joinRoomCore s sid m now).2.2.rejected = true := by
  constructor
  · simp only [step, hlive, if_true, joinRoom]
    unfold joinRoomCore
    simp only [hroom, hghost, Bool.not_false, Bool.and_self, if_true, roomClosedMessage]
  · unfold joinRoomCore
    simp only [hroom, hghost, Bool.not_false, Bool.and_self, if_true]

/-- Witness of C18 on a state with a ghost directory and no room. -/
theorem joinRoom_rejected_witness :
    isLive stateOrphanGhosts "s1" = true ∧
    stateOrphanGhosts.rooms.has "ABC" = false ∧
    stateOrphanGhosts.roomParticipants.has "ABC" = true ∧
    step stateOrphanGhosts 1000 (.joinRoom "s1" msgAlice) =
      (stateOrphanGhosts,
       [.toSocket "s1" (.error "La sala ABC ya no existe o ha sido cerrada.")]) :=
  ⟨by decide, by decide, by decide,
   (joinRoom_rejected stateOrphanGhosts "s1" msgAlice 1000 (by decide) (by decide)
      (by decide)).1⟩

/-- C19: a `sendMessage` from a connection that has no current room (or no
current user), or whose `message.roomCode` differs from the connection's
current room, changes nothing in the state and emits nothing. -/
theorem sendMessage_dropped (s : State) (sid : String) (m : Message) (now : Nat)
    (time rnd : String)
    (h : truthyStr (sockOf s sid).currentRoom = false ∨
         truthyStr (sockOf s sid).currentUser = false ∨
         (sockOf s sid).currentRoom ≠ some m.roomCode) :
    sendMessage s sid m now time rnd = (s, []) ∧
    step s now (.sendMessage sid m time rnd) = (s, []) := by
  have h1 : sendMessage s sid m now time rnd = (s, []) := by
    unfold sendMessage
    simp only []
    rcases h with h | h | h
    · simp [h]
    · simp [h]
    · split
      · rfl
      · have hne : ¬ some m.roomCode = (sockOf s sid).currentRoom := fun e => h e.symm
        simp [hne]
  refine ⟨h1, ?_⟩
  simp only [step]
  split
  · exact h1
  · rfl

/-- Witness of C19: a client that has joined no room, and alice sending to a
room that is not her current one. -/
theorem sendMessage_dropped_witness :
    sendMessage stateOneClient "s1" { msgAlice with message := "hi" } 1500 "10:00" "abc123" =
      (stateOneClient, []) ∧
    sendMessage (run State.init traceBeforeBobJoins).1 "s1"
        { roomCode := "XYZ", userName := "alice_1", message := "hi" } 1500 "10:00" "abc123" =
      ((run State.init traceBeforeBobJoins).1, []) :=
  ⟨(sendMessage_dropped stateOneClient "s1" { msgAlice with message := "hi" } 1500 "10:00"
      "abc123" (Or.inl (by decide))).1,
   (sendMessage_dropped (run State.init traceBeforeBobJoins).1 "s1"
      { roomCode := "XYZ", userName := "alice_1", message := "hi" } 1500 "10:00" "abc123"
      (Or.inr (Or.inr (by decide)))).1⟩

/-! ## C20: a room is never destroyed -/

theorem oidOf_update (rooms : JsMap Room) (k c : String) (f : Room → Room)
    (hf : ∀ r, (f r).oid = r.oid) : oidOf (rooms.update k f) c = oidOf rooms c := by
  unfold oidOf
  rw [JsMap.get?_update]
  split
  · cases rooms.get? c with
    | none => rfl
    | some r => simp [hf r]
  · rfl

theorem oidOf_update_users (rooms : JsMap Room) (k c : String)
    (g : Room → JsMap UserInfo) (d : Room → Int) :
    oidOf (rooms.update k (fun r => { r with users := g r, userCount := d r })) c =
      oidOf rooms c := by
  refine oidOf_update rooms k c _ ?_; intro r; rfl

theorem oidOf_set_ne (rooms : JsMap Room) {k c : String} (v : Room) (h : c ≠ k) :
    oidOf (rooms.set k v) c = oidOf rooms c := by
  unfold oidOf
  rw [JsMap.get?_set_ne _ _ h]

theorem has_iff_oidOf (rooms : JsMap Room) (c : String) :
    rooms.has c = true ↔ (oidOf rooms c).isSome = true := by
  unfold oidOf JsMap.has
  cases rooms.get? c <;> simp

theorem oidOf_markDisconnected (s : State) (k name : String) (n : Nat) (c : String) :
    oidOf (markDisconnected s k name n).rooms c = oidOf s.rooms c := by
  unfold markDisconnected; dsimp only []; apply oidOf_update; intro r; rfl

theorem oidOf_updateUserStatus (s : State) (k name st : String) (n : Nat) (c : String) :
    oidOf (updateUserStatus s k name st n).rooms c = oidOf s.rooms c := by
  unfold updateUserStatus
  split
  · rfl
  · (dsimp only []; apply oidOf_update; intro r; rfl)

theorem oidOf_leavePreviousRoom (s : State) (sid name k : String) (n : Nat) (c : String) :
    oidOf (leavePreviousRoom s sid name k n).1.rooms c = oidOf s.rooms c := by
  unfold leavePreviousRoom
  simp only []
  split
  · split
    · rfl
    · split
      · exact oidOf_markDisconnected _ _ _ _ _
      · rfl
  · rfl

theorem oidOf_upsertLiveMember (s : State) (sid k name : String) (n : Nat) (c : String) :
    oidOf (upsertLiveMember s sid k name n).1.rooms c = oidOf s.rooms c := by
  unfold upsertLiveMember
  split
  · rfl
  · split
    · (dsimp only []; apply oidOf_update; intro r; rfl)
    · (dsimp only []; apply oidOf_update; intro r; rfl)

theorem oidOf_removeUserFromRoom (s : State) (k name : String) (v : Bool) (n : Nat)
    (c : String) : oidOf (removeUserFromRoom s k name v n).1.rooms c = oidOf s.rooms c := by
  unfold removeUserFromRoom
  split
  · rfl
  · split
    · rfl
    · split
      · rw [rooms_addNotificationToHistory]
        (dsimp only []; apply oidOf_update; intro r; rfl)
      · (dsimp only []; apply oidOf_update; intro r; rfl)

/-- The first half of `joinRoom` keeps the room object of every code that has
one. -/
theorem oidOf_joinPrepare (s : State) (sid : String) (m : Message) (n : Nat) {c : String}
    (hc : s.rooms.has c = true) :
    oidOf (joinPrepare s sid m n).1.rooms c = oidOf s.rooms c := by
  unfold joinPrepare
  simp only []
  have h3r : (updSock (leavePreviousRoom
      (reconnectionCheck s (userRoomKey (getUserDisplayName m) m.roomCode) n).1 sid
      (getUserDisplayName m) m.roomCode n).1 sid (fun k =>
      { k with currentRoom := some m.roomCode, currentUser := some m.userName,
               displayName := some (getUserDisplayName m) })).rooms.has c = true := by
    show (leavePreviousRoom _ sid _ _ n).1.rooms.has c = _
    rw [rooms_has_leavePreviousRoom, rooms_reconnectionCheck]; exact hc
  have h3o : oidOf (updSock (leavePreviousRoom
      (reconnectionCheck s (userRoomKey (getUserDisplayName m) m.roomCode) n).1 sid
      (getUserDisplayName m) m.roomCode n).1 sid (fun k =>
      { k with currentRoom := some m.roomCode, currentUser := some m.userName,
               displayName := some (getUserDisplayName m) })).rooms c = oidOf s.rooms c := by
    show oidOf (leavePreviousRoom _ sid _ _ n).1.rooms c = _
    rw [oidOf_leavePreviousRoom, rooms_reconnectionCheck]
  generalize (updSock (leavePreviousRoom
    (reconnectionCheck s (userRoomKey (getUserDisplayName m) m.roomCode) n).1 sid
    (getUserDisplayName m) m.roomCode n).1 sid (fun k =>
    { k with currentRoom := some m.roomCode, currentUser := some m.userName,
             displayName := some (getUserDisplayName m) })) = s3 at h3r h3o ⊢
  have h4 : oidOf (if !s3.rooms.has m.roomCode then (createRoom s3 m.roomCode).1 else s3).rooms c =
      oidOf s.rooms c := by
    split
    · rename_i hh
      have hne : c ≠ m.roomCode := by
        intro e
        rw [e] at h3r
        rw [h3r] at hh
        simp at hh
      rw [← h3o]
      exact oidOf_set_ne _ _ hne
    · exact h3o
  generalize (if !s3.rooms.has m.roomCode then (createRoom s3 m.roomCode).1 else s3) = s4 at h4 ⊢
  have h5 : oidOf (if !s4.roomMessages.has m.roomCode then
      { s4 with roomMessages := s4.roomMessages.set m.roomCode [] } else s4).rooms c =
      oidOf s.rooms c := by
    split <;> exact h4
  generalize (if !s4.roomMessages.has m.roomCode then
    { s4 with roomMessages := s4.roomMessages.set m.roomCode [] } else s4) = s5 at h5 ⊢
  split <;> exact h5

theorem oidOf_joinRoomCore (s : State) (sid : String) (m : Message) (n : Nat) {c : String}
    (hc : s.rooms.has c = true) :
    oidOf (joinRoomCore s sid m n).1.rooms c = oidOf s.rooms c := by
  unfold joinRoomCore
  simp only []
  split
  · rfl
  · have h6 := oidOf_joinPrepare s sid m n hc
    generalize joinPrepare s sid m n = pr at h6 ⊢
    have h8 : oidOf (upsertLiveMember (upsertParticipant (trackUserConnection pr.1 m.roomCode
        (getUserDisplayName m) n).1 sid m.roomCode (getUserDisplayName m) n) sid m.roomCode
        (getUserDisplayName m) n).1.rooms c = oidOf s.rooms c := by
      rw [oidOf_upsertLiveMember, rooms_upsertParticipant, rooms_trackUserConnection]
      exact h6
    generalize (upsertLiveMember (upsertParticipant (trackUserConnection pr.1 m.roomCode
        (getUserDisplayName m) n).1 sid m.roomCode (getUserDisplayName m) n) sid m.roomCode
        (getUserDisplayName m) n) = lm at h8 ⊢
    generalize (trackUserConnection pr.1 m.roomCode (getUserDisplayName m) n).2 = tr
    split
    · rw [rooms_joinNotification]; exact h8
    · exact h8

theorem oidOf_sendMessage (s : State) (sid : String) (m : Message) (n : Nat) (t r : String)
    (c : String) : oidOf (sendMessage s sid m n t r).1.rooms c = oidOf s.rooms c := by
  unfold sendMessage
  simp only []
  split
  · rfl
  · split
    · rw [rooms_createChatMessage]
      have h1 := oidOf_updateUserStatus s m.roomCode (getUserDisplayName m) "activo" n c
      generalize updateUserStatus s m.roomCode (getUserDisplayName m) "activo" n = s1 at h1 ⊢
      have key : ∀ s2 : State, oidOf s2.rooms c = oidOf s.rooms c →
          oidOf (match s2.rooms.get? m.roomCode with
            | none => (s2, ([] : List Emission))
            | some room =>
              if room.users.has (getUserDisplayName m) then
                ({ s2 with rooms := s2.rooms.update m.roomCode (fun r =>
                    { r with users := r.users.update (getUserDisplayName m) (fun u =>
                        { u with typing := false }) }) },
                 [Emission.toRoom m.roomCode
                    (.typingStatus m.roomCode (getUserDisplayName m) false)])
              else (s2, [])).1.rooms c = oidOf s.rooms c := by
        intro s2 h2
        split
        · exact h2
        · split
          · rw [← h2]
            (dsimp only []; apply oidOf_update; intro r; rfl)
          · exact h2
      apply key
      split
      · exact h1
      · exact h1
    · rfl

theorem oidOf_typing (s : State) (sid : String) (m : Message) (n : Nat) (c : String) :
    oidOf (typing s sid m n).1.rooms c = oidOf s.rooms c := by
  unfold typing
  simp only []
  split
  · rfl
  · split
    · rfl
    · split
      · have key : oidOf (s.rooms.update m.roomCode (fun r =>
            { r with users := r.users.update (getUserDisplayName m) (fun u =>
                { u with typing := true, lastActivity := n }) })) c = oidOf s.rooms c := by
          refine oidOf_update _ _ _ _ ?_; intro r; rfl
        split <;> exact key
      · rfl

theorem oidOf_stopTyping (s : State) (sid : String) (m : Message) (n : Nat) (c : String) :
    oidOf (stopTyping s sid m n).1.rooms c = oidOf s.rooms c := by
  unfold stopTyping
  simp only []
  split
  · rfl
  · split
    · rfl
    · split
      · have key : oidOf (s.rooms.update m.roomCode (fun r =>
            { r with users := r.users.update (getUserDisplayName m) (fun u =>
                { u with typing := false, lastActivity := n }) })) c = oidOf s.rooms c := by
          refine oidOf_update _ _ _ _ ?_; intro r; rfl
        split <;> exact key
      · rfl

theorem oidOf_updateStatus (s : State) (sid : String) (m : Message) (n : Nat) (c : String) :
    oidOf (updateStatus s sid m n).1.rooms c = oidOf s.rooms c := by
  unfold updateStatus
  simp only []
  split
  · rfl
  · exact oidOf_updateUserStatus _ _ _ _ _ _

theorem oidOf_fireTimer (s : State) (t : Timer) (c : String) :
    oidOf (fireTimer s t).1.rooms c = oidOf s.rooms c := by
  unfold fireTimer
  split
  · rfl
  · simp only [updSock]
    split
    · rfl
    · split
      · split
        · (dsimp only []; apply oidOf_update; intro r; rfl)
        · rfl
      · split
        · rfl
        · split <;> rfl

theorem logInv_of_has {s s1 : State}
    (h1 : ∀ c, s1.rooms.has c = true → s.rooms.has c = true)
    (h2 : ∀ c, s.roomMessages.has c = true → s1.roomMessages.has c = true)
    (h : LogInv s) : LogInv s1 :=
  fun c hc => h2 c (h c (h1 c hc))

theorem logInv_of_oid {s s1 : State}
    (h1 : ∀ c, oidOf s1.rooms c = oidOf s.rooms c)
    (h2 : ∀ c, s.roomMessages.has c = true → s1.roomMessages.has c = true)
    (h : LogInv s) : LogInv s1 := by
  refine logInv_of_has ?_ h2 h
  intro c hc
  rw [has_iff_oidOf] at hc ⊢
  rw [← h1 c]; exact hc

theorem logInv_createRoom (s : State) (k : String) (h : LogInv s) :
    LogInv (createRoom s k).1 := by
  intro c hc
  simp only [createRoom] at hc ⊢
  rw [JsMap.has_set] at hc ⊢
  by_cases hck : c = k
  · simp [hck]
  · simp only [hck, decide_False, Bool.or_false] at hc ⊢
    exact h c hc

theorem logInv_joinPrepare (s : State) (sid : String) (m : Message) (n : Nat)
    (h : LogInv s) : LogInv (joinPrepare s sid m n).1 := by
  unfold joinPrepare
  simp only []
  have h3 : LogInv (updSock (leavePreviousRoom
      (reconnectionCheck s (userRoomKey (getUserDisplayName m) m.roomCode) n).1 sid
      (getUserDisplayName m) m.roomCode n).1 sid (fun k =>
      { k with currentRoom := some m.roomCode, currentUser := some m.userName,
               displayName := some (getUserDisplayName m) })) := by
    intro c hc
    have hr : s.rooms.has c = true := by
      rw [← rooms_reconnectionCheck s (userRoomKey (getUserDisplayName m) m.roomCode) n,
        ← rooms_has_leavePreviousRoom _ sid (getUserDisplayName m) m.roomCode n c]
      exact hc
    rw [updSock_log, leavePreviousRoom_log, reconnectionCheck_log]
    exact h c hr
  generalize (updSock (leavePreviousRoom
    (reconnectionCheck s (userRoomKey (getUserDisplayName m) m.roomCode) n).1 sid
    (getUserDisplayName m) m.roomCode n).1 sid (fun k =>
    { k with currentRoom := some m.roomCode, currentUser := some m.userName,
             displayName := some (getUserDisplayName m) })) = s3 at h3 ⊢
  have h4 : LogInv (if !s3.rooms.has m.roomCode then (createRoom s3 m.roomCode).1 else s3) := by
    split
    · exact logInv_createRoom _ _ h3
    · exact h3
  generalize (if !s3.rooms.has m.roomCode then (createRoom s3 m.roomCode).1 else s3) = s4 at h4 ⊢
  have h5 : LogInv (if !s4.roomMessages.has m.roomCode then
      { s4 with roomMessages := s4.roomMessages.set m.roomCode [] } else s4) := by
    split
    · intro c hc
      show (s4.roomMessages.set m.roomCode []).has c = true
      rw [JsMap.has_set, h4 c hc]; rfl
    · exact h4
  generalize (if !s4.roomMessages.has m.roomCode then
    { s4 with roomMessages := s4.roomMessages.set m.roomCode [] } else s4) = s5 at h5 ⊢
  split
  · exact fun c hc => h5 c hc
  · exact h5

theorem logInv_joinRoomCore (s : State) (sid : String) (m : Message) (n : Nat)
    (h : LogInv s) : LogInv (joinRoomCore s sid m n).1 := by
  unfold joinRoomCore
  simp only []
  split
  · exact h
  · have h6 := logInv_joinPrepare s sid m n h
    generalize joinPrepare s sid m n = pr at h6 ⊢
    have h8 : LogInv (upsertLiveMember (upsertParticipant (trackUserConnection pr.1 m.roomCode
        (getUserDisplayName m) n).1 sid m.roomCode (getUserDisplayName m) n) sid m.roomCode
        (getUserDisplayName m) n).1 := by
      refine logInv_of_oid ?_ ?_ h6
      · intro c
        rw [oidOf_upsertLiveMember, rooms_upsertParticipant, rooms_trackUserConnection]
      · intro c hc
        rw [upsertLiveMember_log, upsertParticipant_log, trackUserConnection_log]
        exact hc
    generalize (upsertLiveMember (upsertParticipant (trackUserConnection pr.1 m.roomCode
        (getUserDisplayName m) n).1 sid m.roomCode (getUserDisplayName m) n) sid m.roomCode
        (getUserDisplayName m) n) = lm at h8 ⊢
    generalize (trackUserConnection pr.1 m.roomCode (getUserDisplayName m) n).2 = tr
    split
    · refine logInv_of_has ?_ ?_ h8
      · intro c hc
        rw [rooms_joinNotification] at hc
        exact hc
      · intro c hc
        unfold joinNotification
        exact (logGrows_addNotificationToHistory _ _ _ _ c).2 hc
    · exact h8

/-- A cleanup does nothing while the room's log has an entry. -/
theorem cleanupEmptyRoom_of_history (s : State) (c : String) (l : List HistoryEntry)
    (hl : s.roomMessages.get? c = some l) (hne : l ≠ []) : cleanupEmptyRoom s c = s := by
  unfold cleanupEmptyRoom
  split
  · rfl
  · split
    · rfl
    · simp only [hl]
      cases l with
      | nil => exact absurd rfl hne
      | cons a rest => simp

/-- A cleanup does nothing while the room has a live member counted. -/
theorem cleanupEmptyRoom_of_count (s : State) (c : String) (r : Room)
    (hr : s.rooms.get? c = some r) (hc : r.userCount > 0) : cleanupEmptyRoom s c = s := by
  unfold cleanupEmptyRoom
  simp only [hr, hc, if_true]

/-- After the voluntary removal of a live member from a room that has a log,
the log ends with the leave notification. -/
theorem removeUserFromRoom_voluntary_log (s : State) (c name : String) (n : Nat)
    (hm : MemberOf s.rooms c name) (l : List HistoryEntry)
    (hl : s.roomMessages.get? c = some l) :
    (removeUserFromRoom s c name true n).1.roomMessages.get? c =
      some (l ++ [.notification n (name ++ " ha abandonado la sala.")]) := by
  obtain ⟨r, hr, hn⟩ := hm
  unfold removeUserFromRoom
  simp only [hr, hn, Bool.not_true, Bool.false_eq_true, if_false, if_true]
  unfold addNotificationToHistory
  have hh : s.roomMessages.has c = true := JsMap.has_of_get? hl
  simp only [hh, Bool.not_true, Bool.false_eq_true, if_false]
  show (s.roomMessages.update c _).get? c = _
  rw [JsMap.get?_update_same, hl]
  rfl

/-- At the cleanup of the leave path the room's history is not empty. -/
theorem leave_cleanup_noop (s : State) (c name : String) (n : Nat)
    (hi : LogInv s) (hm : MemberOf s.rooms c name) :
    historyOf (removeUserFromRoom s c name true n).1 c ≠ [] ∧
    cleanupEmptyRoom (removeUserFromRoom s c name true n).1 c =
      (removeUserFromRoom s c name true n).1 := by
  have hh : s.roomMessages.has c = true := by
    apply hi
    obtain ⟨r, hr, _⟩ := hm
    exact JsMap.has_of_get? hr
  obtain ⟨l, hl⟩ := (JsMap.has_eq_true_iff _ _).mp hh
  have h1 := removeUserFromRoom_voluntary_log s c name n hm l hl
  constructor
  · unfold historyOf
    rw [h1]
    simp
  · exact cleanupEmptyRoom_of_history _ c _ h1 (by simp)

/-- At the cleanup of the disconnect path the room still counts the
disconnected live member. -/
theorem disconnect_cleanup_noop (s : State) (c name : String) (n : Nat)
    (hi : RoomsInv s.rooms) (hm : MemberOf s.rooms c name) :
    (∃ r, (markDisconnected s c name n).rooms.get? c = some r ∧ r.userCount ≥ 1 ∧
      r.users.has name = true) ∧
    cleanupEmptyRoom (markDisconnected s c name n) c = markDisconnected s c name n := by
  obtain ⟨r, hr, hn⟩ := hm
  have hpos := userCount_pos_of_member hi hr hn
  have hg : (markDisconnected s c name n).rooms.get? c =
      some { r with users := r.users.update name (fun u =>
        { u with connected := false, lastActivity := n }) } := by
    unfold markDisconnected
    dsimp only []
    rw [JsMap.get?_update_same, hr]
    rfl
  refine ⟨⟨_, hg, ?_, ?_⟩, cleanupEmptyRoom_of_count _ c _ hg hpos⟩
  · show r.userCount ≥ 1
    omega
  · dsimp only []
    rw [JsMap.has_update]; exact hn

theorem oidOf_leaveRoom (s : State) (sid : String) (m : Message) (n : Nat)
    (hi : LogInv s) (c : String) :
    oidOf (leaveRoom s sid m n).1.rooms c = oidOf s.rooms c := by
  have key : ∀ (lv : State × List Emission) (code : String),
      oidOf lv.1.rooms c = oidOf s.rooms c →
      oidOf (if (sockOf lv.1 sid).currentRoom = some code then
          updSock lv.1 sid (fun k => { k with currentRoom := none, currentUser := none })
        else lv.1).rooms c = oidOf s.rooms c := by
    intro lv code h
    split <;> exact h
  unfold leaveRoom
  split
  · rfl
  · simp only []
    apply key
    split
    · rfl
    · rename_i room hr
      split
      · rename_i hn
        dsimp only []
        rw [(leave_cleanup_noop s m.roomCode (getUserDisplayName m) n hi ⟨room, hr, hn⟩).2]
        exact oidOf_removeUserFromRoom _ _ _ _ _ _
      · rfl

theorem oidOf_disconnect (s : State) (sid : String) (n : Nat)
    (hi : RoomsInv s.rooms) (c : String) :
    oidOf (disconnect s sid n).1.rooms c = oidOf s.rooms c := by
  unfold disconnect
  simp only []
  split
  · split
    · rfl
    · rename_i room hr
      split
      · rename_i hn
        dsimp only []
        rw [(disconnect_cleanup_noop _ _ _ n (by exact hi) ⟨room, hr, hn⟩).2]
        exact oidOf_markDisconnected _ _ _ _ _
      · rfl
  · rfl

theorem logInv_leaveRoom (s : State) (sid : String) (m : Message) (n : Nat)
    (hi : LogInv s) : LogInv (leaveRoom s sid m n).1 := by
  intro c hc
  have hb : s.rooms.has c = true := by
    rw [has_iff_oidOf] at hc ⊢
    rw [← oidOf_leaveRoom s sid m n hi c]; exact hc
  rcases leaveRoom_log_cases s sid m n c with h | ⟨h, _, _⟩
  · exact h.2 (hi c hb)
  · rw [h] at hc; cases hc

theorem logInv_disconnect (s : State) (sid : String) (n : Nat)
    (hr : RoomsInv s.rooms) (hi : LogInv s) : LogInv (disconnect s sid n).1 := by
  intro c hc
  have hb : s.rooms.has c = true := by
    rw [has_iff_oidOf] at hc ⊢
    rw [← oidOf_disconnect s sid n hr c]; exact hc
  rcases disconnect_log_cases s sid n c with h | ⟨h, _, _⟩
  · exact h.2 (hi c hb)
  · rw [h] at hc; cases hc

/-- One event keeps the room object of every existing room code. -/
theorem oidOf_step (s : State) (n : Nat) (e : Event) (hr : RoomsInv s.rooms)
    (hi : LogInv s) {c : String} (hc : s.rooms.has c = true) :
    oidOf (step s n e).1.rooms c = oidOf s.rooms c := by
  cases e with
  | connection sid => simp only [step]; split <;> rfl
  | joinRoom sid m =>
    simp only [step]; split
    · exact oidOf_joinRoomCore s sid m n hc
    · rfl
  | sendMessage sid m t r =>
    simp only [step]; split
    · exact oidOf_sendMessage s sid m n t r c
    · rfl
  | leaveRoom sid m =>
    simp only [step]; split
    · exact oidOf_leaveRoom s sid m n hi c
    · rfl
  | typing sid m =>
    simp only [step]; split
    · exact oidOf_typing s sid m n c
    · rfl
  | stopTyping sid m =>
    simp only [step]; split
    · exact oidOf_stopTyping s sid m n c
    · rfl
  | updateStatus sid m =>
    simp only [step]; split
    · exact oidOf_updateStatus s sid m n c
    · rfl
  | disconnect sid =>
    simp only [step]; split
    · exact oidOf_disconnect s sid n hr c
    · rfl
  | timeout hd =>
    simp only [step]
    split
    · rfl
    · exact oidOf_fireTimer (clearTimeout s hd) _ c

theorem logInv_step (s : State) (n : Nat) (e : Event) (hr : RoomsInv s.rooms)
    (hi : LogInv s) : LogInv (step s n e).1 := by
  cases e with
  | connection sid => simp only [step]; split <;> exact hi
  | joinRoom sid m =>
    simp only [step]; split
    · exact logInv_joinRoomCore s sid m n hi
    · exact hi
  | sendMessage sid m t r =>
    simp only [step]; split
    · exact logInv_of_oid (oidOf_sendMessage s sid m n t r)
        (fun c hc => (sendMessage_logGrows s sid m n t r c).2 hc) hi
    · exact hi
  | leaveRoom sid m =>
    simp only [step]; split
    · exact logInv_leaveRoom s sid m n hi
    · exact hi
  | typing sid m =>
    simp only [step]; split
    · exact logInv_of_oid (oidOf_typing s sid m n)
        (fun c hc => by rw [typing_log]; exact hc) hi
    · exact hi
  | stopTyping sid m =>
    simp only [step]; split
    · exact logInv_of_oid (oidOf_stopTyping s sid m n)
        (fun c hc => by rw [stopTyping_log]; exact hc) hi
    · exact hi
  | updateStatus sid m =>
    simp only [step]; split
    · exact logInv_of_oid (oidOf_updateStatus s sid m n)
        (fun c hc => by rw [updateStatus_log]; exact hc) hi
    · exact hi
  | disconnect sid =>
    simp only [step]; split
    · exact fun c hc => logInv_disconnect s sid n hr hi c hc
    · exact hi
  | timeout hd =>
    simp only [step]
    split
    · exact hi
    · exact logInv_of_oid (oidOf_fireTimer (clearTimeout s hd) _)
        (fun c hc => by rw [fireTimer_log]; exact hc) hi

theorem reachable_logInv {s : State} (h : Reachable s) : LogInv s := by
  induction h with
  | init => intro c hc; cases hc
  | step s n e hs ih => exact logInv_step s n e (reachable_roomsInv hs) ih

theorem reachable_steps (l : List (Nat × Event)) (s : State) (h : Reachable s) :
    Reachable (steps s l) := by
  induction l generalizing s with
  | nil => exact h
  | cons p rest ih =>
    obtain ⟨t, e⟩ := p
    exact ih _ (Reachable.step s t e h)

theorem oidOf_steps (l : List (Nat × Event)) (s : State) (h : Reachable s) {c : String}
    (hc : s.rooms.has c = true) : oidOf (steps s l).rooms c = oidOf s.rooms c := by
  induction l generalizing s with
  | nil => rfl
  | cons p rest ih =>
    obtain ⟨t, e⟩ := p
    have h1 := oidOf_step s t e (reachable_roomsInv h) (reachable_logInv h) hc
    have h2 : (step s t e).1.rooms.has c = true := by
      rw [has_iff_oidOf] at hc ⊢
      rw [h1]; exact hc
    show oidOf (steps (step s t e).1 rest).rooms c = _
    rw [ih _ (Reachable.step s t e h) h2, h1]

/-- C20: in a state reached from the empty initial state, a room code that is
in `rooms` stays there, with the same room object, after every further
sequence of events; at the cleanup of the leave path the history is not empty
(the leave notification has just been appended) and at the cleanup of the
disconnect path the room's `userCount` is at least 1 (the disconnected name is
still a live member), so both cleanups leave the state as it is. -/
theorem room_never_destroyed (s : State) (hs : Reachable s) (roomCode : String)
    (hroom : s.rooms.has roomCode = true) :
    (∀ l : List (Nat × Event),
      (steps s l).rooms.has roomCode = true ∧
      oidOf (steps s l).rooms roomCode = oidOf s.rooms roomCode) ∧
    (∀ now e, (step s now e).1.rooms.has roomCode = true) ∧
    (∀ name now, MemberOf s.rooms roomCode name →
      historyOf (removeUserFromRoom s roomCode name true now).1 roomCode ≠ [] ∧
      cleanupEmptyRoom (removeUserFromRoom s roomCode name true now).1 roomCode =
        (removeUserFromRoom s roomCode name true now).1) ∧
    (∀ (s1 : State) name now, s1.rooms = s.rooms → MemberOf s.rooms roomCode name →
      (∃ r, (markDisconnected s1 roomCode name now).rooms.get? roomCode = some r ∧
        r.userCount ≥ 1 ∧ r.users.has name = true) ∧
      cleanupEmptyRoom (markDisconnected s1 roomCode name now) roomCode =
        markDisconnected s1 roomCode name now) := by
  have hsteps : ∀ l : List (Nat × Event),
      (steps s l).rooms.has roomCode = true ∧
      oidOf (steps s l).rooms roomCode = oidOf s.rooms roomCode := by
    intro l
    have h1 := oidOf_steps l s hs hroom
    refine ⟨?_, h1⟩
    rw [has_iff_oidOf] at hroom ⊢
    rw [h1]; exact hroom
  refine ⟨hsteps, ?_, ?_, ?_⟩
  · intro now e
    exact (hsteps [(now, e)]).1
  · intro name now hm
    exact leave_cleanup_noop s roomCode name now (reachable_logInv hs) hm
  · intro s1 name now h1 hm
    refine disconnect_cleanup_noop s1 roomCode name now ?_ ?_
    · rw [h1]; exact reachable_roomsInv hs
    · rw [h1]; exact hm

theorem room_never_destroyed_witness :
    (run State.init traceBeforeBobJoins).1.rooms.has "ABC" = true ∧
    (steps (run State.init traceBeforeBobJoins).1
      [(3000, .leaveRoom "s1" msgAlice), (4000, .disconnect "s1")]).rooms.has "ABC" = true :=
  ⟨by decide,
   ((room_never_destroyed (run State.init traceBeforeBobJoins).1
      (reachable_run _ _ Reachable.init) "ABC" (by decide)).1 _).1⟩

/-! ## C21 and C22: the three maps hold the same codes, and the ghost
directory the same names as the live-member map -/

theorem has_eq_decide_mem_keys {α : Type} (m : JsMap α) (k : String) :
    m.has k = decide (k ∈ m.keys) := by
  have h := JsMap.has_iff_mem_keys m k
  by_cases hk : k ∈ m.keys
  · rw [h.mpr hk]; simp [hk]
  · have : m.has k = false := by
      cases hh : m.has k
      · rfl
      · exact absurd (h.mp hh) hk
    rw [this]; simp [hk]

theorem get?_mapVal {α β : Type} (m : JsMap α) (g : α → β) (k : String) :
    JsMap.get? (m.map (fun p => (p.1, g p.2))) k = (m.get? k).map g := by
  induction m with
  | nil => rfl
  | cons p rest ih =>
    obtain ⟨k1, v⟩ := p
    simp only [List.map_cons]
    rw [JsMap.get?_cons, JsMap.get?_cons, ih]
    by_cases h : k1 = k <;> simp [h]

theorem mapVal_update {α β : Type} (m : JsMap α) (k : String) (f : α → α) (g : α → β)
    (h : ∀ a, g (f a) = g a) :
    (m.update k f).map (fun p => (p.1, g p.2)) = m.map (fun p => (p.1, g p.2)) := by
  induction m with
  | nil => rfl
  | cons p rest ih =>
    obtain ⟨k1, v⟩ := p
    rw [JsMap.update_cons, List.map_cons, List.map_cons, ih]
    by_cases hk : k1 = k <;> simp [hk, h]

theorem roomNames_update (rooms : JsMap Room) (k : String) (f : Room → Room)
    (h : ∀ r, (f r).users.keys = r.users.keys) :
    roomNames (rooms.update k f) = roomNames rooms :=
  mapVal_update rooms k f (fun r => r.users.keys) h

theorem ghostNames_update (gs : JsMap (JsMap Participant)) (k : String)
    (f : JsMap Participant → JsMap Participant) (h : ∀ g, (f g).keys = g.keys) :
    ghostNames (gs.update k f) = ghostNames gs :=
  mapVal_update gs k f (fun g => g.keys) h

theorem roomNames_update_users (rooms : JsMap Room) (k name : String)
    (u : UserInfo → UserInfo) :
    roomNames (rooms.update k (fun r => { r with users := r.users.update name u })) =
      roomNames rooms :=
  roomNames_update rooms k _ (fun r => JsMap.keys_update r.users name u)

theorem ghostNames_update_entry (gs : JsMap (JsMap Participant)) (k name : String)
    (u : Participant → Participant) :
    ghostNames (gs.update k (fun g => g.update name u)) = ghostNames gs :=
  ghostNames_update gs k _ (fun g => JsMap.keys_update g name u)

theorem liveHas_eq_roomNames (rooms : JsMap Room) (c name : String) :
    liveHas rooms c name = decide (name ∈ ((roomNames rooms).get? c).getD []) := by
  unfold liveHas roomNames
  rw [get?_mapVal rooms (fun r => r.users.keys) c]
  cases rooms.get? c with
  | none => simp
  | some r => simp [has_eq_decide_mem_keys]

theorem ghostHas_eq_ghostNames (gs : JsMap (JsMap Participant)) (c name : String) :
    ghostHas gs c name = decide (name ∈ ((ghostNames gs).get? c).getD []) := by
  unfold ghostHas ghostNames
  rw [get?_mapVal gs (fun g => g.keys) c]
  cases gs.get? c with
  | none => simp
  | some r => simp [has_eq_decide_mem_keys]

theorem has_eq_of_mapVal {α β : Type} (m : JsMap α) (g : α → β) (k : String) :
    JsMap.has (m.map (fun p => (p.1, g p.2))) k = m.has k := by
  unfold JsMap.has
  rw [get?_mapVal]
  cases m.get? k <;> rfl

/-- Two states with the same shape: the three maps have the same codes and the
two name predicates agree. -/
theorem obs_of_shape_eq {s s1 : State} (h : shape s1 = shape s) :
    (∀ c, s1.rooms.has c = s.rooms.has c) ∧
    (∀ c, s1.roomMessages.has c = s.roomMessages.has c) ∧
    (∀ c, s1.roomParticipants.has c = s.roomParticipants.has c) ∧
    (∀ c name, liveHas s1.rooms c name = liveHas s.rooms c name) ∧
    (∀ c name, ghostHas s1.roomParticipants c name = ghostHas s.roomParticipants c name) := by
  unfold shape at h
  have h1 : roomNames s1.rooms = roomNames s.rooms := congrArg Prod.fst h
  have h2 : s1.roomMessages.keys = s.roomMessages.keys := congrArg (fun x => x.2.1) h
  have h3 : ghostNames s1.roomParticipants = ghostNames s.roomParticipants :=
    congrArg (fun x => x.2.2) h
  refine ⟨?_, ?_, ?_, ?_, ?_⟩
  · intro c
    rw [← has_eq_of_mapVal s1.rooms (fun r => r.users.keys) c,
      ← has_eq_of_mapVal s.rooms (fun r => r.users.keys) c]
    exact congrArg (fun m => JsMap.has m c) h1
  · intro c
    rw [has_eq_decide_mem_keys, has_eq_decide_mem_keys, h2]
  · intro c
    rw [← has_eq_of_mapVal s1.roomParticipants (fun g => g.keys) c,
      ← has_eq_of_mapVal s.roomParticipants (fun g => g.keys) c]
    exact congrArg (fun m => JsMap.has m c) h3
  · intro c name
    rw [liveHas_eq_roomNames, liveHas_eq_roomNames, h1]
  · intro c name
    rw [ghostHas_eq_ghostNames, ghostHas_eq_ghostNames, h3]

theorem codesInv_of_shape {s s1 : State} (h : shape s1 = shape s) (hi : CodesInv s) :
    CodesInv s1 := by
  obtain ⟨h1, h2, h3, _, _⟩ := obs_of_shape_eq h
  intro c
  rw [h1, h2, h3]
  exact hi c

theorem ghostInv_of_shape {s s1 : State} (h : shape s1 = shape s) (hi : GhostInv s) :
    GhostInv s1 := by
  obtain ⟨_, _, _, h4, h5⟩ := obs_of_shape_eq h
  intro c name
  rw [h4, h5]
  exact hi c name

theorem shape_of_fields {s s1 : State} (h1 : roomNames s1.rooms = roomNames s.rooms)
    (h2 : s1.roomMessages.keys = s.roomMessages.keys)
    (h3 : ghostNames s1.roomParticipants = ghostNames s.roomParticipants) :
    shape s1 = shape s := by
  unfold shape
  rw [h1, h2, h3]

theorem shape_updSock (s : State) (sid : String) (f : SocketState → SocketState) :
    shape (updSock s sid f) = shape s := rfl

theorem shape_clearTimeout (s : State) (hd : Nat) : shape (clearTimeout s hd) = shape s := rfl

theorem shape_setTimeout (s : State) (n d : Nat) (a : TimerAction) :
    shape (setTimeout s n d a) = shape s := rfl

theorem shape_markDisconnected (s : State) (c name : String) (n : Nat) :
    shape (markDisconnected s c name n) = shape s := by
  unfold markDisconnected
  apply shape_of_fields
  · exact roomNames_update_users _ _ _ _
  · rfl
  · exact ghostNames_update_entry _ _ _ _

theorem shape_updateUserStatus (s : State) (c name st : String) (n : Nat) :
    shape (updateUserStatus s c name st n) = shape s := by
  unfold updateUserStatus
  split
  · rfl
  · apply shape_of_fields
    · exact roomNames_update_users _ _ _ _
    · rfl
    · exact ghostNames_update_entry _ _ _ _

theorem shape_addNotificationToHistory (s : State) (c t : String) (n : Nat) :
    shape (addNotificationToHistory s c t n).1 = shape s := by
  unfold addNotificationToHistory
  split
  · rfl
  · apply shape_of_fields
    · rfl
    · dsimp only []; exact JsMap.keys_update _ _ _
    · rfl

theorem shape_createChatMessage (s : State) (c a b : String) (n : Nat) (t r : String) :
    shape (createChatMessage s c a b n t r).1 = shape s := by
  unfold createChatMessage
  apply shape_of_fields
  · rfl
  · dsimp only []; exact JsMap.keys_update _ _ _
  · rfl

theorem shape_trackUserConnection (s : State) (c name : String) (n : Nat) :
    shape (trackUserConnection s c name n).1 = shape s := by
  unfold trackUserConnection
  simp only []
  split <;> rfl

theorem shape_reconnectionCheck (s : State) (k : String) (n : Nat) :
    shape (reconnectionCheck s k n).1 = shape s := by
  unfold reconnectionCheck
  simp only []
  split <;> rfl

theorem shape_leavePreviousRoom (s : State) (sid name c : String) (n : Nat) :
    shape (leavePreviousRoom s sid name c n).1 = shape s := by
  unfold leavePreviousRoom
  simp only []
  split
  · split
    · rfl
    · split
      · exact shape_markDisconnected _ _ _ _
      · rfl
  · rfl

theorem shape_joinNotification (s : State) (c name : String) (n : Nat) :
    shape (joinNotification s c name n).1 = shape s := by
  unfold joinNotification
  exact shape_addNotificationToHistory _ _ _ _

theorem shape_typing (s : State) (sid : String) (m : Message) (n : Nat) :
    shape (typing s sid m n).1 = shape s := by
  unfold typing
  simp only []
  split
  · rfl
  · split
    · rfl
    · split
      · have key : shape { s with rooms := s.rooms.update m.roomCode (fun r =>
            { r with users := r.users.update (getUserDisplayName m) (fun u =>
                { u with typing := true, lastActivity := n }) }) } = shape s :=
          shape_of_fields (roomNames_update_users _ _ _ _) rfl rfl
        split <;> exact key
      · rfl

theorem shape_stopTyping (s : State) (sid : String) (m : Message) (n : Nat) :
    shape (stopTyping s sid m n).1 = shape s := by
  unfold stopTyping
  simp only []
  split
  · rfl
  · split
    · rfl
    · split
      · have key : shape { s with rooms := s.rooms.update m.roomCode (fun r =>
            { r with users := r.users.update (getUserDisplayName m) (fun u =>
                { u with typing := false, lastActivity := n }) }) } = shape s :=
          shape_of_fields (roomNames_update_users _ _ _ _) rfl rfl
        split <;> exact key
      · rfl

theorem shape_updateStatus (s : State) (sid : String) (m : Message) (n : Nat) :
    shape (updateStatus s sid m n).1 = shape s := by
  unfold updateStatus
  simp only []
  split
  · rfl
  · exact shape_updateUserStatus _ _ _ _ _

theorem shape_sendMessage (s : State) (sid : String) (m : Message) (n : Nat) (t r : String) :
    shape (sendMessage s sid m n t r).1 = shape s := by
  unfold sendMessage
  simp only []
  split
  · rfl
  · split
    · rw [shape_createChatMessage]
      have h1 := shape_updateUserStatus s m.roomCode (getUserDisplayName m) "activo" n
      generalize updateUserStatus s m.roomCode (getUserDisplayName m) "activo" n = s1 at h1 ⊢
      have key : ∀ s2 : State, shape s2 = shape s →
          shape (match s2.rooms.get? m.roomCode with
            | none => (s2, ([] : List Emission))
            | some room =>
              if room.users.has (getUserDisplayName m) then
                ({ s2 with rooms := s2.rooms.update m.roomCode (fun r =>
                    { r with users := r.users.update (getUserDisplayName m) (fun u =>
                        { u with typing := false }) }) },
                 [Emission.toRoom m.roomCode
                    (.typingStatus m.roomCode (getUserDisplayName m) false)])
              else (s2, [])).1 = shape s := by
        intro s2 h2
        split
        · exact h2
        · split
          · rw [← h2]
            exact shape_of_fields (roomNames_update_users _ _ _ _) rfl rfl
          · exact h2
      apply key
      split
      · exact h1
      · exact h1
    · rfl

theorem shape_fireTimer (s : State) (t : Timer) : shape (fireTimer s t).1 = shape s := by
  unfold fireTimer
  split
  · rfl
  · simp only [updSock]
    split
    · rfl
    · split
      · split
        · exact shape_of_fields (roomNames_update_users _ _ _ _) rfl rfl
        · rfl
      · split
        · rfl
        · split <;> rfl

theorem has_delete_eq {α : Type} (m : JsMap α) (k k1 : String) :
    (m.delete k).has k1 = (m.has k1 && decide (k1 ≠ k)) := by
  unfold JsMap.has
  rw [JsMap.get?_delete]
  by_cases h : k1 = k <;> simp [h]

theorem liveHas_update (rooms : JsMap Room) (k : String) (f : Room → Room) (c n : String) :
    liveHas (rooms.update k f) c n =
      if c = k then ((rooms.get? c).map (fun r => (f r).users.has n)).getD false
      else liveHas rooms c n := by
  unfold liveHas
  rw [JsMap.get?_update]
  split
  · cases rooms.get? c <;> rfl
  · rfl

theorem liveHas_delete (rooms : JsMap Room) (k c n : String) :
    liveHas (rooms.delete k) c n = if c = k then false else liveHas rooms c n := by
  unfold liveHas
  rw [JsMap.get?_delete]
  split <;> rfl

theorem liveHas_set (rooms : JsMap Room) (k : String) (v : Room) (c n : String) :
    liveHas (rooms.set k v) c n = if c = k then v.users.has n else liveHas rooms c n := by
  unfold liveHas
  rw [JsMap.get?_set]
  split <;> rfl

theorem ghostHas_update (gs : JsMap (JsMap Participant)) (k : String)
    (f : JsMap Participant → JsMap Participant) (c n : String) :
    ghostHas (gs.update k f) c n =
      if c = k then ((gs.get? c).map (fun g => (f g).has n)).getD false
      else ghostHas gs c n := by
  unfold ghostHas
  rw [JsMap.get?_update]
  split
  · cases gs.get? c <;> rfl
  · rfl

theorem ghostHas_delete (gs : JsMap (JsMap Participant)) (k c n : String) :
    ghostHas (gs.delete k) c n = if c = k then false else ghostHas gs c n := by
  unfold ghostHas
  rw [JsMap.get?_delete]
  split <;> rfl

theorem ghostHas_set (gs : JsMap (JsMap Participant)) (k : String) (v : JsMap Participant)
    (c n : String) :
    ghostHas (gs.set k v) c n = if c = k then v.has n else ghostHas gs c n := by
  unfold ghostHas
  rw [JsMap.get?_set]
  split <;> rfl

theorem codesInv_createRoom (s : State) (k : String) (h : CodesInv s) :
    CodesInv (createRoom s k).1 := by
  intro c
  unfold createRoom
  dsimp only []
  rw [JsMap.has_set, JsMap.has_set, JsMap.has_set, (h c).1, (h c).2]
  exact ⟨rfl, rfl⟩

theorem ghostInv_createRoom (s : State) (k : String) (h : GhostInv s) :
    GhostInv (createRoom s k).1 := by
  intro c n
  unfold createRoom
  dsimp only []
  rw [liveHas_set, ghostHas_set]
  split
  · rfl
  · exact h c n

theorem codesInv_cleanupEmptyRoom (s : State) (k : String) (h : CodesInv s) :
    CodesInv (cleanupEmptyRoom s k) := by
  rcases cleanupEmptyRoom_cases s k with he | ⟨h1, h2, h3, _, _⟩
  · rw [he]; exact h
  · intro c
    rw [h1, h2, h3, has_delete_eq, has_delete_eq, has_delete_eq, (h c).1, (h c).2]
    exact ⟨rfl, rfl⟩

theorem ghostInv_cleanupEmptyRoom (s : State) (k : String) (h : GhostInv s) :
    GhostInv (cleanupEmptyRoom s k) := by
  rcases cleanupEmptyRoom_cases s k with he | ⟨h1, _, h3, _, _⟩
  · rw [he]; exact h
  · intro c n
    rw [h1, h3, liveHas_delete, ghostHas_delete]
    split
    · rfl
    · exact h c n

/-- The maps of the state after the voluntary removal of a live member. -/
theorem removeUserFromRoom_voluntary_maps (s : State) (c name : String) (n : Nat) {r : Room}
    (hr : s.rooms.get? c = some r) (hn : r.users.has name = true) :
    (removeUserFromRoom s c name true n).1.rooms =
        s.rooms.update c (fun r =>
          { r with users := r.users.delete name, userCount := r.userCount - 1 }) ∧
    (removeUserFromRoom s c name true n).1.roomParticipants =
        s.roomParticipants.update c (fun ps => ps.delete name) ∧
    (removeUserFromRoom s c name true n).1.roomMessages.keys = s.roomMessages.keys := by
  unfold removeUserFromRoom
  simp only [hr, hn, Bool.not_true, Bool.false_eq_true, if_false, if_true]
  unfold addNotificationToHistory
  split
  · exact ⟨rfl, rfl, rfl⟩
  · refine ⟨rfl, rfl, ?_⟩
    dsimp only []
    exact JsMap.keys_update _ _ _

theorem removeUserFromRoom_voluntary_cases (s : State) (c name : String) (n : Nat) :
    (removeUserFromRoom s c name true n).1 = s ∨
    ∃ r, s.rooms.get? c = some r ∧ r.users.has name = true := by
  unfold removeUserFromRoom
  split
  · exact Or.inl rfl
  · rename_i room hr
    split
    · exact Or.inl rfl
    · rename_i hn
      right
      refine ⟨room, hr, ?_⟩
      simpa using hn

theorem codesInv_removeUserFromRoom (s : State) (c name : String) (n : Nat)
    (h : CodesInv s) : CodesInv (removeUserFromRoom s c name true n).1 := by
  rcases removeUserFromRoom_voluntary_cases s c name n with he | ⟨r, hr, hn⟩
  · rw [he]; exact h
  · obtain ⟨h1, h2, h3⟩ := removeUserFromRoom_voluntary_maps s c name n hr hn
    intro k
    rw [h1, h2, JsMap.has_update, JsMap.has_update,
      has_eq_decide_mem_keys (removeUserFromRoom s c name true n).1.roomMessages, h3,
      ← has_eq_decide_mem_keys]
    exact h k

theorem ghostInv_removeUserFromRoom (s : State) (c name : String) (n : Nat)
    (h : GhostInv s) : GhostInv (removeUserFromRoom s c name true n).1 := by
  rcases removeUserFromRoom_voluntary_cases s c name n with he | ⟨r, hr, hn⟩
  · rw [he]; exact h
  · obtain ⟨h1, h2, _⟩ := removeUserFromRoom_voluntary_maps s c name n hr hn
    intro k x
    rw [h1, h2, liveHas_update, ghostHas_update]
    split
    · rename_i hk
      have hg := h k x
      unfold ghostHas liveHas at hg
      cases hgs : s.roomParticipants.get? k with
      | none =>
        rw [hgs] at hg
        cases hrs : s.rooms.get? k with
        | none => rfl
        | some r1 =>
          rw [hrs] at hg
          simp only [Option.map_none', Option.getD_none, Option.map_some',
            Option.getD_some] at hg ⊢
          rw [has_delete_eq, ← hg]; rfl
      | some g =>
        rw [hgs] at hg
        cases hrs : s.rooms.get? k with
        | none =>
          rw [hrs] at hg
          simp only [Option.map_none', Option.getD_none, Option.map_some',
            Option.getD_some] at hg ⊢
          rw [has_delete_eq, hg]; rfl
        | some r1 =>
          rw [hrs] at hg
          simp only [Option.map_some', Option.getD_some] at hg ⊢
          rw [has_delete_eq, has_delete_eq, hg]
    · exact h k x

theorem upsertLiveMember_ghosts (s : State) (sid c name : String) (n : Nat) :
    (upsertLiveMember s sid c name n).1.roomParticipants = s.roomParticipants := by
  unfold upsertLiveMember
  repeat' split
  all_goals rfl

theorem has_upsertParticipant (s : State) (sid c name : String) (n : Nat) (k : String) :
    (upsertParticipant s sid c name n).roomParticipants.has k = s.roomParticipants.has k := by
  unfold upsertParticipant
  simp only []
  split
  · dsimp only []; exact JsMap.has_update _ _ _ _
  · dsimp only []; exact JsMap.has_update _ _ _ _

theorem has_upsertLiveMember (s : State) (sid c name : String) (n : Nat) (k : String) :
    (upsertLiveMember s sid c name n).1.rooms.has k = s.rooms.has k := by
  have h := oidOf_upsertLiveMember s sid c name n k
  unfold oidOf at h
  unfold JsMap.has
  cases h1 : (upsertLiveMember s sid c name n).1.rooms.get? k <;>
    cases h2 : s.rooms.get? k <;> rw [h1, h2] at h <;> first | rfl | cases h

/-- The ghost upsert of `joinRoom` adds the display name to the ghost directory
of the room, and nothing else. -/
theorem ghostHas_upsertParticipant (s : State) (sid c name : String) (n : Nat)
    (hc : s.roomParticipants.has c = true) (k x : String) :
    ghostHas (upsertParticipant s sid c name n).roomParticipants k x =
      (ghostHas s.roomParticipants k x || (decide (k = c) && decide (x = name))) := by
  obtain ⟨g, hg⟩ := (JsMap.has_eq_true_iff _ _).mp hc
  unfold upsertParticipant
  simp only [hg, Option.getD_some]
  split
  · rename_i hn
    dsimp only []
    rw [ghostHas_update]
    split
    · rename_i hk
      subst hk
      unfold ghostHas
      rw [hg]
      simp only [Option.map_some', Option.getD_some, JsMap.has_set, decide_True, Bool.true_and]
    · rename_i hk
      simp [hk]
  · rename_i hn
    have hn1 : g.has name = true := by simpa using hn
    dsimp only []
    rw [ghostHas_update]
    split
    · rename_i hk
      subst hk
      unfold ghostHas
      rw [hg]
      simp only [Option.map_some', Option.getD_some, JsMap.has_update, decide_True,
        Bool.true_and]
      by_cases hx : x = name
      · rw [hx, hn1]; simp
      · simp [hx]
    · rename_i hk
      simp [hk]

/-- The live-member upsert of `joinRoom` adds the display name to the
live-member map of the room, and nothing else. -/
theorem liveHas_upsertLiveMember (s : State) (sid c name : String) (n : Nat)
    (hc : s.rooms.has c = true) (k x : String) :
    liveHas (upsertLiveMember s sid c name n).1.rooms k x =
      (liveHas s.rooms k x || (decide (k = c) && decide (x = name))) := by
  obtain ⟨r, hr⟩ := (JsMap.has_eq_true_iff _ _).mp hc
  unfold upsertLiveMember
  simp only [hr]
  split
  · dsimp only []
    rw [liveHas_update]
    split
    · rename_i hk
      subst hk
      unfold liveHas
      rw [hr]
      simp only [Option.map_some', Option.getD_some, JsMap.has_set, decide_True, Bool.true_and]
    · rename_i hk
      simp [hk]
  · rename_i hn
    have hn1 : r.users.has name = true := by simpa using hn
    dsimp only []
    rw [liveHas_update]
    split
    · rename_i hk
      subst hk
      unfold liveHas
      rw [hr]
      simp only [Option.map_some', Option.getD_some, JsMap.has_update, decide_True,
        Bool.true_and]
      by_cases hx : x = name
      · rw [hx, hn1]; simp
      · simp [hx]
    · rename_i hk
      simp [hk]

theorem codesInv_upsert (s : State) (sid c name : String) (n : Nat) (h : CodesInv s) :
    CodesInv (upsertLiveMember (upsertParticipant s sid c name n) sid c name n).1 := by
  intro k
  rw [upsertLiveMember_ghosts, upsertLiveMember_log, upsertParticipant_log,
    has_upsertLiveMember, rooms_upsertParticipant, has_upsertParticipant]
  exact h k

theorem ghostInv_upsert (s : State) (sid c name : String) (n : Nat)
    (hc : s.rooms.has c = true) (hg : s.roomParticipants.has c = true) (h : GhostInv s) :
    GhostInv (upsertLiveMember (upsertParticipant s sid c name n) sid c name n).1 := by
  intro k x
  rw [upsertLiveMember_ghosts,
    liveHas_upsertLiveMember _ sid c name n (by rw [rooms_upsertParticipant]; exact hc),
    rooms_upsertParticipant, ghostHas_upsertParticipant s sid c name n hg, h k x]

theorem codesInv_joinPrepare (s : State) (sid : String) (m : Message) (n : Nat)
    (h : CodesInv s) : CodesInv (joinPrepare s sid m n).1 := by
  unfold joinPrepare
  simp only []
  have h3 : CodesInv (updSock (leavePreviousRoom
      (reconnectionCheck s (userRoomKey (getUserDisplayName m) m.roomCode) n).1 sid
      (getUserDisplayName m) m.roomCode n).1 sid (fun k =>
      { k with currentRoom := some m.roomCode, currentUser := some m.userName,
               displayName := some (getUserDisplayName m) })) := by
    refine codesInv_of_shape ?_ h
    rw [shape_updSock, shape_leavePreviousRoom, shape_reconnectionCheck]
  generalize (updSock (leavePreviousRoom
    (reconnectionCheck s (userRoomKey (getUserDisplayName m) m.roomCode) n).1 sid
    (getUserDisplayName m) m.roomCode n).1 sid (fun k =>
    { k with currentRoom := some m.roomCode, currentUser := some m.userName,
             displayName := some (getUserDisplayName m) })) = s3 at h3 ⊢
  have h4 : CodesInv (if !s3.rooms.has m.roomCode then (createRoom s3 m.roomCode).1 else s3) ∧
      (if !s3.rooms.has m.roomCode then (createRoom s3 m.roomCode).1 else s3).rooms.has m.roomCode
        = true := by
    split
    · exact ⟨codesInv_createRoom _ _ h3, JsMap.has_set_same _ _ _⟩
    · rename_i hh
      exact ⟨h3, by simpa using hh⟩
  generalize (if !s3.rooms.has m.roomCode then (createRoom s3 m.roomCode).1 else s3) = s4 at h4 ⊢
  obtain ⟨h4, h4r⟩ := h4
  have hm : s4.roomMessages.has m.roomCode = true := by rw [(h4 m.roomCode).1]; exact h4r
  have hp : s4.roomParticipants.has m.roomCode = true := by rw [(h4 m.roomCode).2]; exact h4r
  simp only [hm, hp, Bool.not_true, Bool.false_eq_true, if_false]
  exact h4

theorem ghostInv_joinPrepare (s : State) (sid : String) (m : Message) (n : Nat)
    (hc : CodesInv s) (h : GhostInv s) : GhostInv (joinPrepare s sid m n).1 := by
  unfold joinPrepare
  simp only []
  have h3 : (CodesInv (updSock (leavePreviousRoom
      (reconnectionCheck s (userRoomKey (getUserDisplayName m) m.roomCode) n).1 sid
      (getUserDisplayName m) m.roomCode n).1 sid (fun k =>
      { k with currentRoom := some m.roomCode, currentUser := some m.userName,
               displayName := some (getUserDisplayName m) }))) ∧
      GhostInv (updSock (leavePreviousRoom
      (reconnectionCheck s (userRoomKey (getUserDisplayName m) m.roomCode) n).1 sid
      (getUserDisplayName m) m.roomCode n).1 sid (fun k =>
      { k with currentRoom := some m.roomCode, currentUser := some m.userName,
               displayName := some (getUserDisplayName m) })) := by
    have hs : shape (updSock (leavePreviousRoom
      (reconnectionCheck s (userRoomKey (getUserDisplayName m) m.roomCode) n).1 sid
      (getUserDisplayName m) m.roomCode n).1 sid (fun k =>
      { k with currentRoom := some m.roomCode, currentUser := some m.userName,
               displayName := some (getUserDisplayName m) })) = shape s := by
      rw [shape_updSock, shape_leavePreviousRoom, shape_reconnectionCheck]
    exact ⟨codesInv_of_shape hs hc, ghostInv_of_shape hs h⟩
  generalize (updSock (leavePreviousRoom
    (reconnectionCheck s (userRoomKey (getUserDisplayName m) m.roomCode) n).1 sid
    (getUserDisplayName m) m.roomCode n).1 sid (fun k =>
    { k with currentRoom := some m.roomCode, currentUser := some m.userName,
             displayName := some (getUserDisplayName m) })) = s3 at h3 ⊢
  obtain ⟨h3c, h3g⟩ := h3
  have h4 : (CodesInv (if !s3.rooms.has m.roomCode then (createRoom s3 m.roomCode).1 else s3) ∧
      (if !s3.rooms.has m.roomCode then (createRoom s3 m.roomCode).1 else s3).rooms.has m.roomCode
        = true) ∧
      GhostInv (if !s3.rooms.has m.roomCode then (createRoom s3 m.roomCode).1 else s3) := by
    split
    · exact ⟨⟨codesInv_createRoom _ _ h3c, JsMap.has_set_same _ _ _⟩,
        ghostInv_createRoom _ _ h3g⟩
    · rename_i hh
      exact ⟨⟨h3c, by simpa using hh⟩, h3g⟩
  generalize (if !s3.rooms.has m.roomCode then (createRoom s3 m.roomCode).1 else s3) = s4 at h4 ⊢
  obtain ⟨⟨h4, h4r⟩, h4g⟩ := h4
  have hm : s4.roomMessages.has m.roomCode = true := by rw [(h4 m.roomCode).1]; exact h4r
  have hp : s4.roomParticipants.has m.roomCode = true := by rw [(h4 m.roomCode).2]; exact h4r
  simp only [hm, hp, Bool.not_true, Bool.false_eq_true, if_false]
  exact h4g

theorem namesInv_of_shape {s s1 : State} (h : shape s1 = shape s) (hi : NamesInv s) :
    NamesInv s1 :=
  ⟨codesInv_of_shape h hi.1, ghostInv_of_shape h hi.2⟩

theorem isErrorEvent_of_isUserList {e : Emission} (h : isUserList e = true) :
    isErrorEvent e = false := by
  cases e with
  | toSocket sid p => simp [isUserList] at h
  | toRoom c p => cases p <;> first | rfl | simp [isUserList] at h

theorem userListFull_of_not_isUserList {e : Emission} (h : isUserList e = false) :
    userListFull e = true := by
  cases e with
  | toSocket sid p => rfl
  | toRoom c p => cases p <;> first | rfl | simp [isUserList] at h

theorem has_fst_of_mem {α : Type} {m : JsMap α} {p : String × α} (h : p ∈ m) :
    m.has p.1 = true :=
  (JsMap.has_iff_mem_keys m p.1).mpr (List.mem_map.mpr ⟨p, h, rfl⟩)

/-- When the ghost directory holds no name that the live-member map lacks, the
presence list is the list of the live members. -/
theorem presenceList_of_ghostInv (s : State) (c : String) (n : Nat) (room : Room)
    (hr : s.rooms.get? c = some room) (hg : GhostInv s) :
    ((s.roomParticipants.get? c).getD []).filter (fun p => !room.users.has p.1) = [] ∧
    presenceList s room c n = room.users.map liveEntry := by
  have hf : ((s.roomParticipants.get? c).getD []).filter
      (fun p => !room.users.has p.1) = [] := by
    rw [List.filter_eq_nil_iff]
    intro p hp
    have h1 := hg c p.1
    unfold liveHas at h1
    rw [hr] at h1
    simp only [Option.map_some', Option.getD_some] at h1
    rw [← h1]
    unfold ghostHas
    cases hgs : s.roomParticipants.get? c with
    | none => rw [hgs] at hp; cases hp
    | some g =>
      rw [hgs] at hp
      simp only [Option.getD_some] at hp
      simp [has_fst_of_mem hp]
  refine ⟨hf, ?_⟩
  unfold presenceList
  rw [hf]
  simp

theorem updateUserList_full (s : State) (c : String) (n : Nat)
    (hr : RoomsInv s.rooms) (hg : GhostInv s) :
    ∀ e ∈ updateUserList s c n, userListFull e = true := by
  unfold updateUserList
  split
  · intro e he; cases he
  · rename_i room hroom
    intro e he
    simp only [List.mem_singleton] at he
    rw [he, (presenceList_of_ghostInv s c n room hroom hg).2]
    have hok := hr.2 (c, room) (JsMap.get?_mem hroom)
    simp only [userListFull, List.length_map, decide_eq_true_eq]
    exact hok.2

theorem sendRecentMessageHistory_kind (s : State) (sid c name : String) :
    ∀ e ∈ sendRecentMessageHistory s sid c name,
      isErrorEvent e = false ∧ isUserList e = false := by
  unfold sendRecentMessageHistory
  simp only []
  repeat' split
  all_goals intro e he
  all_goals first
    | (simp only [List.mem_singleton] at he; rw [he]; exact ⟨rfl, rfl⟩)
    | cases he

theorem leavePreviousRoom_full (s : State) (sid name c : String) (n : Nat)
    (hr : RoomsInv s.rooms) (hg : GhostInv s) :
    ∀ e ∈ (leavePreviousRoom s sid name c n).2, userListFull e = true := by
  unfold leavePreviousRoom
  simp only []
  split
  · split
    · intro e he; cases he
    · split
      · exact updateUserList_full _ _ _ (inv_markDisconnected s _ _ _ hr)
          (ghostInv_of_shape (shape_markDisconnected _ _ _ _) hg)
      · intro e he; cases he
  · intro e he; cases he

theorem joinPrepare_full (s : State) (sid : String) (m : Message) (n : Nat)
    (hr : RoomsInv s.rooms) (hg : GhostInv s) :
    ∀ e ∈ (joinPrepare s sid m n).2.1, userListFull e = true := by
  unfold joinPrepare
  refine leavePreviousRoom_full _ _ _ _ _ ?_ ?_
  · rw [rooms_reconnectionCheck]; exact hr
  · exact ghostInv_of_shape (shape_reconnectionCheck _ _ _) hg

/-- An accepted or rejected `joinRoom` in a state with the invariants: they
hold afterwards, the join is not rejected, and no emission is an `error` or a
`userList` with ghost-only entries. -/
theorem joinRoomCore_names (s : State) (sid : String) (m : Message) (n : Nat)
    (hr : RoomsInv s.rooms) (hi : NamesInv s) :
    NamesInv (joinRoomCore s sid m n).1 ∧
    (joinRoomCore s sid m n).2.2.rejected = false ∧
    ∀ e ∈ (joinRoomCore s sid m n).2.1, isErrorEvent e = false ∧ userListFull e = true := by
  have hpe := joinPrepare_isUserList s sid m n
  have hpf := joinPrepare_full s sid m n hr hi.2
  have h6r := inv_joinPrepare s sid m n hr
  have h6c := codesInv_joinPrepare s sid m n hi.1
  have h6g := ghostInv_joinPrepare s sid m n hi.1 hi.2
  have h6h := joinPrepare_rooms_has s sid m n
  unfold joinRoomCore
  simp only []
  split
  · rename_i hrej
    rw [(hi.1 m.roomCode).2] at hrej
    cases hh : s.rooms.has m.roomCode <;> rw [hh] at hrej <;> simp at hrej
  · generalize joinPrepare s sid m n = pr at hpe hpf h6r h6c h6g h6h ⊢
    have hts : shape (trackUserConnection pr.1 m.roomCode (getUserDisplayName m) n).1 =
        shape pr.1 := shape_trackUserConnection _ _ _ _
    have htr : (trackUserConnection pr.1 m.roomCode (getUserDisplayName m) n).1.rooms =
        pr.1.rooms := rooms_trackUserConnection _ _ _ _
    have h7 := namesInv_of_shape hts ⟨h6c, h6g⟩
    have h8 : NamesInv (upsertLiveMember (upsertParticipant (trackUserConnection pr.1
        m.roomCode (getUserDisplayName m) n).1 sid m.roomCode (getUserDisplayName m) n) sid
        m.roomCode (getUserDisplayName m) n).1 := by
      refine ⟨codesInv_upsert _ _ _ _ _ h7.1, ghostInv_upsert _ _ _ _ _ ?_ ?_ h7.2⟩
      · rw [htr]; exact h6h
      · rw [(h7.1 m.roomCode).2, htr]; exact h6h
    have h8r : RoomsInv (upsertLiveMember (upsertParticipant (trackUserConnection pr.1
        m.roomCode (getUserDisplayName m) n).1 sid m.roomCode (getUserDisplayName m) n) sid
        m.roomCode (getUserDisplayName m) n).1.rooms := by
      apply inv_upsertLiveMember
      rw [rooms_upsertParticipant, htr]
      exact h6r
    generalize (upsertLiveMember (upsertParticipant (trackUserConnection pr.1 m.roomCode
        (getUserDisplayName m) n).1 sid m.roomCode (getUserDisplayName m) n) sid m.roomCode
        (getUserDisplayName m) n) = lm at h8 h8r ⊢
    generalize (trackUserConnection pr.1 m.roomCode (getUserDisplayName m) n).2 = tr
    have key : ∀ jn : State × List Emission, NamesInv jn.1 → RoomsInv jn.1.rooms →
        (∀ e ∈ jn.2, isErrorEvent e = false ∧ isUserList e = false) →
        NamesInv jn.1 ∧
        ∀ e ∈ pr.2.1 ++ jn.2 ++ updateUserList jn.1 m.roomCode n ++
          sendRecentMessageHistory jn.1 sid m.roomCode (getUserDisplayName m),
          isErrorEvent e = false ∧ userListFull e = true := by
      intro jn hn hri hje
      refine ⟨hn, ?_⟩
      intro e he
      rcases List.mem_append.mp he with he | he
      · rcases List.mem_append.mp he with he | he
        · rcases List.mem_append.mp he with he | he
          · exact ⟨isErrorEvent_of_isUserList (hpe e he), hpf e he⟩
          · exact ⟨(hje e he).1, userListFull_of_not_isUserList (hje e he).2⟩
        · exact ⟨isErrorEvent_of_isUserList (updateUserList_isUserList _ _ _ e he),
            updateUserList_full _ _ _ hri hn.2 e he⟩
      · have hk := sendRecentMessageHistory_kind _ _ _ _ e he
        exact ⟨hk.1, userListFull_of_not_isUserList hk.2⟩
    have hk := key (if (lm.2 && !pr.2.2) || tr.hadLeftVoluntarily then
        joinNotification lm.1 m.roomCode (getUserDisplayName m) n else (lm.1, []))
      (by
        split
        · exact namesInv_of_shape (shape_joinNotification _ _ _ _) h8
        · exact h8)
      (by
        split
        · rw [rooms_joinNotification]; exact h8r
        · exact h8r)
      (by
        split
        · intro e he
          unfold joinNotification at he
          simp only [List.mem_singleton] at he
          rw [he]; exact ⟨rfl, rfl⟩
        · intro e he; cases he)
    exact ⟨hk.1, rfl, hk.2⟩

theorem sendMessage_not_userList (s : State) (sid : String) (m : Message) (n : Nat)
    (t r : String) : ∀ e ∈ (sendMessage s sid m n t r).2, isUserList e = false := by
  unfold sendMessage
  simp only []
  repeat' split
  all_goals intro e he
  all_goals simp only [List.mem_append, List.mem_singleton, List.mem_cons, List.not_mem_nil,
    List.nil_append, or_false, false_or] at he
  all_goals first
    | exact absurd he id
    | (rcases he with he | he <;> rw [he] <;> rfl)
    | (rw [he]; rfl)

theorem typing_not_userList (s : State) (sid : String) (m : Message) (n : Nat) :
    ∀ e ∈ (typing s sid m n).2, isUserList e = false := by
  unfold typing
  simp only []
  repeat' split
  all_goals intro e he
  all_goals simp only [List.mem_singleton, List.not_mem_nil] at he
  all_goals first
    | exact absurd he id
    | (rw [he]; rfl)

theorem stopTyping_not_userList (s : State) (sid : String) (m : Message) (n : Nat) :
    ∀ e ∈ (stopTyping s sid m n).2, isUserList e = false := by
  unfold stopTyping
  simp only []
  repeat' split
  all_goals intro e he
  all_goals simp only [List.mem_singleton, List.not_mem_nil] at he
  all_goals first
    | exact absurd he id
    | (rw [he]; rfl)

theorem fireTimer_not_userList (s : State) (t : Timer) :
    ∀ e ∈ (fireTimer s t).2, isUserList e = false := by
  unfold fireTimer
  repeat' split
  all_goals intro e he
  all_goals simp only [List.mem_singleton, List.not_mem_nil] at he
  all_goals first
    | exact absurd he id
    | (rw [he]; rfl)

theorem updateStatus_names (s : State) (sid : String) (m : Message) (n : Nat)
    (hr : RoomsInv s.rooms) (hi : NamesInv s) :
    ∀ e ∈ (updateStatus s sid m n).2, userListFull e = true := by
  unfold updateStatus
  simp only []
  split
  · intro e he; cases he
  · exact updateUserList_full _ _ _ (inv_updateUserStatus s _ _ _ _ hr)
      (ghostInv_of_shape (shape_updateUserStatus _ _ _ _ _) hi.2)

theorem leaveRoom_names (s : State) (sid : String) (m : Message) (n : Nat)
    (hr : RoomsInv s.rooms) (hi : NamesInv s) :
    NamesInv (leaveRoom s sid m n).1 ∧ ∀ e ∈ (leaveRoom s sid m n).2, userListFull e = true := by
  have key : ∀ (lv : State × List Emission) (code : String),
      (NamesInv lv.1 ∧ ∀ e ∈ lv.2, userListFull e = true) →
      NamesInv (if (sockOf lv.1 sid).currentRoom = some code then
          updSock lv.1 sid (fun k => { k with currentRoom := none, currentUser := none })
        else lv.1) ∧ ∀ e ∈ lv.2, userListFull e = true := by
    intro lv code h
    refine ⟨?_, h.2⟩
    split
    · exact namesInv_of_shape (shape_updSock _ _ _) h.1
    · exact h.1
  unfold leaveRoom
  split
  · exact ⟨hi, fun e he => by cases he⟩
  · simp only []
    apply key
    split
    · exact ⟨hi, fun e he => by cases he⟩
    · split
      · refine ⟨⟨codesInv_cleanupEmptyRoom _ _ (codesInv_removeUserFromRoom _ _ _ _ hi.1),
          ghostInv_cleanupEmptyRoom _ _ (ghostInv_removeUserFromRoom _ _ _ _ hi.2)⟩, ?_⟩
        intro e he
        rcases List.mem_append.mp he with he | he
        · simp only [List.mem_singleton] at he
          rw [he]; rfl
        · exact updateUserList_full _ _ _ (inv_removeUserFromRoom s _ _ _ _ hr)
            (ghostInv_removeUserFromRoom _ _ _ _ hi.2) e he
      · exact ⟨hi, fun e he => by cases he⟩

theorem disconnect_names (s : State) (sid : String) (n : Nat)
    (hr : RoomsInv s.rooms) (hi : NamesInv s) :
    NamesInv (disconnect s sid n).1 ∧ ∀ e ∈ (disconnect s sid n).2, userListFull e = true := by
  unfold disconnect
  simp only []
  split
  · split
    · exact ⟨namesInv_of_shape rfl hi, fun e he => by cases he⟩
    · split
      · exact ⟨⟨codesInv_cleanupEmptyRoom _ _
            (codesInv_of_shape ((shape_markDisconnected _ _ _ _).trans rfl) hi.1),
          ghostInv_cleanupEmptyRoom _ _
            (ghostInv_of_shape ((shape_markDisconnected _ _ _ _).trans rfl) hi.2)⟩,
          updateUserList_full _ _ _ (inv_markDisconnected _ _ _ _ (by exact hr))
            (ghostInv_of_shape ((shape_markDisconnected _ _ _ _).trans rfl) hi.2)⟩
      · exact ⟨namesInv_of_shape rfl hi, fun e he => by cases he⟩
  · exact ⟨hi, fun e he => by cases he⟩

/-- One event keeps the invariants on codes and names, and every `userList` it
emits has `count` entries. -/
theorem namesInv_step (s : State) (n : Nat) (e : Event) (hr : RoomsInv s.rooms)
    (hi : NamesInv s) :
    NamesInv (step s n e).1 ∧ ∀ em ∈ (step s n e).2, userListFull em = true := by
  cases e with
  | connection sid =>
    simp only [step]; split
    · exact ⟨hi, fun e he => by cases he⟩
    · exact ⟨hi, fun e he => by cases he⟩
  | joinRoom sid m =>
    simp only [step]; split
    · have h := joinRoomCore_names s sid m n hr hi
      exact ⟨h.1, fun e he => (h.2.2 e he).2⟩
    · exact ⟨hi, fun e he => by cases he⟩
  | sendMessage sid m t r =>
    simp only [step]; split
    · exact ⟨namesInv_of_shape (shape_sendMessage s sid m n t r) hi, fun e he =>
        userListFull_of_not_isUserList (sendMessage_not_userList s sid m n t r e he)⟩
    · exact ⟨hi, fun e he => by cases he⟩
  | leaveRoom sid m =>
    simp only [step]; split
    · exact leaveRoom_names s sid m n hr hi
    · exact ⟨hi, fun e he => by cases he⟩
  | typing sid m =>
    simp only [step]; split
    · exact ⟨namesInv_of_shape (shape_typing s sid m n) hi, fun e he =>
        userListFull_of_not_isUserList (typing_not_userList s sid m n e he)⟩
    · exact ⟨hi, fun e he => by cases he⟩
  | stopTyping sid m =>
    simp only [step]; split
    · exact ⟨namesInv_of_shape (shape_stopTyping s sid m n) hi, fun e he =>
        userListFull_of_not_isUserList (stopTyping_not_userList s sid m n e he)⟩
    · exact ⟨hi, fun e he => by cases he⟩
  | updateStatus sid m =>
    simp only [step]; split
    · exact ⟨namesInv_of_shape (shape_updateStatus s sid m n) hi,
        updateStatus_names s sid m n hr hi⟩
    · exact ⟨hi, fun e he => by cases he⟩
  | disconnect sid =>
    simp only [step]; split
    · have h := disconnect_names s sid n hr hi
      exact ⟨namesInv_of_shape (shape_updSock _ _ _) h.1, h.2⟩
    · exact ⟨hi, fun e he => by cases he⟩
  | timeout hd =>
    simp only [step]
    split
    · exact ⟨hi, fun e he => by cases he⟩
    · exact ⟨namesInv_of_shape ((shape_fireTimer (clearTimeout s hd) _).trans
          (shape_clearTimeout s hd)) hi, fun e he =>
        userListFull_of_not_isUserList (fireTimer_not_userList _ _ e he)⟩

theorem reachable_namesInv {s : State} (h : Reachable s) : NamesInv s := by
  induction h with
  | init => exact ⟨fun c => ⟨rfl, rfl⟩, fun c name => rfl⟩
  | step s n e hs ih => exact (namesInv_step s n e (reachable_roomsInv hs) ih).1

/-- C21: in every state reachable from the empty initial state, `rooms`,
`roomMessages` and `roomParticipants` hold exactly the same room codes; so the
test of the rejection branch of `joinRoom` (no room, but a ghost directory) is
false for every code, no `joinRoom` is rejected, and no emission of a
`joinRoom` event is an `error` event. -/
theorem same_room_codes (s : State) (hs : Reachable s) :
    (∀ c, (c ∈ s.roomMessages.keys ↔ c ∈ s.rooms.keys) ∧
          (c ∈ s.roomParticipants.keys ↔ c ∈ s.rooms.keys)) ∧
    (∀ c, (!s.rooms.has c && s.roomParticipants.has c) = false) ∧
    (∀ sid m now,
      (joinRoomCore s sid m now).2.2.rejected = false ∧
      (∀ e ∈ (joinRoom s sid m now).2, isErrorEvent e = false) ∧
      ∀ e ∈ (step s now (.joinRoom sid m)).2, isErrorEvent e = false) := by
  have hi := reachable_namesInv hs
  have hr := reachable_roomsInv hs
  refine ⟨?_, ?_, ?_⟩
  · intro c
    rw [← JsMap.has_iff_mem_keys, ← JsMap.has_iff_mem_keys, ← JsMap.has_iff_mem_keys,
      (hi.1 c).1, (hi.1 c).2]
    exact ⟨Iff.rfl, Iff.rfl⟩
  · intro c
    rw [(hi.1 c).2]
    cases s.rooms.has c <;> rfl
  · intro sid m now
    have h := joinRoomCore_names s sid m now hr hi
    refine ⟨h.2.1, fun e he => (h.2.2 e he).1, ?_⟩
    simp only [step]
    split
    · exact fun e he => (h.2.2 e he).1
    · intro e he; cases he

/-- Witness of C21: after alice and bob joined room `ABC` and bob dropped, the
three maps hold the code `ABC` and no other, and a join of bob from a new
connection emits no `error`. -/
theorem same_room_codes_witness :
    (run State.init traceJoinDisconnect).1.rooms.keys = ["ABC"] ∧
    (run State.init traceJoinDisconnect).1.roomMessages.keys = ["ABC"] ∧
    (run State.init traceJoinDisconnect).1.roomParticipants.keys = ["ABC"] ∧
    ∀ e ∈ (step (run State.init traceJoinDisconnect).1 2500 (.joinRoom "s1" msgBob)).2,
      isErrorEvent e = false :=
  ⟨by decide, by decide, by decide,
   ((same_room_codes (run State.init traceJoinDisconnect).1
      (reachable_run traceJoinDisconnect _ Reachable.init)).2.2 "s1" msgBob 2500).2.2⟩

theorem liveHas_iff_memberOf (rooms : JsMap Room) (c name : String) :
    liveHas rooms c name = true ↔ MemberOf rooms c name := by
  unfold liveHas MemberOf
  cases rooms.get? c with
  | none => simp
  | some r => simp

theorem liveHas_false_of_notMember {rooms : JsMap Room} {c name : String}
    (h : NotMemberOf rooms c name) : liveHas rooms c name = false := by
  unfold liveHas
  cases hr : rooms.get? c with
  | none => rfl
  | some r => exact h r hr

/-- A disconnect in a state with the counter invariant changes no code and no
name: the cleanup at its end finds the disconnected name still counted. -/
theorem shape_disconnect (s : State) (sid : String) (n : Nat) (hr : RoomsInv s.rooms) :
    shape (disconnect s sid n).1 = shape s := by
  unfold disconnect
  simp only []
  split
  · split
    · rfl
    · rename_i room hroom
      split
      · rename_i hn
        dsimp only []
        rw [(disconnect_cleanup_noop _ _ _ n (by exact hr) ⟨room, hroom, hn⟩).2]
        exact (shape_markDisconnected _ _ _ _).trans rfl
      · rfl
  · rfl

theorem leaveRoom_rooms_of_not_member (s : State) (sid : String) (m : Message) (n : Nat)
    (h : ¬ MemberOf s.rooms m.roomCode (getUserDisplayName m)) :
    (leaveRoom s sid m n).1.rooms = s.rooms := by
  have key : ∀ (lv : State × List Emission) (code : String), lv.1.rooms = s.rooms →
      (if (sockOf lv.1 sid).currentRoom = some code then
          updSock lv.1 sid (fun k => { k with currentRoom := none, currentUser := none })
        else lv.1).rooms = s.rooms := by
    intro lv code hl
    split <;> exact hl
  unfold leaveRoom
  split
  · rfl
  · simp only []
    apply key
    split
    · rfl
    · rename_i room hroom
      split
      · rename_i hn
        exact absurd ⟨room, hroom, hn⟩ h
      · rfl

/-- C22: in every state reachable from the empty initial state, every room has
a ghost directory and it holds exactly the display names of the room's
live-member map. So the ghost-only part of `updateUserList` is empty: the
presence list is the list of the live members and has `userCount` entries, and
every `userList` emitted by any event has as many `users` as its `count`. A
disconnect changes no name in either map, an accepted join puts the name in
both, and a voluntary leave leaves it in neither. -/
theorem ghosts_eq_live_members (s : State) (hs : Reachable s) :
    (∀ c room, s.rooms.get? c = some room →
      ∃ ghosts, s.roomParticipants.get? c = some ghosts ∧
        (∀ name, name ∈ ghosts.keys ↔ name ∈ room.users.keys) ∧
        ghosts.filter (fun p => !room.users.has p.1) = [] ∧
        ∀ now,
          presenceList s room c now = room.users.map liveEntry ∧
          ((presenceList s room c now).length : Int) = room.userCount ∧
          updateUserList s c now =
            [.toRoom c (.userList c room.userCount (connectedCount room)
              (room.users.map liveEntry))]) ∧
    (∀ now e, ∀ em ∈ (step s now e).2, ∀ c1 c2 count active users,
      em = Emission.toRoom c1 (.userList c2 count active users) →
        count = (users.length : Int)) ∧
    (∀ now sid, shape (step s now (.disconnect sid)).1 = shape s) ∧
    (∀ now sid m, isLive s sid = true →
      liveHas (step s now (.joinRoom sid m)).1.rooms m.roomCode
        (getUserDisplayName m) = true ∧
      ghostHas (step s now (.joinRoom sid m)).1.roomParticipants m.roomCode
        (getUserDisplayName m) = true) ∧
    (∀ now sid m, isLive s sid = true → m.roomCode ≠ "" →
      liveHas (step s now (.leaveRoom sid m)).1.rooms m.roomCode
        (getUserDisplayName m) = false ∧
      ghostHas (step s now (.leaveRoom sid m)).1.roomParticipants m.roomCode
        (getUserDisplayName m) = false) := by
  have hi := reachable_namesInv hs
  have hr := reachable_roomsInv hs
  refine ⟨?_, ?_, ?_, ?_, ?_⟩
  · intro c room hroom
    have hhas : s.roomParticipants.has c = true := by
      rw [(hi.1 c).2]; exact JsMap.has_of_get? hroom
    obtain ⟨ghosts, hg⟩ := (JsMap.has_eq_true_iff _ _).mp hhas
    have hp := presenceList_of_ghostInv s c
    refine ⟨ghosts, hg, ?_, ?_, ?_⟩
    · intro name
      have h1 := hi.2 c name
      unfold ghostHas liveHas at h1
      rw [hg, hroom] at h1
      simp only [Option.map_some', Option.getD_some] at h1
      rw [← JsMap.has_iff_mem_keys, ← JsMap.has_iff_mem_keys, h1]
    · have h1 := (hp 0 room hroom hi.2).1
      rw [hg] at h1
      exact h1
    · intro now
      have h1 := (hp now room hroom hi.2).2
      have hok := hr.2 (c, room) (JsMap.get?_mem hroom)
      refine ⟨h1, ?_, ?_⟩
      · rw [h1, List.length_map]; exact hok.2.symm
      · unfold updateUserList
        simp only [hroom]
        rw [h1]
  · intro now e em hem c1 c2 count active users heq
    have h := (namesInv_step s now e hr hi).2 em hem
    rw [heq] at h
    simpa [userListFull] using h
  · intro now sid
    simp only [step]
    split
    · exact (shape_updSock _ _ _).trans (shape_disconnect s sid now hr)
    · rfl
  · intro now sid m hlive
    have hn := (namesInv_step s now (.joinRoom sid m) hr hi).1
    have hj := joinRoomCore_names s sid m now hr hi
    have hm := (joinRoomCore_post s sid m now hj.2.1).1
    have hl : liveHas (step s now (.joinRoom sid m)).1.rooms m.roomCode
        (getUserDisplayName m) = true := by
      simp only [step, hlive, if_true]
      exact (liveHas_iff_memberOf _ _ _).mpr hm
    exact ⟨hl, (hn.2 _ _).trans hl⟩
  · intro now sid m hlive hcode
    have hn := (namesInv_step s now (.leaveRoom sid m) hr hi).1
    have hl : liveHas (step s now (.leaveRoom sid m)).1.rooms m.roomCode
        (getUserDisplayName m) = false := by
      simp only [step, hlive, if_true]
      by_cases hm : MemberOf s.rooms m.roomCode (getUserDisplayName m)
      · exact liveHas_false_of_notMember (leaveRoom_post s sid m now hcode hm).1
      · rw [leaveRoom_rooms_of_not_member s sid m now hm]
        cases hh : liveHas s.rooms m.roomCode (getUserDisplayName m)
        · rfl
        · exact absurd ((liveHas_iff_memberOf _ _ _).mp hh) hm
    exact ⟨hl, (hn.2 _ _).trans hl⟩

/-- Witness of C22: after alice and bob joined room `ABC` and bob dropped, the
live-member map and the ghost directory both hold alice and bob, and the
presence list has the two entries that `userCount` counts. -/
theorem ghosts_eq_live_members_witness :
    (run State.init traceJoinDisconnect).1.rooms.get? "ABC" = some roomAfterDisconnect ∧
    ((run State.init traceJoinDisconnect).1.roomParticipants.get? "ABC").map
      (fun g => g.keys) = some ["alice", "bob"] ∧
    roomAfterDisconnect.users.keys = ["alice", "bob"] ∧
    (∃ ghosts, (run State.init traceJoinDisconnect).1.roomParticipants.get? "ABC" =
        some ghosts ∧
      (∀ name, name ∈ ghosts.keys ↔ name ∈ roomAfterDisconnect.users.keys) ∧
      ghosts.filter (fun p => !roomAfterDisconnect.users.has p.1) = [] ∧
      ∀ now,
        presenceList (run State.init traceJoinDisconnect).1 roomAfterDisconnect "ABC" now =
          roomAfterDisconnect.users.map liveEntry ∧
        ((presenceList (run State.init traceJoinDisconnect).1 roomAfterDisconnect "ABC"
          now).length : Int) = roomAfterDisconnect.userCount ∧
        updateUserList (run State.init traceJoinDisconnect).1 "ABC" now =
          [.toRoom "ABC" (.userList "ABC" roomAfterDisconnect.userCount
            (connectedCount roomAfterDisconnect)
            (roomAfterDisconnect.users.map liveEntry))]) :=
  ⟨by decide, by decide, by decide,
   (ghosts_eq_live_members (run State.init traceJoinDisconnect).1
      (reachable_run traceJoinDisconnect _ Reachable.init)).1 "ABC" roomAfterDisconnect
      (by decide)⟩

/-! ## C4: a foreign `leaveRoom` makes a reconnection noisy -/

/-- C4 fails on the code: `a_b` joined room `c` at 1000 and never left it; its
connection drops at 3500 and it joins again at 4000, 500 ms later. In between
`a`, another participant, left the other room `b_c`, which deleted the
JoinRecord of `(a_b, c)` (both pairs have the key `a_b_c`). So the re-join has
`hadLeftVoluntarily = true` although it is recognised as a reconnection: the
join notification is appended to the history and broadcast, and the JoinRecord
goes from 1000 to 4000. -/
theorem reconnect_after_foreign_leave_notifies :
    (run State.init traceCollision).1.userJoinTimestamps.get? (userRoomKey "a_b" "c")
      = some 1000 ∧
    (run State.init traceForeignLeave).1.userJoinTimestamps.get? (userRoomKey "a_b" "c")
      = none ∧
    ((run State.init traceForeignLeave).1.rooms.get? "c").map (fun r => r.users.has "a_b")
      = some true ∧
    (run State.init traceForeignLeave).1.recentDisconnections.get? (userRoomKey "a_b" "c")
      = some 3500 ∧
    (joinRoomCore (run State.init traceForeignLeave).1 "s3" msgUnderscore 4000).2.2 =
      { rejected := false, isReconnection := true, isNewUser := false,
        isFirstTimeJoining := true, hadLeftVoluntarily := true } ∧
    Emission.toRoom "c" (.messageNotice "c" "a_b ha ingresado a la sala." 4000) ∈
      (step (run State.init traceForeignLeave).1 4000 (.joinRoom "s3" msgUnderscore)).2 ∧
    historyOf (run State.init traceForeignLeave).1 "c" =
      [.notification 1000 "a_b ha ingresado a la sala."] ∧
    historyOf (step (run State.init traceForeignLeave).1 4000
        (.joinRoom "s3" msgUnderscore)).1 "c" =
      [.notification 1000 "a_b ha ingresado a la sala.",
       .notification 4000 "a_b ha ingresado a la sala."] ∧
    (step (run State.init traceForeignLeave).1 4000
        (.joinRoom "s3" msgUnderscore)).1.userJoinTimestamps.get? (userRoomKey "a_b" "c")
      = some 4000 := by
  refine ⟨by decide, by decide, by decide, by decide, by decide, by decide, by decide,
    by decide, by decide⟩

/-! ## C8: the reconnection check and the next join -/

theorem recent_removeUserFromRoom (s : State) (c name : String) (v : Bool) (n : Nat) :
    (removeUserFromRoom s c name v n).1.recentDisconnections = s.recentDisconnections := by
  unfold removeUserFromRoom
  simp only []
  repeat' split
  all_goals simp

theorem recent_cleanupEmptyRoom (s : State) (c : String) :
    (cleanupEmptyRoom s c).recentDisconnections = s.recentDisconnections := by
  unfold cleanupEmptyRoom
  simp only []
  repeat' split
  all_goals rfl

theorem recent_updateUserStatus (s : State) (c name st : String) (n : Nat) :
    (updateUserStatus s c name st n).recentDisconnections = s.recentDisconnections := by
  unfold updateUserStatus
  split <;> rfl

theorem recent_sendMessage (s : State) (sid : String) (m : Message) (n : Nat) (t r : String) :
    (sendMessage s sid m n t r).1.recentDisconnections = s.recentDisconnections := by
  unfold sendMessage
  simp only []
  repeat' split
  all_goals simp [createChatMessage, updSock, clearTimeout, recent_updateUserStatus]

theorem recent_leaveRoom (s : State) (sid : String) (m : Message) (n : Nat) :
    (leaveRoom s sid m n).1.recentDisconnections = s.recentDisconnections := by
  unfold leaveRoom
  simp only []
  repeat' split
  all_goals simp [updSock, recent_cleanupEmptyRoom, recent_removeUserFromRoom]

theorem recent_typing (s : State) (sid : String) (m : Message) (n : Nat) :
    (typing s sid m n).1.recentDisconnections = s.recentDisconnections := by
  unfold typing
  simp only []
  repeat' split
  all_goals rfl

theorem recent_stopTyping (s : State) (sid : String) (m : Message) (n : Nat) :
    (stopTyping s sid m n).1.recentDisconnections = s.recentDisconnections := by
  unfold stopTyping
  simp only []
  repeat' split
  all_goals rfl

theorem recent_updateStatus (s : State) (sid : String) (m : Message) (n : Nat) :
    (updateStatus s sid m n).1.recentDisconnections = s.recentDisconnections := by
  unfold updateStatus
  simp only []
  split
  · rfl
  · exact recent_updateUserStatus _ _ _ _ _

theorem joinRoomCore_of_rejected (s : State) (sid : String) (m : Message) (n : Nat)
    (h : (joinRoomCore s sid m n).2.2.rejected = true) : (joinRoomCore s sid m n).1 = s := by
  unfold joinRoomCore at h ⊢
  simp only [] at h ⊢
  split
  · rfl
  · rename_i hc
    rw [if_neg hc] at h
    simp at h

/-- A `joinRoom` stores no disconnect record: a record found afterwards was
there before. -/
theorem record_of_joinRoomCore (s : State) (sid : String) (m : Message) (n : Nat)
    (k : String) (d : Nat)
    (h : (joinRoomCore s sid m n).1.recentDisconnections.get? k = some d) :
    s.recentDisconnections.get? k = some d := by
  cases hrej : (joinRoomCore s sid m n).2.2.rejected with
  | true => rw [joinRoomCore_of_rejected s sid m n hrej] at h; exact h
  | false =>
    rw [recent_joinRoomCore s sid m n hrej] at h
    cases hb : (reconnectionCheck s (userRoomKey (getUserDisplayName m) m.roomCode) n).2 with
    | true =>
      rw [reconnectionCheck_cleared _ _ _ hb, JsMap.get?_delete] at h
      split at h
      · cases h
      · exact h
    | false =>
      rw [reconnectionCheck_kept _ _ _ hb] at h
      exact h

theorem recent_disconnect (s : State) (sid : String) (n : Nat) :
    (disconnect s sid n).1.recentDisconnections =
      if truthyStr (sockOf s sid).currentRoom && truthyStr (sockOf s sid).currentUser then
        s.recentDisconnections.set
          (userRoomKey (disconnectName (sockOf s sid)) ((sockOf s sid).currentRoom.getD "")) n
      else s.recentDisconnections := by
  unfold disconnect
  simp only []
  split
  · split
    · rfl
    · split
      · dsimp only []
        rw [recent_cleanupEmptyRoom, recent_markDisconnected]
        rfl
      · rfl
  · rfl

theorem record_of_fireTimer (s : State) (t : Timer) (k : String) (d : Nat)
    (h : (fireTimer s t).1.recentDisconnections.get? k = some d) :
    s.recentDisconnections.get? k = some d := by
  unfold fireTimer at h
  split at h
  · dsimp only [] at h
    rw [JsMap.get?_delete] at h
    split at h
    · cases h
    · exact h
  · simp only [updSock] at h
    revert h
    repeat' split
    all_goals exact fun h => h

/-- An event that does not store a disconnect record under `k` creates none: a
record found under `k` afterwards was there before, with the same value. -/
theorem record_of_step (s : State) (n : Nat) (e : Event) (k : String)
    (hno : storesRecord k s e = false) (d : Nat)
    (h : (step s n e).1.recentDisconnections.get? k = some d) :
    s.recentDisconnections.get? k = some d := by
  cases e with
  | connection sid =>
    simp only [step] at h
    split at h <;> exact h
  | joinRoom sid m =>
    simp only [step] at h
    split at h
    · exact record_of_joinRoomCore s sid m n k d h
    · exact h
  | sendMessage sid m t r =>
    simp only [step] at h
    split at h
    · rw [recent_sendMessage] at h; exact h
    · exact h
  | leaveRoom sid m =>
    simp only [step] at h
    split at h
    · rw [recent_leaveRoom] at h; exact h
    · exact h
  | typing sid m =>
    simp only [step] at h
    split at h
    · rw [recent_typing] at h; exact h
    · exact h
  | stopTyping sid m =>
    simp only [step] at h
    split at h
    · rw [recent_stopTyping] at h; exact h
    · exact h
  | updateStatus sid m =>
    simp only [step] at h
    split at h
    · rw [recent_updateStatus] at h; exact h
    · exact h
  | disconnect sid =>
    simp only [step] at h
    split at h
    · rename_i hlive
      have h1 : (disconnect s sid n).1.recentDisconnections.get? k = some d := h
      rw [recent_disconnect] at h1
      split at h1
      · rename_i htr
        have hne : k ≠ userRoomKey (disconnectName (sockOf s sid))
            ((sockOf s sid).currentRoom.getD "") := by
          intro heq
          simp only [storesRecord, disconnectKey, hlive, htr, Bool.and_self, if_true,
            decide_eq_false_iff_not] at hno
          exact hno (by rw [heq])
        rw [JsMap.get?_set_ne _ _ hne] at h1
        exact h1
      · exact h1
    · exact h
  | timeout hd =>
    simp only [step] at h
    split at h
    · exact h
    · exact record_of_fireTimer (clearTimeout s hd) _ k d h

theorem record_of_steps (es : List (Nat × Event)) (s : State) (k : String)
    (hno : noRecordStored k s es = true) (d : Nat)
    (h : (steps s es).recentDisconnections.get? k = some d) :
    s.recentDisconnections.get? k = some d := by
  induction es generalizing s with
  | nil => exact h
  | cons p rest ih =>
    obtain ⟨t, e⟩ := p
    simp only [noRecordStored, Bool.and_eq_true, Bool.not_eq_true'] at hno
    exact record_of_step s t e k hno.1 d (ih (step s t e).1 hno.2 h)

/-- C8 as amended: the reconnection check of an accepted `joinRoom` for key
`(displayName, roomCode)` at time `now` yields true iff a disconnect record `d`
exists for the key with `now - d < 10000` and `d` is not 0; since `Date.now()`
never gives 0, this is: iff a record exists with `now - d < 10000`. A check
that yields true deletes the record and a check that yields false leaves the
state as it was; in both cases a later `joinRoom` for the same key, at a time
not earlier, is not recognised as a reconnection, whatever events happen in
between, as long as none of them is a disconnect that stores a record under
that key. -/
theorem reconnection_check_once (s : State) (sid : String) (m : Message) (now : Nat)
    (hacc : (joinRoomCore s sid m now).2.2.rejected = false) :
    ((joinRoomCore s sid m now).2.2.isReconnection = true ↔
      ∃ d, s.recentDisconnections.get? (userRoomKey (getUserDisplayName m) m.roomCode) = some d ∧
        d ≠ 0 ∧ (now : Int) - (d : Int) < 10000) ∧
    ((∀ d, s.recentDisconnections.get? (userRoomKey (getUserDisplayName m) m.roomCode)
        = some d → d ≠ 0) →
      ((joinRoomCore s sid m now).2.2.isReconnection = true ↔
        ∃ d, s.recentDisconnections.get? (userRoomKey (getUserDisplayName m) m.roomCode)
          = some d ∧ (now : Int) - (d : Int) < 10000)) ∧
    ((joinRoomCore s sid m now).2.2.isReconnection = true →
      (joinRoomCore s sid m now).1.recentDisconnections =
        s.recentDisconnections.delete (userRoomKey (getUserDisplayName m) m.roomCode)) ∧
    ((joinRoomCore s sid m now).2.2.isReconnection = false →
      (joinRoomCore s sid m now).1.recentDisconnections = s.recentDisconnections) ∧
    (∀ (es : List (Nat × Event)) (sid2 : String) (m2 : Message) (now2 : Nat), now ≤ now2 →
      userRoomKey (getUserDisplayName m2) m2.roomCode =
        userRoomKey (getUserDisplayName m) m.roomCode →
      noRecordStored (userRoomKey (getUserDisplayName m) m.roomCode)
        (joinRoomCore s sid m now).1 es = true →
      (joinRoomCore (steps (joinRoomCore s sid m now).1 es) sid2 m2 now2).2.2.isReconnection
        = false) := by
  have hre := isReconnection_joinRoomCore s sid m now
  rw [hacc] at hre
  simp only [Bool.false_eq_true, if_false] at hre
  have hrec := recent_joinRoomCore s sid m now hacc
  have hiff : (joinRoomCore s sid m now).2.2.isReconnection = true ↔
      ∃ d, s.recentDisconnections.get? (userRoomKey (getUserDisplayName m) m.roomCode) = some d ∧
        d ≠ 0 ∧ (now : Int) - (d : Int) < 10000 := by
    rw [hre, reconnectionCheck_true_iff]
    rfl
  refine ⟨hiff, ?_, ?_, ?_, ?_⟩
  · intro hpos
    rw [hiff]
    constructor
    · rintro ⟨d, hd, _, hw⟩
      exact ⟨d, hd, hw⟩
    · rintro ⟨d, hd, hw⟩
      exact ⟨d, hd, hpos d hd, hw⟩
  · intro h
    rw [hre] at h
    rw [hrec, reconnectionCheck_cleared _ _ _ h]
  · intro h
    rw [hre] at h
    rw [hrec, reconnectionCheck_kept _ _ _ h]
  · intro es sid2 m2 now2 hle hkey hno
    have h2 := isReconnection_joinRoomCore (steps (joinRoomCore s sid m now).1 es) sid2 m2 now2
    rw [h2]
    split
    · rfl
    · rw [hkey]
      cases hb : (reconnectionCheck (steps (joinRoomCore s sid m now).1 es)
          (userRoomKey (getUserDisplayName m) m.roomCode) now2).2 with
      | false => rfl
      | true =>
        exfalso
        obtain ⟨d, hd, hd0, hw⟩ := (reconnectionCheck_true_iff _ _ _).mp hb
        have hd1 := record_of_steps es _ _ hno d hd
        rw [hrec] at hd1
        cases h1 : (reconnectionCheck s (userRoomKey (getUserDisplayName m) m.roomCode) now).2 with
        | true =>
          rw [reconnectionCheck_cleared _ _ _ h1, JsMap.get?_delete_same] at hd1
          cases hd1
        | false =>
          rw [reconnectionCheck_kept _ _ _ h1] at hd1
          have hnot : ¬ ∃ d, s.recentDisconnections.get?
              (userRoomKey (getUserDisplayName m) m.roomCode) = some d ∧ d ≠ 0 ∧
              (now : Int) - (d : Int) < (RECONNECTION_WINDOW : Int) := by
            rw [← reconnectionCheck_true_iff, h1]
            simp
          apply hnot
          refine ⟨d, hd1, hd0, ?_⟩
          have : (now : Int) ≤ (now2 : Int) := by exact_mod_cast hle
          omega

/-- Witness of the amended C8: alice dropped at 2000; the join at 2500 is
recognised as a reconnection and clears the record; then alice types, and bob
connects, joins and drops; a second join of alice at 3000 is not recognised. -/
theorem reconnection_check_once_witness :
    (joinRoomCore (run State.init traceAliceDropped).1 "s2" msgAlice 2500).2.2.rejected = false ∧
    (joinRoomCore (run State.init traceAliceDropped).1 "s2" msgAlice 2500).2.2.isReconnection
      = true ∧
    (joinRoomCore (steps (joinRoomCore (run State.init traceAliceDropped).1 "s2" msgAlice 2500).1
        [(2600, .typing "s2" msgAlice), (2700, .connection "s3"),
         (2750, .joinRoom "s3" msgBob), (2800, .disconnect "s3")])
      "s2" msgAlice 3000).2.2.isReconnection = false :=
  ⟨by decide, by decide,
   (reconnection_check_once (run State.init traceAliceDropped).1 "s2" msgAlice 2500
      (by decide)).2.2.2.2 _ "s2" msgAlice 3000 (by decide) rfl (by decide)⟩

/-! ## C12: what `createRoom` does, and how the caller protects a room -/

theorem has_of_ghostHas {gs : JsMap (JsMap Participant)} {c x : String}
    (h : ghostHas gs c x = true) : gs.has c = true := by
  unfold ghostHas at h
  unfold JsMap.has
  cases hg : gs.get? c with
  | none => rw [hg] at h; cases h
  | some g => rfl

/-- The first half of a join to an existing room keeps every name of every
ghost directory, and afterwards the room has a ghost directory. -/
theorem ghostHas_joinPrepare (s : State) (sid : String) (m : Message) (n : Nat)
    (hc : s.rooms.has m.roomCode = true) :
    (∀ k x, ghostHas s.roomParticipants k x = true →
      ghostHas (joinPrepare s sid m n).1.roomParticipants k x = true) ∧
    (joinPrepare s sid m n).1.roomParticipants.has m.roomCode = true := by
  unfold joinPrepare
  simp only []
  have h3 : (∀ k x, ghostHas s.roomParticipants k x = true →
      ghostHas (updSock (leavePreviousRoom
        (reconnectionCheck s (userRoomKey (getUserDisplayName m) m.roomCode) n).1 sid
        (getUserDisplayName m) m.roomCode n).1 sid (fun k =>
        { k with currentRoom := some m.roomCode, currentUser := some m.userName,
                 displayName := some (getUserDisplayName m) })).roomParticipants k x = true) ∧
      (updSock (leavePreviousRoom
        (reconnectionCheck s (userRoomKey (getUserDisplayName m) m.roomCode) n).1 sid
        (getUserDisplayName m) m.roomCode n).1 sid (fun k =>
        { k with currentRoom := some m.roomCode, currentUser := some m.userName,
                 displayName := some (getUserDisplayName m) })).rooms.has m.roomCode = true := by
    have hs : shape (updSock (leavePreviousRoom
        (reconnectionCheck s (userRoomKey (getUserDisplayName m) m.roomCode) n).1 sid
        (getUserDisplayName m) m.roomCode n).1 sid (fun k =>
        { k with currentRoom := some m.roomCode, currentUser := some m.userName,
                 displayName := some (getUserDisplayName m) })) = shape s := by
      rw [shape_updSock, shape_leavePreviousRoom, shape_reconnectionCheck]
    obtain ⟨h1, _, _, _, h5⟩ := obs_of_shape_eq hs
    exact ⟨fun k x hx => by rw [h5]; exact hx, by rw [h1]; exact hc⟩
  generalize (updSock (leavePreviousRoom
    (reconnectionCheck s (userRoomKey (getUserDisplayName m) m.roomCode) n).1 sid
    (getUserDisplayName m) m.roomCode n).1 sid (fun k =>
    { k with currentRoom := some m.roomCode, currentUser := some m.userName,
             displayName := some (getUserDisplayName m) })) = s3 at h3 ⊢
  obtain ⟨h3g, h3r⟩ := h3
  simp only [h3r, Bool.not_true, Bool.false_eq_true, if_false]
  have h5 : ∀ k x, ghostHas s.roomParticipants k x = true →
      ghostHas (if !s3.roomMessages.has m.roomCode then
        { s3 with roomMessages := s3.roomMessages.set m.roomCode [] }
        else s3).roomParticipants k x = true := by
    intro k x hx
    split <;> exact h3g k x hx
  generalize (if !s3.roomMessages.has m.roomCode then
    { s3 with roomMessages := s3.roomMessages.set m.roomCode [] } else s3) = s5 at h5 ⊢
  split
  · rename_i hh
    have hno : s5.roomParticipants.has m.roomCode = false := by simpa using hh
    refine ⟨?_, JsMap.has_set_same _ _ _⟩
    intro k x hx
    have h := h5 k x hx
    dsimp only []
    rw [ghostHas_set]
    split
    · rename_i hk
      rw [hk] at h
      rw [has_of_ghostHas h] at hno
      cases hno
    · exact h
  · rename_i hh
    exact ⟨h5, by simpa using hh⟩

/-- A join to an existing room keeps every name of every ghost directory. -/
theorem ghostHas_joinRoomCore (s : State) (sid : String) (m : Message) (n : Nat)
    (hc : s.rooms.has m.roomCode = true) (k x : String)
    (hx : ghostHas s.roomParticipants k x = true) :
    ghostHas (joinRoomCore s sid m n).1.roomParticipants k x = true := by
  have h6 := ghostHas_joinPrepare s sid m n hc
  unfold joinRoomCore
  simp only []
  split
  · exact hx
  · generalize joinPrepare s sid m n = pr at h6 ⊢
    have hts := obs_of_shape_eq (shape_trackUserConnection pr.1 m.roomCode
      (getUserDisplayName m) n)
    have h8 : ghostHas (upsertLiveMember (upsertParticipant (trackUserConnection pr.1
        m.roomCode (getUserDisplayName m) n).1 sid m.roomCode (getUserDisplayName m) n) sid
        m.roomCode (getUserDisplayName m) n).1.roomParticipants k x = true := by
      rw [upsertLiveMember_ghosts, ghostHas_upsertParticipant _ sid m.roomCode
        (getUserDisplayName m) n (by rw [hts.2.2.1]; exact h6.2), hts.2.2.2.2,
        h6.1 k x hx]
      rfl
    generalize (upsertLiveMember (upsertParticipant (trackUserConnection pr.1 m.roomCode
        (getUserDisplayName m) n).1 sid m.roomCode (getUserDisplayName m) n) sid m.roomCode
        (getUserDisplayName m) n) = lm at h8 ⊢
    generalize (trackUserConnection pr.1 m.roomCode (getUserDisplayName m) n).2 = tr
    split
    · rw [(obs_of_shape_eq (shape_joinNotification lm.1 m.roomCode
        (getUserDisplayName m) n)).2.2.2.2]
      exact h8
    · exact h8

/-- C12 as amended: `createRoom(code)` never fails: it returns a new room
object without live members and with `userCount = 0` (never a failure result),
and in every state it stores that object under `code` together with an empty
history log and an empty ghost directory, replacing what was stored there and
leaving every other code alone. An existing room is protected by the caller: a
`joinRoom` event for a code that `rooms` holds does not replace the room: the
same room object is stored afterwards, with every live member and every ghost
name it had, and its history log is the old one followed by new entries. -/
theorem createRoom_always_installs (s : State) (roomCode : String) :
    (createRoom s roomCode).2 = { oid := s.nextOid, users := [], userCount := 0 } ∧
    (createRoom s roomCode).1.rooms.get? roomCode = some (createRoom s roomCode).2 ∧
    (createRoom s roomCode).1.roomMessages.get? roomCode = some [] ∧
    (createRoom s roomCode).1.roomParticipants.get? roomCode = some [] ∧
    (∀ c, c ≠ roomCode →
      (createRoom s roomCode).1.rooms.get? c = s.rooms.get? c ∧
      (createRoom s roomCode).1.roomMessages.get? c = s.roomMessages.get? c ∧
      (createRoom s roomCode).1.roomParticipants.get? c = s.roomParticipants.get? c) ∧
    (∀ (sid : String) (m : Message) (now : Nat), m.roomCode = roomCode →
      s.rooms.has roomCode = true →
      oidOf (step s now (.joinRoom sid m)).1.rooms roomCode = oidOf s.rooms roomCode ∧
      (∀ name, MemberOf s.rooms roomCode name →
        MemberOf (step s now (.joinRoom sid m)).1.rooms roomCode name) ∧
      (∀ name, ghostHas s.roomParticipants roomCode name = true →
        ghostHas (step s now (.joinRoom sid m)).1.roomParticipants roomCode name = true) ∧
      ∃ added, historyOf (step s now (.joinRoom sid m)).1 roomCode =
        historyOf s roomCode ++ added) := by
  refine ⟨rfl, JsMap.get?_set_same _ _ _, JsMap.get?_set_same _ _ _,
    JsMap.get?_set_same _ _ _,
    fun c hc => ⟨JsMap.get?_set_ne _ _ hc, JsMap.get?_set_ne _ _ hc, JsMap.get?_set_ne _ _ hc⟩,
    ?_⟩
  intro sid m now hm hh
  subst hm
  simp only [step]
  split
  · exact ⟨oidOf_joinRoomCore s sid m now hh,
      fun name hn => member_joinRoomCore s sid m now hn,
      fun name hn => ghostHas_joinRoomCore s sid m now hh _ _ hn,
      (logGrows_joinRoomCore s sid m now hh).1⟩
  · exact ⟨rfl, fun name hn => hn, fun name hn => hn, ⟨[], by simp⟩⟩

/-- Witness of the amended C12: alice rejoins the existing room `ABC`; the room
object, alice as live member and as ghost, and the log of two entries are
kept. -/
theorem createRoom_always_installs_witness :
    (run State.init traceAliceDropped).1.rooms.has "ABC" = true ∧
    (historyOf (step (run State.init traceAliceDropped).1 2500
      (.joinRoom "s2" msgAlice)).1 "ABC").length = 2 ∧
    oidOf (step (run State.init traceAliceDropped).1 2500
      (.joinRoom "s2" msgAlice)).1.rooms "ABC" =
      oidOf (run State.init traceAliceDropped).1.rooms "ABC" ∧
    (createRoom (run State.init traceAliceDropped).1 "XYZ").2 =
      { oid := 1, users := [], userCount := 0 } :=
  ⟨by decide, by decide,
   ((createRoom_always_installs (run State.init traceAliceDropped).1 "ABC").2.2.2.2.2
      "s2" msgAlice 2500 rfl (by decide)).1,
   by decide⟩

end ChatServer
